import Mathlib

/-!
# Blaze: sparse/dense cross-product node, LU decomposition, type traits, identity matrix

A shallow embedding of

* `blaze/math/expressions/SVecDVecCrossExpr.h` (the expression node of the
  cross product of a sparse and a dense vector, its element access, its
  aliasing queries and its assignment kernels),
* `blaze/math/dense/LU.h` (reconstruction of the permutation matrix from the
  pivot array and the split of the factorized buffer into `L` and `U`),
* `blaze/util/mpl/Nor.h`,
* the traits `SchurTrait`, `TDMatScalarMultExprTrait`, `TSVecRealExprTrait` and
  `SubTrait` of `blaze/math/traits`,
* the identity matrix and the structure predicates exercised by
  `blazetest/src/mathtest/sparsematrix/IdentityTest.cpp`, and
* `blaze/util/algorithms/UninitializedDefaultConstruct.h`.

Conventions of the embedding:

* dense vectors live in a heap addressed by natural numbers, so that a target
  and an operand can be the very same object;
* an access outside the bounds of a container is undefined behaviour in the
  source and yields `none` here;
* a C++ exception is a value of `Exception` in `Except`;
* the `int` values of `LU.h` are modelled by `Int` (dimensions are passed to
  LAPACK as `int`, so they are taken to fit that type);
* a trait that instantiates itself on other types takes a bound on the number of
  nested instantiations and yields `none` when the bound does not suffice.
-/

namespace blaze

/-! ## Containers -/

/-- Exceptions thrown by the modelled code. -/
inductive Exception where
  | invalid_argument (msg : String)
  | out_of_range (msg : String)
  deriving DecidableEq, Repr

/-- Modelled from the spec: the sparse vector container (its class is not under
`src/`). Following the capability contract of the spec (size, random-access element
read), a sparse vector is its size together with its stored `(index, value)` pairs. -/
structure SparseVector (α : Type) where
  size : Nat
  elements : List (Nat × α)

/-- Modelled from the spec: random-access element read of a sparse vector; an index
without a stored element reads as the additive identity, an index outside the vector
is undefined (`none`). -/
def SparseVector.get? {α : Type} [Zero α] (v : SparseVector α) (i : Nat) : Option α :=
  if i < v.size then
    match v.elements.find? (fun e => e.1 == i) with
    | some e => some e.2
    | none => some 0
  else none

/-- The memory holding the dense vectors: address to contents. -/
abbrev Heap (α : Type) := Nat → List α

/-- Element write `v[i] = x` on the dense vector at `addr`; undefined (`none`) outside
the bounds of the vector. -/
def Heap.write {α : Type} (h : Heap α) (addr i : Nat) (x : α) : Option (Heap α) :=
  if i < (h addr).length then some (Function.update h addr ((h addr).set i x)) else none

/-- The right-hand side dense operand `VT2` of the node: a plain dense vector (not a
computation, referred to by its address), a plain operand that is a view over the memory
(not a computation either: a subvector, a row or a custom vector, whose elements are
those of other vectors), or a computation expression. The values of a view and of a
computation are taken from the current memory whenever the operand is read. -/
inductive DenseOperand (α : Type) where
  | vector (addr : Nat)
  | view (read : Heap α → List α)
  | computation (eval : Heap α → List α)

/-- The values the dense operand currently stands for. -/
def DenseOperand.values {α : Type} (v : DenseOperand α) (h : Heap α) : List α :=
  match v with
  | .vector addr => h addr
  | .view read => read h
  | .computation eval => eval h

/-- Member `size()` of the dense operand. -/
def DenseOperand.size {α : Type} (v : DenseOperand α) (h : Heap α) : Nat :=
  (v.values h).length

/-- Member `operator[]` of the dense operand. -/
def DenseOperand.get? {α : Type} (v : DenseOperand α) (h : Heap α) (i : Nat) : Option α :=
  (v.values h)[i]?

/-! ## `SVecDVecCrossExpr` -/

/-- Class `SVecDVecCrossExpr`: the two operands `lhs_` and `rhs_`. -/
structure SVecDVecCrossExpr (α : Type) where
  lhs_ : SparseVector α
  rhs_ : DenseOperand α

/-- `SVecDVecCrossExpr::operator[]` (lines 172-181). The internal assertion
`index < 3` is not compiled into release builds; every index other than 0 and 1 takes
the last branch. -/
def SVecDVecCrossExpr.subscript {α : Type} [Zero α] [Mul α] [Sub α]
    (e : SVecDVecCrossExpr α) (h : Heap α) (index : Nat) : Option α :=
  if index = 0 then do
    let l1 ← e.lhs_.get? 1
    let r2 ← e.rhs_.get? h 2
    let l2 ← e.lhs_.get? 2
    let r1 ← e.rhs_.get? h 1
    pure (l1 * r2 - l2 * r1)
  else if index = 1 then do
    let l2 ← e.lhs_.get? 2
    let r0 ← e.rhs_.get? h 0
    let l0 ← e.lhs_.get? 0
    let r2 ← e.rhs_.get? h 2
    pure (l2 * r0 - l0 * r2)
  else do
    let l0 ← e.lhs_.get? 0
    let r1 ← e.rhs_.get? h 1
    let l1 ← e.lhs_.get? 1
    let r0 ← e.rhs_.get? h 0
    pure (l0 * r1 - l1 * r0)

/-- `SVecDVecCrossExpr::size` (lines 204-206). -/
def SVecDVecCrossExpr.size {α : Type} (_e : SVecDVecCrossExpr α) : Nat := 3

/-- The local `LT x( serial( rhs.lhs_ ) )` of the assignment kernels: `LT` is always a
`StaticVector<ET1,3>`, a copy of the three elements of the left operand. -/
def evalLT {α : Type} [Zero α] (lhs : SparseVector α) : Option (α × α × α) := do
  let x0 ← lhs.get? 0
  let x1 ← lhs.get? 1
  let x2 ← lhs.get? 2
  pure (x0, x1, x2)

/-- The local `RT y( serial( rhs.rhs_ ) )` of the assignment kernels (type `RT`, lines
139-140): for a computation `RT` is a `StaticVector<ET2,3>`, a copy made from the memory
at the time of the declaration; otherwise `RT` is the composite type of the dense
vector, a reference, and every read of `y` sees the memory at the time of the read. -/
def evalRT {α : Type} (rhs : DenseOperand α) (h : Heap α) : Heap α → Nat → Option α :=
  match rhs with
  | .vector addr => fun now i => (now addr)[i]?
  | .view read => fun now i => (read now)[i]?
  | .computation eval => fun _ i => (eval h)[i]?

/-- Kernel `assign( DenseVector& lhs, const SVecDVecCrossExpr& rhs )` (lines 271-285);
`lhs` is the address of the target. -/
def assign {α : Type} [Zero α] [Mul α] [Sub α]
    (h : Heap α) (lhs : Nat) (rhs : SVecDVecCrossExpr α) : Option (Heap α) := do
  let (x0, x1, x2) ← evalLT rhs.lhs_
  let y := evalRT rhs.rhs_ h
  let y2 ← y h 2
  let y1 ← y h 1
  let h1 ← h.write lhs 0 (x1 * y2 - x2 * y1)
  let y0 ← y h1 0
  let y2 ← y h1 2
  let h2 ← h1.write lhs 1 (x2 * y0 - x0 * y2)
  let y1 ← y h2 1
  let y0 ← y h2 0
  h2.write lhs 2 (x0 * y1 - x1 * y0)

/-- Operator `operator%( SparseVector, DenseVector )` (lines 502-516). -/
def operator_mod {α : Type} (h : Heap α) (lhs : SparseVector α) (rhs : DenseOperand α) :
    Except Exception (SVecDVecCrossExpr α) :=
  if lhs.size ≠ 3 ∨ rhs.size h ≠ 3 then
    .error (.invalid_argument "Invalid vector size for cross product")
  else
    .ok ⟨lhs, rhs⟩

/-- Function `cross( SparseVector, DenseVector )` (lines 546-552): `return lhs % rhs`. -/
def cross {α : Type} (h : Heap α) (lhs : SparseVector α) (rhs : DenseOperand α) :
    Except Exception (SVecDVecCrossExpr α) :=
  operator_mod h lhs rhs

/-- `SVecDVecCrossExpr::at` (lines 191-196): the checked element access. -/
def SVecDVecCrossExpr.at_ {α : Type} [Zero α] [Mul α] [Sub α]
    (e : SVecDVecCrossExpr α) (h : Heap α) (index : Nat) : Except Exception (Option α) :=
  if index ≥ 3 then
    .error (.out_of_range "Invalid vector access index")
  else
    .ok (e.subscript h index)

/-- `SVecDVecCrossExpr::canAlias` (lines 235-238). The member `canAlias` of the two
operand types is a capability of those types and a parameter here; `addr` is the
argument `alias`. -/
def SVecDVecCrossExpr.canAlias {α : Type}
    (lhsCanAlias : SparseVector α → Nat → Bool) (rhsCanAlias : DenseOperand α → Nat → Bool)
    (e : SVecDVecCrossExpr α) (addr : Nat) : Bool :=
  lhsCanAlias e.lhs_ addr || rhsCanAlias e.rhs_ addr

/-- `SVecDVecCrossExpr::isAliased` (lines 247-250). The member `isAliased` of the two
operand types is a capability of those types and a parameter here; `addr` is the
argument `alias`. -/
def SVecDVecCrossExpr.isAliased {α : Type}
    (lhsIsAliased : SparseVector α → Nat → Bool) (rhsIsAliased : DenseOperand α → Nat → Bool)
    (e : SVecDVecCrossExpr α) (addr : Nat) : Bool :=
  lhsIsAliased e.lhs_ addr || rhsIsAliased e.rhs_ addr

/-- The compound element assignment `v[i] op= x` on the dense vector at `addr`: the
element is read, combined with `x` (the element on the left) and written back;
undefined (`none`) outside the bounds of the vector. -/
def Heap.modify {α : Type} (h : Heap α) (addr i : Nat) (op : α → α → α) (x : α) :
    Option (Heap α) :=
  ((h addr)[i]?).bind fun old => h.write addr i (op old x)

/-- Kernel `multAssign( DenseVector& lhs, const SVecDVecCrossExpr& rhs )` (lines
399-413); `lhs` is the address of the target. -/
def multAssign {α : Type} [Zero α] [Mul α] [Sub α]
    (h : Heap α) (lhs : Nat) (rhs : SVecDVecCrossExpr α) : Option (Heap α) := do
  let (x0, x1, x2) ← evalLT rhs.lhs_
  let y := evalRT rhs.rhs_ h
  let y2 ← y h 2
  let y1 ← y h 1
  let h1 ← h.modify lhs 0 (fun a b => a * b) (x1 * y2 - x2 * y1)
  let y0 ← y h1 0
  let y2 ← y h1 2
  let h2 ← h1.modify lhs 1 (fun a b => a * b) (x2 * y0 - x0 * y2)
  let y1 ← y h2 1
  let y0 ← y h2 0
  h2.modify lhs 2 (fun a b => a * b) (x0 * y1 - x1 * y0)

/-- Kernel `divAssign( DenseVector& lhs, const SVecDVecCrossExpr& rhs )` (lines
433-447); `lhs` is the address of the target. -/
def divAssign {α : Type} [Zero α] [Mul α] [Sub α] [Div α]
    (h : Heap α) (lhs : Nat) (rhs : SVecDVecCrossExpr α) : Option (Heap α) := do
  let (x0, x1, x2) ← evalLT rhs.lhs_
  let y := evalRT rhs.rhs_ h
  let y2 ← y h 2
  let y1 ← y h 1
  let h1 ← h.modify lhs 0 (fun a b => a / b) (x1 * y2 - x2 * y1)
  let y0 ← y h1 0
  let y2 ← y h1 2
  let h2 ← h1.modify lhs 1 (fun a b => a / b) (x2 * y0 - x0 * y2)
  let y1 ← y h2 1
  let y0 ← y h2 0
  h2.modify lhs 2 (fun a b => a / b) (x0 * y1 - x1 * y0)

/-! ## Dense matrices and loops -/

/-- Modelled from the spec: the storage-order flag `rowMajor` (declared in
`blaze/math/StorageOrder.h`, not under `src/`). `LU.h` fixes its value: the code takes
`size = SO1 ? m : n` and the documentation of `lu` makes `P` m-by-m for a column-major
and n-by-n for a row-major matrix. -/
def rowMajor : Bool := false

/-- Modelled from the spec: the storage-order flag `columnMajor`, the opposite of
`rowMajor`. -/
def columnMajor : Bool := true

/-- A (resizable) matrix: its numbers of rows and columns and its elements. Only the
elements at positions inside the bounds belong to the matrix. -/
structure DMatrix (α : Type) where
  rows : Nat
  columns : Nat
  elem : Nat → Nat → α

/-- Element read `M(i,j)`; undefined (`none`) outside the bounds. -/
def DMatrix.get? {α : Type} (M : DMatrix α) (i j : Nat) : Option α :=
  if i < M.rows ∧ j < M.columns then some (M.elem i j) else none

/-- Element write `M(i,j) = x`; undefined (`none`) outside the bounds. -/
def DMatrix.set? {α : Type} (M : DMatrix α) (i j : Nat) (x : α) : Option (DMatrix α) :=
  if i < M.rows ∧ j < M.columns then
    some ⟨M.rows, M.columns, fun a b => if a = i ∧ b = j then x else M.elem a b⟩
  else none

/-- Function `resize( M, m, n )` on a resizable matrix. -/
def resize {α : Type} (M : DMatrix α) (m n : Nat) : DMatrix α :=
  ⟨m, n, M.elem⟩

/-- Function `reset( M )`: every element becomes the default value. -/
def reset {α : Type} [Zero α] (M : DMatrix α) : DMatrix α :=
  ⟨M.rows, M.columns, fun _ _ => 0⟩

/-- The loop `for( i = lo; count iterations; ++i ) body`, the state threaded through; it
stops at the first undefined step. -/
def forLoop {σ : Type} (body : Nat → σ → Option σ) : Nat → Nat → σ → Option σ
  | 0, _, s => some s
  | count + 1, lo, s => (body lo s).bind (forLoop body count (lo + 1))

/-- The loop `for( i = lo; i < hi; ++i ) body`. -/
def forRange {σ : Type} (lo hi : Nat) (body : Nat → σ → Option σ) (s : σ) : Option σ :=
  forLoop body (hi - lo) lo s

/-! ## `LU.h` -/

/-- The call `std::swap( permut[p], permut[i] )` on the array `permut` of `size` entries,
`p` being an `int`; undefined (`none`) if an index is outside the array. -/
def swapPermut (size : Nat) (permut : Nat → Int) (p : Int) (i : Nat) : Option (Nat → Int) :=
  if 0 ≤ p ∧ p.toNat < size ∧ i < size then
    some (Function.update (Function.update permut p.toNat (permut i)) i (permut p.toNat))
  else none

/-- Lines 112-121 of `lu( A, P )`: `permut` is initialized to the identity and then, for
`i` below `mindim`, `ipiv[i]` is decremented and, if it differs from `i`, the entries
`permut[ipiv[i]]` and `permut[i]` are swapped. The array `permut` has `size` entries; the
values of the function at the indices from `size` on are no part of it and are never
read or written. -/
def reconstructPermut (mindim size : Nat) (ipiv : Nat → Int) : Option (Nat → Int) :=
  forRange 0 mindim
    (fun i permut =>
      let p := ipiv i - 1
      if p ≠ (i : Int) then swapPermut size permut p i else some permut)
    (fun i => (i : Int))

/-- Lines 123-127 of `lu( A, P )`: `P` is resized to `size`-by-`size` and reset, then
`P( SO1 ? permut[i] : i, SO1 ? i : permut[i] ) = 1` for every `i` below `size`. -/
def materializeP {α : Type} [Zero α] [One α]
    (SO1 : Bool) (size : Nat) (permut : Nat → Int) (P : DMatrix α) : Option (DMatrix α) :=
  forRange 0 size
    (fun i P =>
      if 0 ≤ permut i then
        P.set? (if SO1 then (permut i).toNat else i) (if SO1 then i else (permut i).toNat) 1
      else none)
    (reset (resize P size size))

/-- The auxiliary `lu( DenseMatrix& A, Matrix& P )` (lines 89-128). The LAPACK wrapper
`getrf` is not under `src/` and is a parameter: called with the storage order and the
matrix, it gives the elements of the matrix after the in-place factorization and the
pivot array `ipiv` (1-based entries, read at the indices below `mindim`). The result is
the factorized `A` and the matrix `P`. -/
def luP {α : Type} [Zero α] [One α]
    (getrf : Bool → DMatrix α → (Nat → Nat → α) × (Nat → Int))
    (SO1 : Bool) (A P : DMatrix α) : Option (DMatrix α × DMatrix α) :=
  let m := A.rows
  let n := A.columns
  let mindim := min m n
  let size := if SO1 then m else n
  let (F, ipiv) := getrf SO1 A
  (reconstructPermut mindim size ipiv).bind fun permut =>
  (materializeP SO1 size permut P).bind fun P =>
  some (⟨m, n, F⟩, P)

/-- The inner statement `X(i,j) = Y(i,j); reset( Y(i,j) );` of the four split loops, on
the state `(X, Y)`. -/
def moveElem {α : Type} [Zero α] (i j : Nat) (s : DMatrix α × DMatrix α) :
    Option (DMatrix α × DMatrix α) :=
  (s.2.get? i j).bind fun y =>
  (s.1.set? i j y).bind fun X =>
  (s.2.set? i j 0).bind fun Y =>
  some (X, Y)

/-- The statements `X(i,i) = Y(i,i); Y(i,i) = 1;` on the state `(X, Y)`. -/
def moveDiag {α : Type} [One α] (i : Nat) (s : DMatrix α × DMatrix α) :
    Option (DMatrix α × DMatrix α) :=
  (s.2.get? i i).bind fun y =>
  (s.1.set? i i y).bind fun X =>
  (s.2.set? i i 1).bind fun Y =>
  some (X, Y)

/-- The statement `X(i,i) = 1;` on the state `(X, Y)`. -/
def unitDiag {α : Type} [One α] (i : Nat) (s : DMatrix α × DMatrix α) :
    Option (DMatrix α × DMatrix α) :=
  (s.1.set? i i 1).bind fun X => some (X, s.2)

/-- Lines 218-230, wide branch, row-major: state `(L2, U2)`. -/
def splitWideRowMajor {α : Type} [Zero α] [One α] (m : Nat) (s : DMatrix α × DMatrix α) :
    Option (DMatrix α × DMatrix α) :=
  forRange 0 m (fun i s =>
    (forRange 0 i (fun j s => moveElem i j s) s).bind fun s =>
    moveDiag i s) s

/-- Lines 231-242, wide branch, column-major: state `(L2, U2)`. -/
def splitWideColumnMajor {α : Type} [Zero α] [One α] (m : Nat) (s : DMatrix α × DMatrix α) :
    Option (DMatrix α × DMatrix α) :=
  forRange 0 m (fun j s =>
    (unitDiag j s).bind fun s =>
    forRange (j + 1) m (fun i s => moveElem i j s) s) s

/-- Lines 252-263, square/tall branch, row-major: state `(U2, L2)`. -/
def splitTallRowMajor {α : Type} [Zero α] [One α] (n : Nat) (s : DMatrix α × DMatrix α) :
    Option (DMatrix α × DMatrix α) :=
  forRange 0 n (fun i s =>
    (unitDiag i s).bind fun s =>
    forRange (i + 1) n (fun j s => moveElem i j s) s) s

/-- Lines 264-276, square/tall branch, column-major: state `(U2, L2)`. -/
def splitTallColumnMajor {α : Type} [Zero α] [One α] (n : Nat) (s : DMatrix α × DMatrix α) :
    Option (DMatrix α × DMatrix α) :=
  forRange 0 n (fun j s =>
    (forRange 0 j (fun i s => moveElem i j s) s).bind fun s =>
    moveDiag j s) s

/-- The function `lu( A, L, U, P )` (lines 179-278); the result is `(L, U, P)`. `L`, `U`
and `P` are resizable matrices distinct from `A` and from each other. -/
def lu {α : Type} [Zero α] [One α]
    (getrf : Bool → DMatrix α → (Nat → Nat → α) × (Nat → Int))
    (SO1 : Bool) (A L U P : DMatrix α) : Option (DMatrix α × DMatrix α × DMatrix α) :=
  let m := A.rows
  let n := A.columns
  if m < n then
    let U2 := A
    (luP getrf SO1 U2 P).bind fun (U2, P) =>
    let L2 := reset (resize L m m)
    (if SO1 = rowMajor then splitWideRowMajor m (L2, U2)
      else splitWideColumnMajor m (L2, U2)).bind fun (L2, U2) =>
    some (L2, U2, P)
  else
    let L2 := A
    (luP getrf SO1 L2 P).bind fun (L2, P) =>
    let U2 := reset (resize U n n)
    (if SO1 = rowMajor then splitTallRowMajor n (U2, L2)
      else splitTallColumnMajor n (U2, L2)).bind fun (U2, L2) =>
    some (L2, U2, P)

/-! ## Matrix notions used to state the properties of `lu` -/

/-- The product `M * N` of two matrices, the inner dimension being the number of columns
of `M`. -/
def DMatrix.mul {α : Type} [AddCommMonoid α] [Mul α] (M N : DMatrix α) : DMatrix α :=
  ⟨M.rows, N.columns, fun i j => ∑ k in Finset.range M.columns, M.elem i k * N.elem k j⟩

/-- The transpose of a matrix. -/
def DMatrix.transpose {α : Type} (M : DMatrix α) : DMatrix α :=
  ⟨M.columns, M.rows, fun i j => M.elem j i⟩

/-- Two matrices have the same shape and the same elements. -/
def DMatrix.sameAs {α : Type} (M N : DMatrix α) : Prop :=
  M.rows = N.rows ∧ M.columns = N.columns ∧
    ∀ i j, i < M.rows → j < M.columns → M.elem i j = N.elem i j

/-- The elements `M` after the interchange of the rows `i` and `p`. -/
def interchangeRows {α : Type} (M : Nat → Nat → α) (i p : Nat) : Nat → Nat → α :=
  fun r c => if r = i then M p c else if r = p then M i c else M r c

/-- The elements `M` after the first `k` row interchanges recorded in the 1-based pivot
array `ipiv`, applied in order: interchange `i` exchanges the rows `i` and `ipiv[i] - 1`. -/
def applyInterchanges {α : Type} (M : Nat → Nat → α) (ipiv : Nat → Int) :
    Nat → (Nat → Nat → α)
  | 0 => M
  | k + 1 => interchangeRows (applyInterchanges M ipiv k) k (ipiv k - 1).toNat

/-- The permutation equivalent to the first `k` interchanges recorded in the 1-based
pivot array `ipiv`: interchange `i` exchanges `i` and `ipiv[i] - 1`. -/
def pivotPerm (ipiv : Nat → Int) : Nat → Equiv.Perm Nat
  | 0 => 1
  | k + 1 => pivotPerm ipiv k * Equiv.swap k (ipiv k - 1).toNat

/-- Modelled from the spec: the contract of the LAPACK routine `getrf` (external), which
factorizes a column-major matrix `B` in place with partial pivoting and row
interchanges. The pivots are 1-based row indices, and the buffer `G` holds the unit lower
factor (strictly below the diagonal) and the upper factor (on and above the diagonal) of
the row-interchanged matrix. -/
def LapackContract {α : Type} [CommRing α] (B : DMatrix α) (G : Nat → Nat → α)
    (ipiv : Nat → Int) : Prop :=
  (∀ i, i < min B.rows B.columns → 1 ≤ ipiv i ∧ ipiv i ≤ (B.rows : Int)) ∧
  ∀ r c, r < B.rows → c < B.columns →
    applyInterchanges B.elem ipiv (min B.rows B.columns) r c =
      ∑ j in Finset.range (min B.rows B.columns),
        (if r = j then 1 else if j < r then G r j else 0) * (if j ≤ c then G j c else 0)

/-- Modelled from the spec: the contract of the wrapper `getrf( A, ipiv )` of
`blaze/math/lapack/getrf.h` (not under `src/`). The buffer of a column-major matrix is
handed to LAPACK as it is; the buffer of a row-major matrix is the column-major buffer of
its transpose, so that LAPACK factorizes the transpose. -/
def GetrfContract {α : Type} [CommRing α] (SO1 : Bool) (A : DMatrix α) (F : Nat → Nat → α)
    (ipiv : Nat → Int) : Prop :=
  if SO1 then LapackContract A F ipiv
  else LapackContract A.transpose (fun i j => F j i) ipiv

/-! ## A model of the LAPACK factorization -/

/-- Modelled from the spec: the pivot search of the partial-pivoting factorization (BLAS
`iamax`): the first row index in `[j, m)` whose element in column `j` has the largest
absolute value. -/
def pivotSearch {α : Type} [LinearOrderedField α] (M : Nat → Nat → α) (j m : Nat) : Nat :=
  (List.range' (j + 1) (m - (j + 1))).foldl (fun p i => if |M p j| < |M i j| then i else p) j

/-- Modelled from the spec: step `j` of the partial-pivoting factorization of an `m`-by-`n`
column-major matrix (LAPACK `getf2`): pivot search, row interchange, scaling of the
column below the pivot, update of the trailing block. -/
def lapackStep {α : Type} [LinearOrderedField α] (m n j : Nat)
    (st : (Nat → Nat → α) × (Nat → Int)) : (Nat → Nat → α) × (Nat → Int) :=
  let M := st.1
  let p := pivotSearch M j m
  let ipiv := Function.update st.2 j ((p : Int) + 1)
  let M1 := if M p j ≠ 0 then interchangeRows M j p else M
  let M2 : Nat → Nat → α := fun r c =>
    if M p j ≠ 0 ∧ j < r ∧ r < m ∧ c = j then M1 r j / M1 j j else M1 r c
  let M3 : Nat → Nat → α := fun r c =>
    if j < r ∧ r < m ∧ j < c ∧ c < n then M2 r c - M2 r j * M2 j c else M2 r c
  (M3, ipiv)

/-- Modelled from the spec: the partial-pivoting factorization of a column-major matrix
(LAPACK `getrf`): `min(m,n)` steps, giving the factorized buffer and the pivot array. -/
def lapackGetrf {α : Type} [LinearOrderedField α] (B : DMatrix α) :
    (Nat → Nat → α) × (Nat → Int) :=
  (List.range (min B.rows B.columns)).foldl
    (fun st j => lapackStep B.rows B.columns j st) (B.elem, fun _ => 0)

/-- Modelled from the spec: the wrapper `getrf( A, ipiv )` of
`blaze/math/lapack/getrf.h` (not under `src/`), see `GetrfContract`. -/
def getrfModel {α : Type} [LinearOrderedField α] (SO1 : Bool) (A : DMatrix α) :
    (Nat → Nat → α) × (Nat → Int) :=
  if SO1 then lapackGetrf A
  else ((fun i j => (lapackGetrf A.transpose).1 j i), (lapackGetrf A.transpose).2)

/-- Modelled from the spec: the default storage order of the matrix types (configured
in `blaze/config/StorageOrder.h`, not under `src/`), which is row-major. -/
def defaultStorageOrder : Bool := rowMajor

/-! ## `Nor.h` -/

/-- Alias `Nor< T1, T2, Ts... >` (lines 73-79): the value is that of
`IsSame< Bools< false, T1, T2, Ts... >, Bools< T1, T2, Ts..., false > >`. A pack
`Bools<...>` is a list of booleans, and two packs are the same type exactly when the
lists are equal. -/
def Nor (T1 T2 : Bool) (Ts : List Bool) : Bool :=
  decide ((false :: T1 :: T2 :: Ts) = ((T1 :: T2 :: Ts) ++ [false]))

/-! ## Type traits: `SchurTrait.h`, `TDMatScalarMultExprTrait.h`, `TSVecRealExprTrait.h` -/

/-- Modelled from the spec: a C++ type as the traits see it, an unqualified type `base`
together with its `const` and `volatile` qualifiers and its reference modifier
(`const volatile base &`). -/
structure CppType (β : Type) where
  base : β
  isConst : Bool
  isVolatile : Bool
  isReference : Bool
  deriving DecidableEq, Repr

/-- Modelled from the spec: trait `IsConst` (`blaze/util/typetraits/IsConst.h`, not under
`src/`); a reference type is never `const` itself. -/
def IsConst {β : Type} (T : CppType β) : Bool := T.isConst && !T.isReference

/-- Modelled from the spec: trait `IsVolatile` (`blaze/util/typetraits/IsVolatile.h`, not
under `src/`); a reference type is never `volatile` itself. -/
def IsVolatile {β : Type} (T : CppType β) : Bool := T.isVolatile && !T.isReference

/-- Modelled from the spec: trait `IsReference` (`blaze/util/typetraits/IsReference.h`,
not under `src/`). -/
def IsReference {β : Type} (T : CppType β) : Bool := T.isReference

/-- Modelled from the spec: alias `Decay_` (`blaze/util/typetraits/Decay.h`, not under
`src/`): the type with its reference modifier and its `const` and `volatile` qualifiers
stripped. -/
def Decay_ {β : Type} (T : CppType β) : CppType β := ⟨T.base, false, false, false⟩

/-- The types the traits evaluate to: the sentinel `INVALID_TYPE`, an ordinary type, or
one of the two expression class templates with its template arguments. -/
inductive ResultType (β : Type) where
  | INVALID_TYPE
  | type (T : CppType β)
  | DMatScalarMultExpr (MT : CppType β) (ST : ResultType β) (SO : Bool)
  | SVecRealExpr (VT : CppType β) (TF : Bool)
  deriving DecidableEq, Repr

/-- The type traits of headers that are not under `src/`, which the three trait
templates take as given: the classifications of a type, its underlying numeric and
built-in element types, and the result type of a multiplication. -/
structure TypeTraits (β : Type) where
  IsDenseMatrix : CppType β → Bool
  IsColumnMajorMatrix : CppType β → Bool
  IsNumeric : CppType β → Bool
  IsSparseVector : CppType β → Bool
  IsRowVector : CppType β → Bool
  IsBuiltin : CppType β → Bool
  IsComplex : CppType β → Bool
  UnderlyingNumeric_ : CppType β → CppType β
  UnderlyingBuiltin_ : CppType β → CppType β
  MultTrait : CppType β → CppType β → ResultType β

/-- The condition `Or< IsConst<T>, IsVolatile<T>, IsReference<T> >` of the three
traits. -/
def hasQualifier {β : Type} (T : CppType β) : Bool :=
  IsConst T || IsVolatile T || IsReference T

/-- Class template `SchurTrait< T1, T2 >` (lines 122-149), member `Type`. The
specializations of the template live with the matrix classes, not under `src/`: `spec`
gives the member `Type` of the specialization that matches `T1, T2`, if there is one,
and the base template is used otherwise. `fuel` bounds the number of nested
instantiations `SchurTrait< Decay_<T1>, Decay_<T2> >`; `none` says that the bound did
not suffice. -/
def SchurTrait {β : Type} (spec : CppType β → CppType β → Option (ResultType β)) :
    Nat → CppType β → CppType β → Option (ResultType β)
  | fuel, T1, T2 =>
    match spec T1 T2 with
    | some r => some r
    | none =>
      if IsConst T1 || IsVolatile T1 || IsReference T1 ||
          IsConst T2 || IsVolatile T2 || IsReference T2 then
        match fuel with
        | 0 => none
        | fuel + 1 => SchurTrait spec fuel (Decay_ T1) (Decay_ T2)
      else some .INVALID_TYPE

/-- Class template `TDMatScalarMultExprTraitHelper< MT, ST, Condition >` (lines 75-109),
member `Type`. -/
def TDMatScalarMultExprTraitHelper {β : Type} (tr : TypeTraits β)
    (MT ST : CppType β) (Condition : Bool) : ResultType β :=
  if Condition then
    .DMatScalarMultExpr MT
      (if tr.IsComplex (tr.UnderlyingNumeric_ MT) && tr.IsBuiltin ST then
        tr.MultTrait (tr.UnderlyingBuiltin_ MT) ST
      else tr.MultTrait (tr.UnderlyingNumeric_ MT) ST)
      true
  else .INVALID_TYPE

/-- Class template `TDMatScalarMultExprTrait< MT, ST >` (lines 124-144), member `Type`;
`fuel` as for `SchurTrait`. -/
def TDMatScalarMultExprTrait {β : Type} (tr : TypeTraits β) :
    Nat → CppType β → CppType β → Option (ResultType β)
  | fuel, MT, ST =>
    if IsConst MT || IsVolatile MT || IsReference MT ||
        IsConst ST || IsVolatile ST || IsReference ST then
      match fuel with
      | 0 => none
      | fuel + 1 => TDMatScalarMultExprTrait tr fuel (Decay_ MT) (Decay_ ST)
    else
      some (TDMatScalarMultExprTraitHelper tr MT ST
        (tr.IsDenseMatrix MT && tr.IsColumnMajorMatrix MT && tr.IsNumeric ST))

/-- Class template `TSVecRealExprTrait< VT >` (lines 75-97), member `Type`; `fuel` as for
`SchurTrait`. -/
def TSVecRealExprTrait {β : Type} (tr : TypeTraits β) :
    Nat → CppType β → Option (ResultType β)
  | fuel, VT =>
    if IsConst VT || IsVolatile VT || IsReference VT then
      match fuel with
      | 0 => none
      | fuel + 1 => TSVecRealExprTrait tr fuel (Decay_ VT)
    else
      some (if tr.IsSparseVector VT && tr.IsRowVector VT then
          (if tr.IsBuiltin (tr.UnderlyingNumeric_ VT) then
            .type ⟨VT.base, true, VT.isVolatile, true⟩
          else .SVecRealExpr VT true)
        else .INVALID_TYPE)

/-- Modelled from the spec: the documentation of `SchurTrait` (lines 73-91), by which
the template is specialized for pairs of matrix types only. -/
def SpecializedForMatricesOnly {β : Type} (IsMatrix : CppType β → Bool)
    (spec : CppType β → CppType β → Option (ResultType β)) : Prop :=
  ∀ T1 T2, (spec T1 T2).isSome = true → IsMatrix T1 = true ∧ IsMatrix T2 = true

/-! ## Concrete inputs -/

/-- A few unqualified types for concrete instances of the traits: a column-major and a
row-major dense matrix of `double`, a dense column vector of `double`, a sparse row
vector of `double` and one of `complex<double>`, and the two scalar types. -/
inductive ExampleType where
  | columnMajorDenseMatrix
  | rowMajorDenseMatrix
  | denseVector
  | sparseRowVector
  | complexSparseRowVector
  | double
  | complexDouble
  deriving DecidableEq, Repr

/-- The type traits on the types of `ExampleType`. -/
def exampleTraits : TypeTraits ExampleType where
  IsDenseMatrix T := T.base = .columnMajorDenseMatrix ∨ T.base = .rowMajorDenseMatrix
  IsColumnMajorMatrix T := T.base = .columnMajorDenseMatrix
  IsNumeric T := T.base = .double ∨ T.base = .complexDouble
  IsSparseVector T := T.base = .sparseRowVector ∨ T.base = .complexSparseRowVector
  IsRowVector T := T.base = .sparseRowVector ∨ T.base = .complexSparseRowVector
  IsBuiltin T := T.base = .double
  IsComplex T := T.base = .complexDouble
  UnderlyingNumeric_ T :=
    if T.base = .complexSparseRowVector ∨ T.base = .complexDouble then
      ⟨.complexDouble, false, false, false⟩
    else ⟨.double, false, false, false⟩
  UnderlyingBuiltin_ _ := ⟨.double, false, false, false⟩
  MultTrait T1 T2 :=
    if T1.base = .complexDouble ∨ T2.base = .complexDouble then
      .type ⟨.complexDouble, false, false, false⟩
    else .type ⟨.double, false, false, false⟩

/-- A table of specializations of `SchurTrait` on the types of `ExampleType`: one entry,
for two unqualified column-major dense matrices. -/
def exampleSpec (T1 T2 : CppType ExampleType) : Option (ResultType ExampleType) :=
  if T1 = ⟨.columnMajorDenseMatrix, false, false, false⟩ ∧
      T2 = ⟨.columnMajorDenseMatrix, false, false, false⟩ then
    some (.type ⟨.columnMajorDenseMatrix, false, false, false⟩)
  else none


/-- The matrix `[[1,2],[0,3]]` of the scenario of the specification. -/
def exampleA : DMatrix ℚ :=
  ⟨2, 2, fun i j => if i = 0 ∧ j = 0 then 1 else if i = 0 ∧ j = 1 then 2
    else if i = 1 ∧ j = 1 then 3 else 0⟩

/-- The wide 2-by-3 matrix `[[1,2,3],[4,5,6]]`. -/
def exampleWide : DMatrix ℚ := ⟨2, 3, fun i j => ((3 * i + j + 1 : Nat) : ℚ)⟩

/-- A matrix without rows and columns, an output argument before the call. -/
def emptyMatrix : DMatrix ℚ := ⟨0, 0, fun _ _ => 0⟩

/-- The sparse vector `[0,0,5]`: size 3, one stored element at index 2. -/
def exampleSparse : SparseVector Int := ⟨3, [(2, 5)]⟩

/-- A memory whose dense vector at address 0 is `[1,1,1]` and whose dense vector at
address 1 is `[7,8,9]`. -/
def exampleHeap : Heap Int := fun addr =>
  if addr = 0 then [1, 1, 1] else if addr = 1 then [7, 8, 9] else []

/-- The sparse vector `[1,1,1]`: size 3, all three elements stored. -/
def exampleSparseOnes : SparseVector Int := ⟨3, [(0, 1), (1, 1), (2, 1)]⟩

/-- A memory of rational vectors: `[6,8,10]` at address 0 and `[1,2,4]` at address 1. -/
def exampleHeapQ : Heap ℚ := fun addr =>
  if addr = 0 then [6, 8, 10] else if addr = 1 then [1, 2, 4] else []

/-- The sparse rational vector `[1,0,2]`: size 3, elements stored at the indices 0
and 2. -/
def exampleSparseQ : SparseVector ℚ := ⟨3, [(0, 1), (2, 2)]⟩

/-! ## Specification predicates -/

/-- The dense operand does not alias the dense vector at address `t`: its values do not
depend on the contents of `t`. -/
def DenseOperand.independentOf {α : Type} (v : DenseOperand α) (t : Nat) : Prop :=
  ∀ (h : Heap α) (l : List α), v.values (Function.update h t l) = v.values h

/-- The array `permut` of `size` entries is a bijection of `[0, size)`: every entry lies in
`[0, size)`, no two entries are equal, and every index of `[0, size)` is an entry. -/
def IsBijectionBelow (size : Nat) (permut : Nat → Int) : Prop :=
  (∀ j, j < size → 0 ≤ permut j ∧ permut j < (size : Int)) ∧
  (∀ i j, i < size → j < size → permut i = permut j → i = j) ∧
  (∀ v, v < size → ∃ j, j < size ∧ permut j = (v : Int))

/-- The transposition exchanging `i` and `p`, applied to `j`. -/
def transposition (i p j : Nat) : Nat :=
  if j = i then p else if j = p then i else j

/-- The composition `t_0(t_1(...t_{k-1}(j)))` of the transpositions recorded in the 1-based
pivot array `ipiv`, where `t_i` exchanges `i` and the 0-based pivot `ipiv[i] - 1`. -/
def composedSwaps (ipiv : Nat → Int) : Nat → Nat → Nat
  | 0, j => j
  | k + 1, j => composedSwaps ipiv k (transposition k (ipiv k - 1).toNat j)

/-- The elementary swap matrix `S` of the transposition exchanging `i` and `p`: the
`size`-by-`size` identity matrix with the rows `i` and `p` exchanged. -/
def swapMatrix (α : Type) [Zero α] [One α] (size i p : Nat) : DMatrix α :=
  ⟨size, size, fun r c => if transposition i p r = c then 1 else 0⟩

/-- The product `S_0 * S_1 * ... * S_{k-1}` of the elementary swap matrices recorded in
the 1-based pivot array `ipiv` (the `size`-by-`size` identity matrix for `k = 0`). -/
def swapProduct (α : Type) [Semiring α] (size : Nat) (ipiv : Nat → Int) : Nat → DMatrix α
  | 0 => ⟨size, size, fun r c => if r = c then 1 else 0⟩
  | k + 1 => (swapProduct α size ipiv k).mul (swapMatrix α size k (ipiv k - 1).toNat)

/-- The all-zero (singular) 2-by-2 matrix. -/
def exampleZero : DMatrix ℚ := ⟨2, 2, fun _ _ => 0⟩

/-! ## `SubTrait.h` -/

/-- The declarations of headers that are not under `src/`, which `SubTrait.h` takes as
given: the trait `IsBuiltin_v`, the types that are instances of the class template
`complex`, the alias `CommonType_t`, the capability check `HasSub_v`, the type of the
expression `std::declval<T1>() - std::declval<T2>()`, and the tables of the
specializations of `SubTrait`, `SubTraitEval1` and `SubTraitEval2` that live with the
vector and matrix classes (each gives the member `Type` of the specialization that
matches `T1, T2`, if there is one). -/
structure SubTraitEnv (β : Type) where
  IsBuiltin_v : CppType β → Bool
  isComplexTemplate : β → Bool
  CommonType_t : CppType β → CppType β → CppType β
  HasSub_v : CppType β → CppType β → Bool
  subtractionType : CppType β → CppType β → CppType β
  SubTraitSpec : CppType β → CppType β → Option (ResultType β)
  SubTraitEval1Spec : CppType β → CppType β → Option (ResultType β)
  SubTraitEval2Spec : CppType β → CppType β → Option (ResultType β)

/-- The type `T` matches the pattern `complex<T1>` of the partial specializations: it is
an instance of `complex` without qualifier and reference modifier. -/
def matchesComplex {β : Type} (env : SubTraitEnv β) (T : CppType β) : Bool :=
  !T.isConst && !T.isVolatile && !T.isReference && env.isComplexTemplate T.base

/-- Class template `SubTraitEval2< T1, T2 >` (lines 266-281), member `Type`:
`If_t< HasSub_v<T1,T2>, SubType, Failure >::Type`, unless a specialization matches. -/
def SubTraitEval2 {β : Type} (env : SubTraitEnv β) (T1 T2 : CppType β) : ResultType β :=
  match env.SubTraitEval2Spec T1 T2 with
  | some r => r
  | none =>
    if env.HasSub_v T1 T2 then .type (env.subtractionType T1 T2) else .INVALID_TYPE

/-- Class template `SubTraitEval1< T1, T2 >` (lines 247-256), member `Type`:
`SubTraitEval2<T1,T2>::Type`, unless a specialization matches. -/
def SubTraitEval1 {β : Type} (env : SubTraitEnv β) (T1 T2 : CppType β) : ResultType β :=
  match env.SubTraitEval1Spec T1 T2 with
  | some r => r
  | none => SubTraitEval2 env T1 T2

/-- The member `Type` of the specialization of `SubTrait` that matches `T1, T2`, if there
is one: a specialization of another header, or one of the four partial specializations of
lines 161-207 (two identical built-in types; a complex and a built-in type; a built-in and
a complex type; two complex types). -/
def SubTraitSpecialization {β : Type} [DecidableEq β] (env : SubTraitEnv β)
    (T1 T2 : CppType β) : Option (ResultType β) :=
  match env.SubTraitSpec T1 T2 with
  | some r => some r
  | none =>
    if T1 = T2 ∧ env.IsBuiltin_v T1 = true then some (.type (Decay_ T1))
    else if matchesComplex env T1 = true ∧ env.IsBuiltin_v T2 = true then
      some (.type (env.CommonType_t T1 T2))
    else if env.IsBuiltin_v T1 = true ∧ matchesComplex env T2 = true then
      some (.type (env.CommonType_t T1 T2))
    else if matchesComplex env T1 = true ∧ matchesComplex env T2 = true then
      some (.type (env.CommonType_t T1 T2))
    else none

/-- The type of the lvalue `std::declval<T&>()`: `T` without its reference modifier. -/
def declvalLvalue {β : Type} (T : CppType β) : CppType β :=
  ⟨T.base, T.isConst, T.isVolatile, false⟩

/-- Class template `SubTrait< T1, T2 >` (lines 141-207), member `Type`. The base template
takes the return type of the call `evalSubTrait( std::declval<T1&>(), std::declval<T2&>() )`
(lines 60-78), whose arguments are lvalues of the types `T1` and `T2` without reference
modifier. The first overload `evalSubTrait( T1&, T2& )` binds both arguments without
adding a qualifier, so it is the better match as soon as one argument is not `const`, and
the result is `SubTraitEval1` of the two argument types. If both arguments are `const`,
the overloads bind the same reference types and the most specialized of the four
overloads with `const` parameters is selected, which deduces the two types without
`const` and `volatile`: the result is then `SubTrait` of these. `fuel` bounds the number
of these nested instantiations of `SubTrait`; `none` says that the bound did not
suffice. -/
def SubTrait {β : Type} [DecidableEq β] (env : SubTraitEnv β) :
    Nat → CppType β → CppType β → Option (ResultType β)
  | fuel, T1, T2 =>
    match SubTraitSpecialization env T1 T2 with
    | some r => some r
    | none =>
      if T1.isConst && T2.isConst then
        match fuel with
        | 0 => none
        | fuel + 1 => SubTrait env fuel (Decay_ T1) (Decay_ T2)
      else some (SubTraitEval1 env (declvalLvalue T1) (declvalLvalue T2))

/-- The declarations `SubTrait.h` takes as given, on the types of `ExampleType`:
`double` (with any qualifier, but no reference) is built-in, `complexDouble` is an
instance of `complex`, two operands can be subtracted if they have the same class or are
both scalars, and no further specialization exists. -/
def exampleSubTraitEnv : SubTraitEnv ExampleType where
  IsBuiltin_v T := T.base = .double && !T.isReference
  isComplexTemplate b := b = .complexDouble
  CommonType_t T1 T2 :=
    if T1.base = .complexDouble ∨ T2.base = .complexDouble then
      ⟨.complexDouble, false, false, false⟩
    else ⟨.double, false, false, false⟩
  HasSub_v T1 T2 :=
    T1.base = T2.base ∨
      ((T1.base = .double ∨ T1.base = .complexDouble) ∧
        (T2.base = .double ∨ T2.base = .complexDouble))
  subtractionType T1 T2 :=
    if T1.base = T2.base then ⟨T1.base, false, false, false⟩
    else ⟨.complexDouble, false, false, false⟩
  SubTraitSpec _ _ := none
  SubTraitEval1Spec _ _ := none
  SubTraitEval2Spec _ _ := none

/-- The types of the instance `vectorSubTraitEnv`: a dense vector class, the expression
class of the difference of two dense vectors, and `double`. -/
inductive VectorExampleType where
  | dynamicVector
  | dVecDVecSubExpr
  | double
  deriving DecidableEq, Repr

/-- Modelled from the spec: the declarations `SubTrait.h` takes as given, for a dense
vector class of the library (its header is not under `src/`). Arithmetic on containers is
lazy, so the subtraction expression of two dense vectors has an expression class as its
type; the result-type descriptor of the specification associates a pair of containers
with a concrete result container type, which the vector class declares as a
specialization of the helper template `SubTraitEval2`. -/
def vectorSubTraitEnv : SubTraitEnv VectorExampleType where
  IsBuiltin_v T := T.base = .double && !T.isReference
  isComplexTemplate _ := false
  CommonType_t T1 _ := ⟨T1.base, false, false, false⟩
  HasSub_v T1 T2 :=
    (T1.base = .dynamicVector ∧ T2.base = .dynamicVector) ∨
      (T1.base = .double ∧ T2.base = .double)
  subtractionType T1 _ :=
    if T1.base = .dynamicVector then ⟨.dVecDVecSubExpr, false, false, false⟩
    else ⟨.double, false, false, false⟩
  SubTraitSpec _ _ := none
  SubTraitEval1Spec _ _ := none
  SubTraitEval2Spec T1 T2 :=
    if T1.base = .dynamicVector ∧ T2.base = .dynamicVector then
      some (.type ⟨.dynamicVector, false, false, false⟩)
    else none

/-! ## The identity matrix and the structure predicates of `IdentityTest.cpp` -/

/-- Modelled from the spec: class template `IdentityMatrix< Type, SO >`, the
`n_`-by-`n_` identity matrix with storage order `SO`. Default construction gives size 0
and `IdentityMatrix( n )` gives size `n`. -/
structure IdentityMatrix (α : Type) (SO : Bool) where
  n_ : Nat

/-- Modelled from the spec: member `rows()` of the identity matrix. -/
def IdentityMatrix.rows {α : Type} {SO : Bool} (I : IdentityMatrix α SO) : Nat := I.n_

/-- Modelled from the spec: member `columns()` of the identity matrix. -/
def IdentityMatrix.columns {α : Type} {SO : Bool} (I : IdentityMatrix α SO) : Nat := I.n_

/-- Modelled from the spec: element access `I(i,j)` of the identity matrix, the
multiplicative identity on the diagonal and the additive identity elsewhere. -/
def IdentityMatrix.get {α : Type} [Zero α] [One α] {SO : Bool} (_I : IdentityMatrix α SO)
    (i j : Nat) : α :=
  if i = j then 1 else 0

/-- The identity matrix as a container of elements. -/
def IdentityMatrix.toMatrix {α : Type} [Zero α] [One α] {SO : Bool}
    (I : IdentityMatrix α SO) : DMatrix α :=
  ⟨I.rows, I.columns, I.get⟩

/-- Modelled from the spec: `nonZeros( I, i )`, the number of non-zero elements in row
`i` of a row-major and in column `i` of a column-major matrix. -/
def IdentityMatrix.nonZerosAt {α : Type} [Zero α] [One α] [DecidableEq α] {SO : Bool}
    (I : IdentityMatrix α SO) (i : Nat) : Nat :=
  if SO = rowMajor then (List.range I.columns).countP (fun j => decide (I.get i j ≠ 0))
  else (List.range I.rows).countP (fun j => decide (I.get j i ≠ 0))

/-- Modelled from the spec: `nonZeros( I )`, the total number of non-zero elements. -/
def IdentityMatrix.nonZeros {α : Type} [Zero α] [One α] [DecidableEq α] {SO : Bool}
    (I : IdentityMatrix α SO) : Nat :=
  ((List.range I.n_).map (fun i => I.nonZerosAt i)).sum

/-- The scan of all elements of a matrix: `p i j` holds at every position. -/
def DMatrix.allElements {α : Type} (M : DMatrix α) (p : Nat → Nat → Bool) : Bool :=
  (List.range M.rows).all fun i => (List.range M.columns).all fun j => p i j

/-- Modelled from the spec: predicate `isSymmetric`, a square matrix with
`M(i,j) = M(j,i)`. -/
def isSymmetric {α : Type} [DecidableEq α] (M : DMatrix α) : Bool :=
  decide (M.rows = M.columns) && M.allElements fun i j => decide (M.elem i j = M.elem j i)

/-- Modelled from the spec: predicate `isHermitian`, a square matrix with
`M(i,j) = conj( M(j,i) )`. -/
def isHermitian {α : Type} [DecidableEq α] [Star α] (M : DMatrix α) : Bool :=
  decide (M.rows = M.columns) &&
    M.allElements fun i j => decide (M.elem i j = star (M.elem j i))

/-- Modelled from the spec: predicate `isLower`, a square matrix whose elements above the
diagonal are zero. -/
def isLower {α : Type} [DecidableEq α] [Zero α] (M : DMatrix α) : Bool :=
  decide (M.rows = M.columns) && M.allElements fun i j => decide (i < j → M.elem i j = 0)

/-- Modelled from the spec: predicate `isUniLower`, a lower matrix with unit diagonal. -/
def isUniLower {α : Type} [DecidableEq α] [Zero α] [One α] (M : DMatrix α) : Bool :=
  decide (M.rows = M.columns) &&
    M.allElements fun i j => decide ((i < j → M.elem i j = 0) ∧ (i = j → M.elem i j = 1))

/-- Modelled from the spec: predicate `isUpper`, a square matrix whose elements below the
diagonal are zero. -/
def isUpper {α : Type} [DecidableEq α] [Zero α] (M : DMatrix α) : Bool :=
  decide (M.rows = M.columns) && M.allElements fun i j => decide (j < i → M.elem i j = 0)

/-- Modelled from the spec: predicate `isUniUpper`, an upper matrix with unit diagonal. -/
def isUniUpper {α : Type} [DecidableEq α] [Zero α] [One α] (M : DMatrix α) : Bool :=
  decide (M.rows = M.columns) &&
    M.allElements fun i j => decide ((j < i → M.elem i j = 0) ∧ (i = j → M.elem i j = 1))

/-- Modelled from the spec: predicate `isDiagonal`, a square matrix whose elements off
the diagonal are zero. -/
def isDiagonal {α : Type} [DecidableEq α] [Zero α] (M : DMatrix α) : Bool :=
  decide (M.rows = M.columns) && M.allElements fun i j => decide (i ≠ j → M.elem i j = 0)

/-- Modelled from the spec: predicate `isIdentity`, a square matrix whose diagonal
elements are the multiplicative identity and whose other elements are the additive
identity. -/
def isIdentity {α : Type} [DecidableEq α] [Zero α] [One α] (M : DMatrix α) : Bool :=
  decide (M.rows = M.columns) &&
    M.allElements fun i j => decide (M.elem i j = if i = j then 1 else 0)

/-- Modelled from the spec: predicate `isZero`, every element is zero. -/
def isZero {α : Type} [DecidableEq α] [Zero α] (M : DMatrix α) : Bool :=
  M.allElements fun i j => decide (M.elem i j = 0)

/-- Modelled from the spec: predicate `isUniform`, all elements are equal (to the first
one). -/
def isUniform {α : Type} [DecidableEq α] (M : DMatrix α) : Bool :=
  M.allElements fun i j => decide (M.elem i j = M.elem 0 0)

/-! ## `UninitializedDefaultConstruct.h` -/

/-- The state of one element of the range: raw (uninitialized) memory, a constructed
object, or an object that was constructed and then destroyed. -/
inductive Slot where
  | raw
  | constructed
  | destroyed
  deriving DecidableEq, Repr

/-- The operations of the algorithm on an element: the expression
`::new ( std::addressof( *current ) ) Value` and the call `first->~Value()`. -/
inductive Operation where
  | construct (i : Nat)
  | destroy (i : Nat)
  deriving DecidableEq, Repr

/-- The memory the iterators point into, one slot per position, and the operations made
on it so far, in order. -/
structure Storage where
  slots : Nat → Slot
  trace : List Operation

/-- The loop `for( ; current!=last; ++current ) ::new (...) Value;` inside the `try`
block (lines 70-72), `count` being the number of positions from `current` to `last`.
The default constructor of `Value` is a parameter: `construct i` is `none` if the
construction at position `i` succeeds and `some e` if it throws `e`, in which case no
object exists at `i`. The result is the memory, the iterator `current` and the exception
that left the loop, if any. -/
def constructLoop {ε : Type} (construct : Nat → Option ε) :
    Nat → Nat → Storage → Storage × Nat × Option ε
  | 0, current, s => (s, current, none)
  | count + 1, current, s =>
    match construct current with
    | some e => (⟨s.slots, s.trace ++ [.construct current]⟩, current, some e)
    | none =>
      constructLoop construct count (current + 1)
        ⟨Function.update s.slots current .constructed, s.trace ++ [.construct current]⟩

/-- The loop `for( ; first!=current; ++first ) first->~Value();` of the `catch` block
(lines 75-77), `count` being the number of positions from `first` to `current`. -/
def destroyLoop : Nat → Nat → Storage → Storage
  | 0, _, s => s
  | count + 1, first, s =>
    destroyLoop count (first + 1)
      ⟨Function.update s.slots first .destroyed, s.trace ++ [.destroy first]⟩

/-- Function `uninitialized_default_construct( first, last )` (lines 63-81) on the valid
range `[first, last)` of positions. The result is `.ok ()` on return and `.error e` if
the exception `e` is rethrown by the `catch` block, together with the memory. -/
def uninitialized_default_construct {ε : Type} (construct : Nat → Option ε)
    (first last : Nat) (s : Storage) : Except ε Unit × Storage :=
  match constructLoop construct (last - first) first s with
  | (s1, _, none) => (.ok (), s1)
  | (s1, current, some e) => (.error e, destroyLoop (current - first) first s1)

/-- An empty memory: every slot is raw and no operation was made. -/
def exampleStorage : Storage := ⟨fun _ => .raw, []⟩

/-! ## Theorems: cross product -/

section CrossLemmas

variable {α : Type}

theorem SparseVector.get?_isSome [Zero α] (a : SparseVector α) (i : Nat) (hi : i < a.size) :
    ∃ x, a.get? i = some x := by
  unfold SparseVector.get?
  rw [if_pos hi]
  cases a.elements.find? (fun e => e.1 == i) <;> simp

theorem operator_mod_ok_iff (h : Heap α) (a : SparseVector α) (b : DenseOperand α)
    (e : SVecDVecCrossExpr α) :
    operator_mod h a b = .ok e ↔ (a.size = 3 ∧ b.size h = 3 ∧ e = ⟨a, b⟩) := by
  unfold operator_mod
  by_cases hc : a.size ≠ 3 ∨ b.size h ≠ 3
  · rw [if_pos hc]
    constructor
    · intro hh; cases hh
    · rintro ⟨h1, h2, -⟩
      rcases hc with hc | hc
      · exact absurd h1 hc
      · exact absurd h2 hc
  · rw [if_neg hc]
    push_neg at hc
    constructor
    · intro hh
      injection hh with hh
      exact ⟨hc.1, hc.2, hh.symm⟩
    · rintro ⟨-, -, rfl⟩; rfl

theorem list_length_three (l : List α) (hl : l.length = 3) :
    ∃ b0 b1 b2, l = [b0, b1, b2] := by
  match l, hl with
  | [b0, b1, b2], _ => exact ⟨b0, b1, b2, rfl⟩

theorem evalRT_self (b : DenseOperand α) (h : Heap α) (i : Nat) :
    evalRT b h h i = (b.values h)[i]? := by
  cases b <;> rfl

/-- The reads of `y` after writes to the target `t` give the values the right operand had
before the call, if it is a computation (a copy) or does not share storage with `t`. -/
theorem evalRT_not_aliased (b : DenseOperand α) (h : Heap α) (t : Nat)
    (hna : (∃ eval, b = .computation eval) ∨ b.independentOf t) (l : List α) (i : Nat) :
    evalRT b h (Function.update h t l) i = (b.values h)[i]? := by
  rcases hna with ⟨eval, rfl⟩ | hna
  · rfl
  · have hv := hna h l
    cases b with
    | vector addr =>
      simp only [DenseOperand.values] at hv
      simp only [evalRT, DenseOperand.values, hv]
    | view read =>
      simp only [DenseOperand.values] at hv
      simp only [evalRT, DenseOperand.values, hv]
    | computation eval => rfl

theorem assign_not_aliased [Zero α] [Mul α] [Sub α] (h : Heap α) (a : SparseVector α)
    (b : DenseOperand α) (t : Nat) (a0 a1 a2 b0 b1 b2 : α)
    (ha0 : a.get? 0 = some a0) (ha1 : a.get? 1 = some a1) (ha2 : a.get? 2 = some a2)
    (hb : b.values h = [b0, b1, b2]) (ht : (h t).length = 3)
    (hna : (∃ eval, b = .computation eval) ∨ b.independentOf t) :
    assign h t ⟨a, b⟩ = some (Function.update h t
      [a1 * b2 - a2 * b1, a2 * b0 - a0 * b2, a0 * b1 - a1 * b0]) := by
  obtain ⟨t0, t1, t2, htl⟩ := list_length_three (h t) ht
  simp [assign, evalLT, ha0, ha1, ha2, evalRT_self, evalRT_not_aliased b h t hna, hb,
    Heap.write, htl]

end CrossLemmas

/-- C1: for every 3-element sparse vector `a` and 3-element dense operand `b` (values
`[b0,b1,b2]`), the node `a % b` is built and its element access returns
`a[1]*b[2]-a[2]*b[1]` at index 0, `a[2]*b[0]-a[0]*b[2]` at index 1 and
`a[0]*b[1]-a[1]*b[0]` at index 2. -/
theorem cross_subscript_formula {α : Type} [Zero α] [Mul α] [Sub α]
    (h : Heap α) (a : SparseVector α) (b : DenseOperand α) (b0 b1 b2 : α)
    (ha : a.size = 3) (hb : b.values h = [b0, b1, b2]) :
    ∃ a0 a1 a2 e, a.get? 0 = some a0 ∧ a.get? 1 = some a1 ∧ a.get? 2 = some a2 ∧
      operator_mod h a b = .ok e ∧
      e.subscript h 0 = some (a1 * b2 - a2 * b1) ∧
      e.subscript h 1 = some (a2 * b0 - a0 * b2) ∧
      e.subscript h 2 = some (a0 * b1 - a1 * b0) := by
  obtain ⟨a0, h0⟩ := a.get?_isSome 0 (by omega)
  obtain ⟨a1, h1⟩ := a.get?_isSome 1 (by omega)
  obtain ⟨a2, h2⟩ := a.get?_isSome 2 (by omega)
  refine ⟨a0, a1, a2, ⟨a, b⟩, h0, h1, h2, ?_, ?_, ?_, ?_⟩
  · rw [operator_mod_ok_iff]
    exact ⟨ha, by simp [DenseOperand.size, hb], rfl⟩
  · simp [SVecDVecCrossExpr.subscript, DenseOperand.get?, h1, h2, hb]
  · simp [SVecDVecCrossExpr.subscript, DenseOperand.get?, h0, h2, hb]
  · simp [SVecDVecCrossExpr.subscript, DenseOperand.get?, h0, h1, hb]

/-- Witness of C1 at the scenario of the specification: `a = [0,0,5]` (sparse, index 2
stored) and `b = [1,1,1]` give the elements `-5`, `5`, `0`. -/
theorem cross_subscript_formula_witness :
    exampleSparse.size = 3 ∧ (DenseOperand.vector 0).values exampleHeap = [1, 1, 1] ∧
    ∃ e, operator_mod exampleHeap exampleSparse (.vector 0) = .ok e ∧
      e.subscript exampleHeap 0 = some (-5) ∧
      e.subscript exampleHeap 1 = some 5 ∧
      e.subscript exampleHeap 2 = some 0 := by
  refine ⟨rfl, rfl, ?_⟩
  obtain ⟨a0, a1, a2, e, h0, h1, h2, he, e0, e1, e2⟩ :=
    cross_subscript_formula exampleHeap exampleSparse (.vector 0) 1 1 1 rfl rfl
  have k0 : a0 = 0 := by
    have : exampleSparse.get? 0 = some 0 := by decide
    rw [this] at h0; exact (Option.some.inj h0).symm
  have k1 : a1 = 0 := by
    have : exampleSparse.get? 1 = some 0 := by decide
    rw [this] at h1; exact (Option.some.inj h1).symm
  have k2 : a2 = 5 := by
    have : exampleSparse.get? 2 = some 5 := by decide
    rw [this] at h2; exact (Option.some.inj h2).symm
  subst k0 k1 k2
  exact ⟨e, he, by simpa using e0, by simpa using e1, by simpa using e2⟩

/-- C2: for every node `e = a % b` and every dense 3-element target `t` that does not
alias the operands, `assign(t, e)` succeeds, leaves every other dense vector untouched
and leaves `t[i] == e[i]` for `i = 0, 1, 2`, whatever `t` held before; the element access
gives the same values before and after the assignment. -/
theorem assign_agrees_with_subscript {α : Type} [Zero α] [Mul α] [Sub α]
    (h : Heap α) (a : SparseVector α) (b : DenseOperand α) (e : SVecDVecCrossExpr α)
    (t : Nat) (he : operator_mod h a b = .ok e) (ht : (h t).length = 3)
    (hna : b.independentOf t) :
    ∃ hNew, assign h t e = some hNew ∧ (hNew t).length = 3 ∧
      (∀ addr, addr ≠ t → hNew addr = h addr) ∧
      ∀ i, i < 3 → (e.subscript h i).isSome ∧ (hNew t)[i]? = e.subscript h i ∧
        e.subscript hNew i = e.subscript h i := by
  rw [operator_mod_ok_iff] at he
  obtain ⟨ha, hb, rfl⟩ := he
  obtain ⟨a0, h0⟩ := a.get?_isSome 0 (by omega)
  obtain ⟨a1, h1⟩ := a.get?_isSome 1 (by omega)
  obtain ⟨a2, h2⟩ := a.get?_isSome 2 (by omega)
  obtain ⟨b0, b1, b2, hbv⟩ := list_length_three (b.values h) hb
  refine ⟨_, assign_not_aliased h a b t a0 a1 a2 b0 b1 b2 h0 h1 h2 hbv ht (Or.inr hna),
    ?_, ?_, ?_⟩
  · simp
  · intro addr hat
    simp [Function.update, hat]
  · intro i hi
    have hbv2 := hna h [a1 * b2 - a2 * b1, a2 * b0 - a0 * b2, a0 * b1 - a1 * b0]
    rw [hbv] at hbv2
    interval_cases i <;>
      simp [SVecDVecCrossExpr.subscript, DenseOperand.get?, h0, h1, h2, hbv, hbv2]

/-- Witness of C2: `a = [0,0,5]`, `b = [1,1,1]` at address 0, target `[7,8,9]` at
address 1. -/
theorem assign_agrees_with_subscript_witness :
    ∃ hNew, assign exampleHeap 1 ⟨exampleSparse, .vector 0⟩ = some hNew ∧
      (hNew 1).length = 3 ∧ (∀ addr, addr ≠ 1 → hNew addr = exampleHeap addr) ∧
      ∀ i, i < 3 →
        ((SVecDVecCrossExpr.mk exampleSparse (.vector 0)).subscript exampleHeap i).isSome ∧
        (hNew 1)[i]? = (SVecDVecCrossExpr.mk exampleSparse (.vector 0)).subscript exampleHeap i ∧
        (SVecDVecCrossExpr.mk exampleSparse (.vector 0)).subscript hNew i =
          (SVecDVecCrossExpr.mk exampleSparse (.vector 0)).subscript exampleHeap i :=
  assign_agrees_with_subscript exampleHeap exampleSparse (.vector 0) ⟨exampleSparse, .vector 0⟩ 1
    rfl (by decide)
    (by intro h l; simp [DenseOperand.values, Function.update])

/-- C3, counterexample: with `a = [0,0,5]` and the target being the very same dense
vector as the right operand `b = [1,1,1]` (address 0), the node has the elements
`-5, 5, 0`, but `assign(t, a % b)` leaves `[-5, -25, 0]` in the target: the second write
reads the element 0 that the first write has just overwritten. -/
theorem assign_aliased_rhs_counterexample :
    ∃ e hNew, operator_mod exampleHeap exampleSparse (.vector 0) = .ok e ∧
      e.subscript exampleHeap 0 = some (-5) ∧ e.subscript exampleHeap 1 = some 5 ∧
      e.subscript exampleHeap 2 = some 0 ∧
      assign exampleHeap 0 e = some hNew ∧ hNew 0 = [-5, -25, 0] ∧ hNew 0 ≠ [-5, 5, 0] := by
  refine ⟨⟨exampleSparse, .vector 0⟩, Function.update exampleHeap 0 [-5, -25, 0], rfl,
    by decide, by decide, by decide, ?_, by simp, by simp⟩
  have h0 : exampleSparse.get? 0 = some 0 := by decide
  have h1 : exampleSparse.get? 1 = some 0 := by decide
  have h2 : exampleSparse.get? 2 = some 5 := by decide
  simp [assign, evalLT, evalRT, h0, h1, h2, Heap.write, exampleHeap, Function.update]

/-- C3, amended: for the node `a % b` and a dense 3-element target `t`, `assign(t, a % b)`
leaves `t` equal to the cross product of the values `a` and `b` had before the call
whenever the right operand is a computation or shares no storage with `t`: the left
operand and a computation on the right are copied into local buffers before the first
write, also when they refer to `t`, and a plain right operand (a vector or a view) is
read by reference between the writes, so its values must not depend on `t`. -/
theorem assign_cross_of_old_values {α : Type} [Zero α] [Mul α] [Sub α]
    (h : Heap α) (a : SparseVector α) (b : DenseOperand α) (e : SVecDVecCrossExpr α)
    (t : Nat) (b0 b1 b2 : α) (he : operator_mod h a b = .ok e)
    (hb : b.values h = [b0, b1, b2]) (ht : (h t).length = 3)
    (hna : (∃ eval, b = .computation eval) ∨ b.independentOf t) :
    ∃ a0 a1 a2, a.get? 0 = some a0 ∧ a.get? 1 = some a1 ∧ a.get? 2 = some a2 ∧
      assign h t e = some (Function.update h t
        [a1 * b2 - a2 * b1, a2 * b0 - a0 * b2, a0 * b1 - a1 * b0]) := by
  rw [operator_mod_ok_iff] at he
  obtain ⟨ha, -, rfl⟩ := he
  obtain ⟨a0, h0⟩ := a.get?_isSome 0 (by omega)
  obtain ⟨a1, h1⟩ := a.get?_isSome 1 (by omega)
  obtain ⟨a2, h2⟩ := a.get?_isSome 2 (by omega)
  exact ⟨a0, a1, a2, h0, h1, h2,
    assign_not_aliased h a b t a0 a1 a2 b0 b1 b2 h0 h1 h2 hb ht hna⟩

/-- Witness of the amended C3: the right operand is a computation that reads the target
itself (address 0, `[1,1,1]`), and the right operand is a view over the vector at
address 1 (`[7,8,9]`), which shares no storage with the target at address 0. -/
theorem assign_cross_of_old_values_witness :
    (∃ a0 a1 a2, exampleSparse.get? 0 = some a0 ∧ exampleSparse.get? 1 = some a1 ∧
      exampleSparse.get? 2 = some a2 ∧
      assign exampleHeap 0 ⟨exampleSparse, .computation (fun m => m 0)⟩ =
        some (Function.update exampleHeap 0
          [a1 * 1 - a2 * 1, a2 * 1 - a0 * 1, a0 * 1 - a1 * 1])) ∧
    (∃ a0 a1 a2, exampleSparse.get? 0 = some a0 ∧ exampleSparse.get? 1 = some a1 ∧
      exampleSparse.get? 2 = some a2 ∧
      assign exampleHeap 0 ⟨exampleSparse, .view (fun m => m 1)⟩ =
        some (Function.update exampleHeap 0
          [a1 * 9 - a2 * 8, a2 * 7 - a0 * 9, a0 * 8 - a1 * 7])) :=
  ⟨assign_cross_of_old_values exampleHeap exampleSparse (.computation (fun m => m 0))
      ⟨exampleSparse, .computation (fun m => m 0)⟩ 0 1 1 1 rfl rfl (by decide)
      (Or.inl ⟨_, rfl⟩),
   assign_cross_of_old_values exampleHeap exampleSparse (.view (fun m => m 1))
      ⟨exampleSparse, .view (fun m => m 1)⟩ 0 7 8 9 rfl rfl (by decide)
      (Or.inr (by intro h l; simp [DenseOperand.values, Function.update]))⟩

/-- C4: `operator%` raises an invalid-argument error if and only if the size of the left
operand is not 3 or the size of the right operand is not 3; it raises no other error, the
outcome is fixed by the two sizes alone (no element is read), otherwise the node over
exactly the two operands is returned, and `cross` forwards to `operator%`. -/
theorem operator_mod_invalid_argument_iff {α : Type}
    (h : Heap α) (a : SparseVector α) (b : DenseOperand α) :
    ((∃ msg, operator_mod h a b = .error (.invalid_argument msg)) ↔
        (a.size ≠ 3 ∨ b.size h ≠ 3)) ∧
    ((∃ x, operator_mod h a b = .error x) ↔ (a.size ≠ 3 ∨ b.size h ≠ 3)) ∧
    (∀ e, operator_mod h a b = .ok e ↔ (a.size = 3 ∧ b.size h = 3 ∧ e = ⟨a, b⟩)) ∧
    cross h a b = operator_mod h a b := by
  refine ⟨?_, ?_, operator_mod_ok_iff h a b, rfl⟩
  · unfold operator_mod
    by_cases hc : a.size ≠ 3 ∨ b.size h ≠ 3
    · rw [if_pos hc]
      exact ⟨fun _ => hc, fun _ => ⟨_, rfl⟩⟩
    · rw [if_neg hc]
      refine ⟨?_, fun hh => absurd hh hc⟩
      rintro ⟨msg, hm⟩
      cases hm
  · unfold operator_mod
    by_cases hc : a.size ≠ 3 ∨ b.size h ≠ 3
    · rw [if_pos hc]
      exact ⟨fun _ => hc, fun _ => ⟨_, rfl⟩⟩
    · rw [if_neg hc]
      refine ⟨?_, fun hh => absurd hh hc⟩
      rintro ⟨msg, hm⟩
      cases hm

section CrossLemmas2

variable {α : Type}

theorem subscript_values [Zero α] [Mul α] [Sub α] (h : Heap α) (a : SparseVector α)
    (b : DenseOperand α) (a0 a1 a2 b0 b1 b2 : α)
    (ha0 : a.get? 0 = some a0) (ha1 : a.get? 1 = some a1) (ha2 : a.get? 2 = some a2)
    (hb : b.values h = [b0, b1, b2]) :
    (SVecDVecCrossExpr.mk a b).subscript h 0 = some (a1 * b2 - a2 * b1) ∧
    (SVecDVecCrossExpr.mk a b).subscript h 1 = some (a2 * b0 - a0 * b2) ∧
    (SVecDVecCrossExpr.mk a b).subscript h 2 = some (a0 * b1 - a1 * b0) := by
  refine ⟨?_, ?_, ?_⟩
  · simp [SVecDVecCrossExpr.subscript, DenseOperand.get?, ha1, ha2, hb]
  · simp [SVecDVecCrossExpr.subscript, DenseOperand.get?, ha0, ha2, hb]
  · simp [SVecDVecCrossExpr.subscript, DenseOperand.get?, ha0, ha1, hb]

theorem multAssign_not_aliased [Zero α] [Mul α] [Sub α] (h : Heap α) (a : SparseVector α)
    (b : DenseOperand α) (t : Nat) (a0 a1 a2 b0 b1 b2 t0 t1 t2 : α)
    (ha0 : a.get? 0 = some a0) (ha1 : a.get? 1 = some a1) (ha2 : a.get? 2 = some a2)
    (hb : b.values h = [b0, b1, b2]) (ht : h t = [t0, t1, t2])
    (hna : (∃ eval, b = .computation eval) ∨ b.independentOf t) :
    multAssign h t ⟨a, b⟩ = some (Function.update h t
      [t0 * (a1 * b2 - a2 * b1), t1 * (a2 * b0 - a0 * b2), t2 * (a0 * b1 - a1 * b0)]) := by
  simp [multAssign, evalLT, ha0, ha1, ha2, evalRT_self, evalRT_not_aliased b h t hna, hb,
    Heap.modify, Heap.write, ht]

theorem divAssign_not_aliased [Zero α] [Mul α] [Sub α] [Div α] (h : Heap α)
    (a : SparseVector α)
    (b : DenseOperand α) (t : Nat) (a0 a1 a2 b0 b1 b2 t0 t1 t2 : α)
    (ha0 : a.get? 0 = some a0) (ha1 : a.get? 1 = some a1) (ha2 : a.get? 2 = some a2)
    (hb : b.values h = [b0, b1, b2]) (ht : h t = [t0, t1, t2])
    (hna : (∃ eval, b = .computation eval) ∨ b.independentOf t) :
    divAssign h t ⟨a, b⟩ = some (Function.update h t
      [t0 / (a1 * b2 - a2 * b1), t1 / (a2 * b0 - a0 * b2), t2 / (a0 * b1 - a1 * b0)]) := by
  simp [divAssign, evalLT, ha0, ha1, ha2, evalRT_self, evalRT_not_aliased b h t hna, hb,
    Heap.modify, Heap.write, ht]

/-- A plain right operand that is a view over the target is read by reference: every
read of the kernel sees the memory at the time of the read. -/
theorem evalRT_view (read : Heap α → List α) (h now : Heap α) (i : Nat) :
    evalRT (.view read) h now i = (read now)[i]? := rfl

/-- With `a = [0,0,5]` and the right operand a view over the target `[1,1,1]` at address
0, the kernel leaves `[-5, -25, 0]` in the target, as for the target itself. -/
theorem assign_view_over_target :
    assign exampleHeap 0 ⟨exampleSparse, .view (fun m => m 0)⟩ =
      some (Function.update exampleHeap 0 [-5, -25, 0]) := by
  have h0 : exampleSparse.get? 0 = some 0 := by decide
  have h1 : exampleSparse.get? 1 = some 0 := by decide
  have h2 : exampleSparse.get? 2 = some 5 := by decide
  simp [assign, evalLT, evalRT, h0, h1, h2, Heap.write, exampleHeap, Function.update]

theorem independentOf_vector_ne (b : DenseOperand α) (t : Nat) (h : Heap α)
    (hb : b.size h = 3) (hna : b.independentOf t) :
    ∀ addr, b = .vector addr → addr ≠ t := by
  rintro addr rfl rfl
  have := hna h []
  simp only [DenseOperand.values, Function.update_same] at this
  simp [DenseOperand.size, DenseOperand.values, ← this] at hb

end CrossLemmas2

/-- C12: anticommutativity. For all 3-element vectors `a` and `b` over a commutative
ring (each given as a sparse and as a dense operand holding the same three values), both
nodes `a % b` and `b % a` are built, and every component of `a % b` is the negation of
the same component of `b % a`, both computed by `operator[]`. -/
theorem cross_anticommutative {α : Type} [CommRing α] (h : Heap α)
    (sa sb : SparseVector α) (da db : DenseOperand α) (a0 a1 a2 b0 b1 b2 : α)
    (hsa : sa.size = 3) (hsb : sb.size = 3)
    (ha0 : sa.get? 0 = some a0) (ha1 : sa.get? 1 = some a1) (ha2 : sa.get? 2 = some a2)
    (hb0 : sb.get? 0 = some b0) (hb1 : sb.get? 1 = some b1) (hb2 : sb.get? 2 = some b2)
    (hda : da.values h = [a0, a1, a2]) (hdb : db.values h = [b0, b1, b2]) :
    ∃ ab ba, operator_mod h sa db = .ok ab ∧ operator_mod h sb da = .ok ba ∧
      ∀ i, i < 3 → ∃ x y, ab.subscript h i = some x ∧ ba.subscript h i = some y ∧ x = -y := by
  obtain ⟨p0, p1, p2⟩ := subscript_values h sa db a0 a1 a2 b0 b1 b2 ha0 ha1 ha2 hdb
  obtain ⟨q0, q1, q2⟩ := subscript_values h sb da b0 b1 b2 a0 a1 a2 hb0 hb1 hb2 hda
  refine ⟨⟨sa, db⟩, ⟨sb, da⟩, ?_, ?_, ?_⟩
  · rw [operator_mod_ok_iff]
    exact ⟨hsa, by simp [DenseOperand.size, hdb], rfl⟩
  · rw [operator_mod_ok_iff]
    exact ⟨hsb, by simp [DenseOperand.size, hda], rfl⟩
  · intro i hi
    interval_cases i
    · exact ⟨_, _, p0, q0, by ring⟩
    · exact ⟨_, _, p1, q1, by ring⟩
    · exact ⟨_, _, p2, q2, by ring⟩

/-- Witness of C12: `a = [0,0,5]` and `b = [1,1,1]`. -/
theorem cross_anticommutative_witness :
    ∃ ab ba, operator_mod exampleHeap exampleSparse (.vector 0) = .ok ab ∧
      operator_mod exampleHeap exampleSparseOnes (.computation (fun _ => [0, 0, 5])) = .ok ba ∧
      ∀ i, i < 3 → ∃ x y, ab.subscript exampleHeap i = some x ∧
        ba.subscript exampleHeap i = some y ∧ x = -y :=
  cross_anticommutative exampleHeap exampleSparse exampleSparseOnes
    (.computation (fun _ => [0, 0, 5])) (.vector 0) 0 0 5 1 1 1 rfl rfl
    (by decide) (by decide) (by decide) (by decide) (by decide) (by decide) rfl rfl

/-- C13: for every 3-element vector `v` over a commutative ring, the cross product of
`v` with itself (sparse operand and dense operand holding the same three values) has
the element 0 at each of the three indices. -/
theorem cross_self_zero {α : Type} [CommRing α] (h : Heap α)
    (sv : SparseVector α) (dv : DenseOperand α) (v0 v1 v2 : α) (hs : sv.size = 3)
    (h0 : sv.get? 0 = some v0) (h1 : sv.get? 1 = some v1) (h2 : sv.get? 2 = some v2)
    (hd : dv.values h = [v0, v1, v2]) :
    ∃ e, operator_mod h sv dv = .ok e ∧ ∀ i, i < 3 → e.subscript h i = some 0 := by
  obtain ⟨p0, p1, p2⟩ := subscript_values h sv dv v0 v1 v2 v0 v1 v2 h0 h1 h2 hd
  refine ⟨⟨sv, dv⟩, ?_, ?_⟩
  · rw [operator_mod_ok_iff]
    exact ⟨hs, by simp [DenseOperand.size, hd], rfl⟩
  · intro i hi
    interval_cases i
    · rw [p0]; congr 1; ring
    · rw [p1]; congr 1; ring
    · rw [p2]; congr 1; ring

/-- Witness of C13: `v = [1,1,1]`, sparse and dense (address 0). -/
theorem cross_self_zero_witness :
    ∃ e, operator_mod exampleHeap exampleSparseOnes (.vector 0) = .ok e ∧
      ∀ i, i < 3 → e.subscript exampleHeap i = some 0 :=
  cross_self_zero exampleHeap exampleSparseOnes (.vector 0) 1 1 1 rfl
    (by decide) (by decide) (by decide) rfl

/-- C14: the checked access `at( index )` raises an out-of-range error if and only if
`index >= 3`, it raises no other error, and for `index < 3` it returns exactly what
`operator[]( index )` returns. -/
theorem at_out_of_range_iff {α : Type} [Zero α] [Mul α] [Sub α]
    (e : SVecDVecCrossExpr α) (h : Heap α) (index : Nat) :
    ((∃ msg, e.at_ h index = .error (.out_of_range msg)) ↔ 3 ≤ index) ∧
    ((∃ x, e.at_ h index = .error x) ↔ 3 ≤ index) ∧
    (e.at_ h index = .ok (e.subscript h index) ↔ index < 3) := by
  unfold SVecDVecCrossExpr.at_
  by_cases hc : index ≥ 3
  · rw [if_pos hc]
    refine ⟨⟨fun _ => hc, fun _ => ⟨_, rfl⟩⟩, ⟨fun _ => hc, fun _ => ⟨_, rfl⟩⟩, ?_⟩
    constructor
    · intro hh; cases hh
    · intro hh; omega
  · rw [if_neg hc]
    refine ⟨⟨?_, fun hh => absurd hh hc⟩, ⟨?_, fun hh => absurd hh hc⟩, ?_⟩
    · rintro ⟨msg, hm⟩; cases hm
    · rintro ⟨msg, hm⟩; cases hm
    · exact ⟨fun _ => by omega, fun _ => rfl⟩

/-- C15: for a node `e = a % b` and a dense 3-element target `t = [t0,t1,t2]` that does
not alias the operands, `multAssign` leaves `t[i] = old t[i] * e[i]` and `divAssign`
leaves `t[i] = old t[i] / e[i]` for each of the three components, `e[i]` being the
component of the cross product given by `operator[]`; no other dense vector changes. -/
theorem multAssign_divAssign_elementwise {α : Type} [Zero α] [Mul α] [Sub α] [Div α]
    (h : Heap α) (a : SparseVector α) (b : DenseOperand α) (e : SVecDVecCrossExpr α)
    (t : Nat) (t0 t1 t2 : α) (he : operator_mod h a b = .ok e) (ht : h t = [t0, t1, t2])
    (hna : b.independentOf t) :
    ∃ e0 e1 e2, e.subscript h 0 = some e0 ∧ e.subscript h 1 = some e1 ∧
      e.subscript h 2 = some e2 ∧
      multAssign h t e = some (Function.update h t [t0 * e0, t1 * e1, t2 * e2]) ∧
      divAssign h t e = some (Function.update h t [t0 / e0, t1 / e1, t2 / e2]) := by
  rw [operator_mod_ok_iff] at he
  obtain ⟨ha, hb, rfl⟩ := he
  obtain ⟨a0, h0⟩ := a.get?_isSome 0 (by omega)
  obtain ⟨a1, h1⟩ := a.get?_isSome 1 (by omega)
  obtain ⟨a2, h2⟩ := a.get?_isSome 2 (by omega)
  obtain ⟨b0, b1, b2, hbv⟩ := list_length_three (b.values h) hb
  obtain ⟨p0, p1, p2⟩ := subscript_values h a b a0 a1 a2 b0 b1 b2 h0 h1 h2 hbv
  exact ⟨_, _, _, p0, p1, p2,
    multAssign_not_aliased h a b t a0 a1 a2 b0 b1 b2 t0 t1 t2 h0 h1 h2 hbv ht (Or.inr hna),
    divAssign_not_aliased h a b t a0 a1 a2 b0 b1 b2 t0 t1 t2 h0 h1 h2 hbv ht (Or.inr hna)⟩

/-- Witness of C15: `a = [1,0,2]` (sparse), `b = [1,2,4]` at address 1 and the target
`[6,8,10]` at address 0. -/
theorem multAssign_divAssign_elementwise_witness :
    ∃ e0 e1 e2,
      (SVecDVecCrossExpr.mk exampleSparseQ (.vector 1)).subscript exampleHeapQ 0 = some e0 ∧
      (SVecDVecCrossExpr.mk exampleSparseQ (.vector 1)).subscript exampleHeapQ 1 = some e1 ∧
      (SVecDVecCrossExpr.mk exampleSparseQ (.vector 1)).subscript exampleHeapQ 2 = some e2 ∧
      multAssign exampleHeapQ 0 ⟨exampleSparseQ, .vector 1⟩ =
        some (Function.update exampleHeapQ 0 [6 * e0, 8 * e1, 10 * e2]) ∧
      divAssign exampleHeapQ 0 ⟨exampleSparseQ, .vector 1⟩ =
        some (Function.update exampleHeapQ 0 [6 / e0, 8 / e1, 10 / e2]) :=
  multAssign_divAssign_elementwise exampleHeapQ exampleSparseQ (.vector 1)
    ⟨exampleSparseQ, .vector 1⟩ 0 6 8 10 rfl rfl
    (by intro h l; simp [DenseOperand.values, Function.update])

/-- C16: evaluating the same unmodified node twice, by `assign` into two distinct dense
3-element targets that alias neither operand, succeeds both times, leaves the values of
the dense operand and every element of the node as they were (the sparse operand is a
constant of the node), changes no dense vector other than the two targets, and leaves
the same contents in both targets, whatever the targets held before. -/
theorem assign_twice_identical {α : Type} [Zero α] [Mul α] [Sub α]
    (h : Heap α) (a : SparseVector α) (b : DenseOperand α) (e : SVecDVecCrossExpr α)
    (t1 t2 : Nat) (he : operator_mod h a b = .ok e)
    (ht1 : (h t1).length = 3) (ht2 : (h t2).length = 3) (hne : t1 ≠ t2)
    (hna1 : b.independentOf t1) (hna2 : b.independentOf t2) :
    ∃ h1 h2, assign h t1 e = some h1 ∧ assign h1 t2 e = some h2 ∧
      h2 t1 = h2 t2 ∧ h1 t1 = h2 t1 ∧
      e.rhs_.values h1 = e.rhs_.values h ∧ e.rhs_.values h2 = e.rhs_.values h ∧
      (∀ i, e.subscript h2 i = e.subscript h i) ∧
      ∀ addr, addr ≠ t1 → addr ≠ t2 → h2 addr = h addr := by
  rw [operator_mod_ok_iff] at he
  obtain ⟨ha, hb, rfl⟩ := he
  obtain ⟨a0, h0⟩ := a.get?_isSome 0 (by omega)
  obtain ⟨a1, hh1⟩ := a.get?_isSome 1 (by omega)
  obtain ⟨a2, hh2⟩ := a.get?_isSome 2 (by omega)
  obtain ⟨b0, b1, b2, hbv⟩ := list_length_three (b.values h) hb
  have hv1 : b.values (Function.update h t1
      [a1 * b2 - a2 * b1, a2 * b0 - a0 * b2, a0 * b1 - a1 * b0]) = [b0, b1, b2] := by
    rw [hna1, hbv]
  have hv2 : b.values (Function.update (Function.update h t1
      [a1 * b2 - a2 * b1, a2 * b0 - a0 * b2, a0 * b1 - a1 * b0]) t2
      [a1 * b2 - a2 * b1, a2 * b0 - a0 * b2, a0 * b1 - a1 * b0]) = [b0, b1, b2] := by
    rw [hna2, hv1]
  have s1 := assign_not_aliased h a b t1 a0 a1 a2 b0 b1 b2 h0 hh1 hh2 hbv ht1
    (Or.inr hna1)
  have s2 := assign_not_aliased (Function.update h t1
      [a1 * b2 - a2 * b1, a2 * b0 - a0 * b2, a0 * b1 - a1 * b0]) a b t2 a0 a1 a2 b0 b1 b2
    h0 hh1 hh2 hv1 (by simpa [Function.update, hne.symm] using ht2)
    (Or.inr hna2)
  refine ⟨_, _, s1, s2, ?_, ?_, ?_, ?_, ?_, ?_⟩
  · simp [Function.update, hne]
  · simp [Function.update, hne]
  · rw [hv1, hbv]
  · rw [hv2, hbv]
  · intro i
    simp only [SVecDVecCrossExpr.subscript, DenseOperand.get?, hv2, hbv]
  · intro addr n1 n2
    simp [Function.update, n1, n2]

/-- Witness of C16: `a = [0,0,5]`, `b` the computation with the values `[1,1,1]`, the
targets at the addresses 0 and 1. -/
theorem assign_twice_identical_witness :
    ∃ h1 h2,
      assign exampleHeap 0 ⟨exampleSparse, .computation (fun _ => [1, 1, 1])⟩ = some h1 ∧
      assign h1 1 ⟨exampleSparse, .computation (fun _ => [1, 1, 1])⟩ = some h2 ∧
      h2 0 = h2 1 ∧ h1 0 = h2 0 ∧
      (DenseOperand.computation (fun _ => [1, 1, 1])).values h1 =
        (DenseOperand.computation (fun _ => [1, 1, 1])).values exampleHeap ∧
      (DenseOperand.computation (fun _ => [1, 1, 1])).values h2 =
        (DenseOperand.computation (fun _ => [1, 1, 1])).values exampleHeap ∧
      (∀ i, (SVecDVecCrossExpr.mk exampleSparse (.computation (fun _ => [1, 1, 1]))).subscript
          h2 i =
        (SVecDVecCrossExpr.mk exampleSparse (.computation (fun _ => [1, 1, 1]))).subscript
          exampleHeap i) ∧
      ∀ addr, addr ≠ 0 → addr ≠ 1 → h2 addr = exampleHeap addr :=
  assign_twice_identical exampleHeap exampleSparse (.computation (fun _ => [1, 1, 1]))
    ⟨exampleSparse, .computation (fun _ => [1, 1, 1])⟩ 0 1 rfl (by decide) (by decide)
    (by decide) (by intro h l; rfl) (by intro h l; rfl)

/-- C17: for every address, `canAlias` of the node is true if and only if `canAlias` of
the left or of the right operand is true, and `isAliased` of the node is true if and
only if `isAliased` of the left or of the right operand is true. -/
theorem canAlias_isAliased_iff {α : Type}
    (lhsCanAlias lhsIsAliased : SparseVector α → Nat → Bool)
    (rhsCanAlias rhsIsAliased : DenseOperand α → Nat → Bool)
    (e : SVecDVecCrossExpr α) (addr : Nat) :
    (e.canAlias lhsCanAlias rhsCanAlias addr = true ↔
      (lhsCanAlias e.lhs_ addr = true ∨ rhsCanAlias e.rhs_ addr = true)) ∧
    (e.isAliased lhsIsAliased rhsIsAliased addr = true ↔
      (lhsIsAliased e.lhs_ addr = true ∨ rhsIsAliased e.rhs_ addr = true)) := by
  constructor
  · simp [SVecDVecCrossExpr.canAlias]
  · simp [SVecDVecCrossExpr.isAliased]

/-! ## Lemmas: loops, permutation array and split of the buffer -/

section LoopLemmas

theorem forLoop_inv {σ : Type} (body : Nat → σ → Option σ) (Inv : Nat → σ → Prop)
    (lo0 hi : Nat)
    (hstep : ∀ i s, lo0 ≤ i → i < hi → Inv i s → ∃ s2, body i s = some s2 ∧ Inv (i + 1) s2) :
    ∀ (count lo : Nat) (s : σ), lo0 ≤ lo → lo + count ≤ hi → Inv lo s →
      ∃ s2, forLoop body count lo s = some s2 ∧ Inv (lo + count) s2 := by
  intro count
  induction count with
  | zero =>
    intro lo s _ _ hinv
    exact ⟨s, rfl, by simpa using hinv⟩
  | succ k ih =>
    intro lo s hlo hle hinv
    obtain ⟨s1, hb, hinv1⟩ := hstep lo s hlo (by omega) hinv
    obtain ⟨s2, hf, hinv2⟩ := ih (lo + 1) s1 (by omega) (by omega) hinv1
    refine ⟨s2, ?_, ?_⟩
    · simp [forLoop, hb, hf]
    · have : lo + (k + 1) = lo + 1 + k := by omega
      rw [this]; exact hinv2

theorem forRange_inv {σ : Type} (body : Nat → σ → Option σ) (Inv : Nat → σ → Prop)
    (lo hi : Nat) (s : σ) (hle : lo ≤ hi) (h0 : Inv lo s)
    (hstep : ∀ i s, lo ≤ i → i < hi → Inv i s → ∃ s2, body i s = some s2 ∧ Inv (i + 1) s2) :
    ∃ s2, forRange lo hi body s = some s2 ∧ Inv hi s2 := by
  obtain ⟨s2, hf, hinv⟩ := forLoop_inv body Inv lo hi hstep (hi - lo) lo s le_rfl (by omega) h0
  refine ⟨s2, hf, ?_⟩
  have : lo + (hi - lo) = hi := by omega
  rw [this] at hinv; exact hinv

theorem forRange_empty {σ : Type} (body : Nat → σ → Option σ) (lo hi : Nat) (s : σ)
    (hle : hi ≤ lo) : forRange lo hi body s = some s := by
  unfold forRange
  have : hi - lo = 0 := by omega
  rw [this]; rfl

end LoopLemmas

section PermutLemmas

theorem perm_lt_of_fixes (σ : Equiv.Perm Nat) (size : Nat)
    (hfix : ∀ j, size ≤ j → σ j = j) (j : Nat) (hj : j < size) : σ j < size := by
  by_contra hge
  push_neg at hge
  have h1 : σ (σ j) = σ j := hfix _ hge
  have h2 : σ j = j := σ.injective h1
  omega

theorem perm_symm_lt_of_fixes (σ : Equiv.Perm Nat) (size : Nat)
    (hfix : ∀ j, size ≤ j → σ j = j) (j : Nat) (hj : j < size) : σ.symm j < size := by
  by_contra hge
  push_neg at hge
  have h1 : σ (σ.symm j) = σ.symm j := hfix _ hge
  simp at h1
  omega

theorem pivotPerm_fixes (ipiv : Nat → Int) (size : Nat) :
    ∀ k, k ≤ size → (∀ i, i < k → 1 ≤ ipiv i ∧ ipiv i ≤ size) →
      ∀ j, size ≤ j → pivotPerm ipiv k j = j := by
  intro k
  induction k with
  | zero => intro _ _ j _; rfl
  | succ k ih =>
    intro hk hpiv j hj
    have h1 := hpiv k (by omega)
    have hp : (ipiv k - 1).toNat < size := by omega
    simp only [pivotPerm, Equiv.Perm.mul_apply]
    rw [Equiv.swap_apply_of_ne_of_ne (by omega) (by omega)]
    exact ih (by omega) (fun i hi => hpiv i (by omega)) j hj

theorem swapPermut_perm (size : Nat) (σ : Equiv.Perm Nat) (p : Int) (i : Nat)
    (hp0 : 0 ≤ p) (hp : p.toNat < size) (hi : i < size) :
    swapPermut size (fun j => ((σ j : Nat) : Int)) p i =
      some (fun j => (((σ * Equiv.swap i p.toNat) j : Nat) : Int)) := by
  unfold swapPermut
  rw [if_pos ⟨hp0, hp, hi⟩]
  congr 1
  funext j
  simp only [Equiv.Perm.mul_apply]
  by_cases hji : j = i
  · subst hji
    simp
  · by_cases hjp : j = p.toNat
    · subst hjp
      simp [Function.update, hji]
    · rw [Equiv.swap_apply_of_ne_of_ne hji hjp]
      simp [Function.update, hji, hjp]

theorem reconstructPermut_eq (mindim size : Nat) (ipiv : Nat → Int) (hms : mindim ≤ size)
    (hpiv : ∀ i, i < mindim → 1 ≤ ipiv i ∧ ipiv i ≤ size) :
    reconstructPermut mindim size ipiv =
      some (fun j => ((pivotPerm ipiv mindim j : Nat) : Int)) := by
  obtain ⟨s2, hf, hinv⟩ := forRange_inv
    (fun i permut =>
      let p := ipiv i - 1
      if p ≠ (i : Int) then swapPermut size permut p i else some permut)
    (fun k permut => permut = fun j => ((pivotPerm ipiv k j : Nat) : Int))
    0 mindim (fun i => (i : Int)) (Nat.zero_le _) (by funext j; simp [pivotPerm])
    (by
      intro i s _ hi hs
      have h1 := hpiv i hi
      subst hs
      by_cases hne : ipiv i - 1 ≠ (i : Int)
      · refine ⟨_, ?_, rfl⟩
        simp only [if_pos hne]
        rw [swapPermut_perm size _ _ i (by omega) (by omega) (by omega)]
        rfl
      · refine ⟨_, ?_, rfl⟩
        simp only [if_neg hne]
        push_neg at hne
        have : (ipiv i - 1).toNat = i := by omega
        simp [pivotPerm, this])
  unfold reconstructPermut
  rw [hf, hinv]

end PermutLemmas

section MaterializeLemmas

variable {α : Type}

/-- The entry of the reconstructed permutation matrix at `(r, c)`. -/
theorem materializeP_eq [Zero α] [One α] (SO1 : Bool) (size : Nat) (σ : Equiv.Perm Nat)
    (hfix : ∀ j, size ≤ j → σ j = j) (P0 : DMatrix α) :
    ∃ P, materializeP SO1 size (fun j => ((σ j : Nat) : Int)) P0 = some P ∧
      P.rows = size ∧ P.columns = size ∧
      ∀ r c, r < size → c < size →
        P.elem r c = if (if SO1 then σ c = r else σ r = c) then 1 else 0 := by
  obtain ⟨P, hf, hr, hc, hel⟩ := forRange_inv
    (fun i (P : DMatrix α) =>
      if 0 ≤ (fun j => ((σ j : Nat) : Int)) i then
        P.set? (if SO1 then ((fun j => ((σ j : Nat) : Int)) i).toNat else i)
          (if SO1 then i else ((fun j => ((σ j : Nat) : Int)) i).toNat) 1
      else none)
    (fun k P => P.rows = size ∧ P.columns = size ∧
      ∀ r c, P.elem r c =
        if (if SO1 then (c < k ∧ σ c = r) else (r < k ∧ σ r = c)) then 1 else 0)
    0 size (reset (resize P0 size size)) (Nat.zero_le _)
    (by
      refine ⟨rfl, rfl, ?_⟩
      intro r c
      cases SO1 <;> simp [reset])
    (by
      intro i P _ hi hinv
      obtain ⟨hr, hc, hel⟩ := hinv
      have hσ : σ i < size := perm_lt_of_fixes σ size hfix i hi
      have hnn : (0 : Int) ≤ ((σ i : Nat) : Int) := Int.natCast_nonneg _
      cases SO1
      · simp only [hnn, if_true, Bool.false_eq_true, if_false, Int.toNat_ofNat,
          DMatrix.set?, hr, hc, hi, hσ, and_self]
        refine ⟨_, rfl, rfl, rfl, ?_⟩
        intro r c
        simp only [hel, Bool.false_eq_true, if_false]
        by_cases h1 : r = i
        · subst h1
          by_cases h2 : c = σ r
          · subst h2; simp
          · have h3 : ¬ σ r = c := fun h => h2 h.symm
            simp [h2, h3]
        · by_cases h4 : r < i
          · have : r < i + 1 := by omega
            simp [h1, h4, this]
          · have : ¬ r < i + 1 := by omega
            simp [h1, h4, this]
      · simp only [hnn, if_true, Int.toNat_ofNat,
          DMatrix.set?, hr, hc, hi, hσ, and_self]
        refine ⟨_, rfl, rfl, rfl, ?_⟩
        intro r c
        simp only [hel, if_true]
        by_cases h1 : c = i
        · subst h1
          by_cases h2 : r = σ c
          · subst h2; simp
          · have h3 : ¬ σ c = r := fun h => h2 h.symm
            simp [h2, h3]
        · by_cases h4 : c < i
          · have : c < i + 1 := by omega
            simp [h1, h4, this]
          · have : ¬ c < i + 1 := by omega
            simp [h1, h4, this])
  refine ⟨P, ?_, hr, hc, ?_⟩
  · unfold materializeP
    exact hf
  · intro r c hrs hcs
    rw [hel]
    cases SO1 <;> simp [hrs, hcs]

/-- What `lu( A, P )` computes when every pivot lies in `[1, size]`. -/
theorem luP_eq [Zero α] [One α]
    (getrf : Bool → DMatrix α → (Nat → Nat → α) × (Nat → Int))
    (SO1 : Bool) (A P0 : DMatrix α)
    (hpiv : ∀ i, i < min A.rows A.columns →
      1 ≤ (getrf SO1 A).2 i ∧ (getrf SO1 A).2 i ≤ ((if SO1 then A.rows else A.columns : Nat) : Int)) :
    ∃ P, luP getrf SO1 A P0 = some (⟨A.rows, A.columns, (getrf SO1 A).1⟩, P) ∧
      P.rows = (if SO1 then A.rows else A.columns) ∧
      P.columns = (if SO1 then A.rows else A.columns) ∧
      ∀ r c, r < (if SO1 then A.rows else A.columns) →
        c < (if SO1 then A.rows else A.columns) →
        P.elem r c =
          if (if SO1 then pivotPerm (getrf SO1 A).2 (min A.rows A.columns) c = r
              else pivotPerm (getrf SO1 A).2 (min A.rows A.columns) r = c) then 1 else 0 := by
  have hms : min A.rows A.columns ≤ (if SO1 then A.rows else A.columns) := by
    cases SO1 <;> simp
  have hfix := pivotPerm_fixes (getrf SO1 A).2 (if SO1 then A.rows else A.columns)
    (min A.rows A.columns) hms hpiv
  obtain ⟨P, hP, hr, hc, hel⟩ := materializeP_eq SO1 (if SO1 then A.rows else A.columns)
    (pivotPerm (getrf SO1 A).2 (min A.rows A.columns)) hfix P0
  refine ⟨P, ?_, hr, hc, hel⟩
  unfold luP
  simp only []
  rw [reconstructPermut_eq _ _ _ hms hpiv]
  simp only [Option.bind_eq_bind, Option.some_bind]
  rw [hP]
  rfl

end MaterializeLemmas

section SplitLemmas

variable {α : Type}

theorem moveElem_eq [Zero α] (i j : Nat) (X Y : DMatrix α)
    (h1 : i < X.rows) (h2 : j < X.columns) (h3 : i < Y.rows) (h4 : j < Y.columns) :
    moveElem i j (X, Y) = some
      (⟨X.rows, X.columns, fun a b => if a = i ∧ b = j then Y.elem i j else X.elem a b⟩,
       ⟨Y.rows, Y.columns, fun a b => if a = i ∧ b = j then 0 else Y.elem a b⟩) := by
  simp [moveElem, DMatrix.get?, DMatrix.set?, h1, h2, h3, h4]

theorem moveDiag_eq [One α] (i : Nat) (X Y : DMatrix α)
    (h1 : i < X.rows) (h2 : i < X.columns) (h3 : i < Y.rows) (h4 : i < Y.columns) :
    moveDiag i (X, Y) = some
      (⟨X.rows, X.columns, fun a b => if a = i ∧ b = i then Y.elem i i else X.elem a b⟩,
       ⟨Y.rows, Y.columns, fun a b => if a = i ∧ b = i then 1 else Y.elem a b⟩) := by
  simp [moveDiag, DMatrix.get?, DMatrix.set?, h1, h2, h3, h4]

theorem unitDiag_eq [One α] (i : Nat) (X Y : DMatrix α)
    (h1 : i < X.rows) (h2 : i < X.columns) :
    unitDiag i (X, Y) = some
      (⟨X.rows, X.columns, fun a b => if a = i ∧ b = i then 1 else X.elem a b⟩, Y) := by
  simp [unitDiag, DMatrix.set?, h1, h2]

/-- The inner loop over the columns `lo ≤ j < hi` of row `i`. -/
theorem rowMove_eq [Zero α] (i lo hi : Nat) (X Y : DMatrix α)
    (h1 : i < X.rows) (h2 : hi ≤ X.columns) (h3 : i < Y.rows) (h4 : hi ≤ Y.columns) :
    forRange lo hi (fun j s => moveElem i j s) (X, Y) = some
      (⟨X.rows, X.columns, fun a b => if a = i ∧ lo ≤ b ∧ b < hi then Y.elem a b else X.elem a b⟩,
       ⟨Y.rows, Y.columns, fun a b => if a = i ∧ lo ≤ b ∧ b < hi then 0 else Y.elem a b⟩) := by
  by_cases hle : lo ≤ hi
  · obtain ⟨s2, hf, hinv⟩ := forRange_inv (fun j s => moveElem i j s)
      (fun k s => s =
        (⟨X.rows, X.columns, fun a b => if a = i ∧ lo ≤ b ∧ b < k then Y.elem a b else X.elem a b⟩,
         ⟨Y.rows, Y.columns, fun a b => if a = i ∧ lo ≤ b ∧ b < k then 0 else Y.elem a b⟩))
      lo hi (X, Y) hle
      (by
        have e1 : ∀ a b : Nat, ¬ (a = i ∧ lo ≤ b ∧ b < lo) := by intro a b; omega
        simp [e1])
      (by
        intro j s hlo hhi hs
        subst hs
        refine ⟨_, moveElem_eq i j _ _ h1 (by simp; omega) h3 (by simp; omega), ?_⟩
        have e0 : ¬ (lo ≤ j ∧ j < j) := by omega
        simp only [e0, and_false, if_false]
        congr 2
        · funext a b
          by_cases ha : a = i
          · by_cases hb : b = j
            · subst ha hb
              have : lo ≤ b ∧ b < b + 1 := by omega
              simp [this]
            · have : (lo ≤ b ∧ b < j + 1) ↔ (lo ≤ b ∧ b < j) := by omega
              simp [ha, hb, this]
          · simp [ha]
        · funext a b
          by_cases ha : a = i
          · by_cases hb : b = j
            · subst ha hb
              have : lo ≤ b ∧ b < b + 1 := by omega
              simp [this]
            · have : (lo ≤ b ∧ b < j + 1) ↔ (lo ≤ b ∧ b < j) := by omega
              simp [ha, hb, this]
          · simp [ha])
    rw [hf, hinv]
  · rw [forRange_empty _ _ _ _ (by omega)]
    have e1 : ∀ a b : Nat, ¬ (a = i ∧ lo ≤ b ∧ b < hi) := by intro a b; omega
    simp [e1]

/-- The inner loop over the rows `lo ≤ i < hi` of column `j`. -/
theorem colMove_eq [Zero α] (j lo hi : Nat) (X Y : DMatrix α)
    (h1 : hi ≤ X.rows) (h2 : j < X.columns) (h3 : hi ≤ Y.rows) (h4 : j < Y.columns) :
    forRange lo hi (fun i s => moveElem i j s) (X, Y) = some
      (⟨X.rows, X.columns, fun a b => if b = j ∧ lo ≤ a ∧ a < hi then Y.elem a b else X.elem a b⟩,
       ⟨Y.rows, Y.columns, fun a b => if b = j ∧ lo ≤ a ∧ a < hi then 0 else Y.elem a b⟩) := by
  by_cases hle : lo ≤ hi
  · obtain ⟨s2, hf, hinv⟩ := forRange_inv (fun i s => moveElem i j s)
      (fun k s => s =
        (⟨X.rows, X.columns, fun a b => if b = j ∧ lo ≤ a ∧ a < k then Y.elem a b else X.elem a b⟩,
         ⟨Y.rows, Y.columns, fun a b => if b = j ∧ lo ≤ a ∧ a < k then 0 else Y.elem a b⟩))
      lo hi (X, Y) hle
      (by
        have e1 : ∀ a b : Nat, ¬ (b = j ∧ lo ≤ a ∧ a < lo) := by intro a b; omega
        simp [e1])
      (by
        intro i s hlo hhi hs
        subst hs
        refine ⟨_, moveElem_eq i j _ _ (by simp; omega) h2 (by simp; omega) h4, ?_⟩
        have e0 : ¬ (lo ≤ i ∧ i < i) := by omega
        simp only [e0, and_false, if_false]
        congr 2
        · funext a b
          by_cases hb : b = j
          · by_cases ha : a = i
            · subst ha hb
              have : lo ≤ a ∧ a < a + 1 := by omega
              simp [this]
            · have : (lo ≤ a ∧ a < i + 1) ↔ (lo ≤ a ∧ a < i) := by omega
              simp [ha, hb, this]
          · simp [hb]
        · funext a b
          by_cases hb : b = j
          · by_cases ha : a = i
            · subst ha hb
              have : lo ≤ a ∧ a < a + 1 := by omega
              simp [this]
            · have : (lo ≤ a ∧ a < i + 1) ↔ (lo ≤ a ∧ a < i) := by omega
              simp [ha, hb, this]
          · simp [hb])
    rw [hf, hinv]
  · rw [forRange_empty _ _ _ _ (by omega)]
    have e1 : ∀ a b : Nat, ¬ (b = j ∧ lo ≤ a ∧ a < hi) := by intro a b; omega
    simp [e1]

end SplitLemmas

section SplitOuterLemmas

variable {α : Type}

theorem splitWideRowMajor_eq [Zero α] [One α] (d : Nat) (X Y : DMatrix α)
    (h1 : d ≤ X.rows) (h2 : d ≤ X.columns) (h3 : d ≤ Y.rows) (h4 : d ≤ Y.columns) :
    splitWideRowMajor d (X, Y) = some
      (⟨X.rows, X.columns, fun a b => if a < d ∧ b ≤ a then Y.elem a b else X.elem a b⟩,
       ⟨Y.rows, Y.columns, fun a b =>
          if a < d ∧ b < a then 0 else if a < d ∧ b = a then 1 else Y.elem a b⟩) := by
  obtain ⟨s2, hf, hinv⟩ := forRange_inv
    (fun i s => (forRange 0 i (fun j s => moveElem i j s) s).bind fun s => moveDiag i s)
    (fun k s => s =
      (⟨X.rows, X.columns, fun a b => if a < k ∧ b ≤ a then Y.elem a b else X.elem a b⟩,
       ⟨Y.rows, Y.columns, fun a b =>
          if a < k ∧ b < a then 0 else if a < k ∧ b = a then 1 else Y.elem a b⟩))
    0 d (X, Y) (Nat.zero_le _) (by simp)
    (by
      intro i s _ hi hs
      subst hs
      refine ⟨_, ?_, rfl⟩
      beta_reduce
      rw [rowMove_eq i 0 i _ _ (by simp; omega) (by simp; omega) (by simp; omega)
        (by simp; omega)]
      simp only [Option.some_bind]
      rw [moveDiag_eq i _ _ (by simp; omega) (by simp; omega) (by simp; omega)
        (by simp; omega)]
      congr 3
      · funext a b
        simp only []
        split_ifs <;> first | rfl | (exfalso; omega) | (congr 1 <;> omega)
      · funext a b
        simp only []
        split_ifs <;> first | rfl | (exfalso; omega))
  unfold splitWideRowMajor
  rw [hf, hinv]

theorem splitTallColumnMajor_eq [Zero α] [One α] (d : Nat) (X Y : DMatrix α)
    (h1 : d ≤ X.rows) (h2 : d ≤ X.columns) (h3 : d ≤ Y.rows) (h4 : d ≤ Y.columns) :
    splitTallColumnMajor d (X, Y) = some
      (⟨X.rows, X.columns, fun a b => if b < d ∧ a ≤ b then Y.elem a b else X.elem a b⟩,
       ⟨Y.rows, Y.columns, fun a b =>
          if b < d ∧ a < b then 0 else if b < d ∧ a = b then 1 else Y.elem a b⟩) := by
  obtain ⟨s2, hf, hinv⟩ := forRange_inv
    (fun j s => (forRange 0 j (fun i s => moveElem i j s) s).bind fun s => moveDiag j s)
    (fun k s => s =
      (⟨X.rows, X.columns, fun a b => if b < k ∧ a ≤ b then Y.elem a b else X.elem a b⟩,
       ⟨Y.rows, Y.columns, fun a b =>
          if b < k ∧ a < b then 0 else if b < k ∧ a = b then 1 else Y.elem a b⟩))
    0 d (X, Y) (Nat.zero_le _) (by simp)
    (by
      intro j s _ hj hs
      subst hs
      refine ⟨_, ?_, rfl⟩
      beta_reduce
      rw [colMove_eq j 0 j _ _ (by simp; omega) (by simp; omega) (by simp; omega)
        (by simp; omega)]
      simp only [Option.some_bind]
      rw [moveDiag_eq j _ _ (by simp; omega) (by simp; omega) (by simp; omega)
        (by simp; omega)]
      congr 3
      · funext a b
        simp only []
        split_ifs <;> first | rfl | (exfalso; omega) | (congr 1 <;> omega)
      · funext a b
        simp only []
        split_ifs <;> first | rfl | (exfalso; omega))
  unfold splitTallColumnMajor
  rw [hf, hinv]

theorem splitWideColumnMajor_eq [Zero α] [One α] (d : Nat) (X Y : DMatrix α)
    (h1 : d ≤ X.rows) (h2 : d ≤ X.columns) (h3 : d ≤ Y.rows) (h4 : d ≤ Y.columns) :
    splitWideColumnMajor d (X, Y) = some
      (⟨X.rows, X.columns, fun a b =>
          if b < d ∧ a = b then 1 else if b < d ∧ b < a ∧ a < d then Y.elem a b
          else X.elem a b⟩,
       ⟨Y.rows, Y.columns, fun a b => if b < d ∧ b < a ∧ a < d then 0 else Y.elem a b⟩) := by
  obtain ⟨s2, hf, hinv⟩ := forRange_inv
    (fun j s => (unitDiag j s).bind fun s => forRange (j + 1) d (fun i s => moveElem i j s) s)
    (fun k s => s =
      (⟨X.rows, X.columns, fun a b =>
          if b < k ∧ a = b then 1 else if b < k ∧ b < a ∧ a < d then Y.elem a b
          else X.elem a b⟩,
       ⟨Y.rows, Y.columns, fun a b => if b < k ∧ b < a ∧ a < d then 0 else Y.elem a b⟩))
    0 d (X, Y) (Nat.zero_le _) (by simp)
    (by
      intro j s _ hj hs
      subst hs
      refine ⟨_, ?_, rfl⟩
      beta_reduce
      rw [unitDiag_eq j _ _ (by simp; omega) (by simp; omega)]
      simp only [Option.some_bind]
      rw [colMove_eq j (j + 1) d _ _ (by simp; omega) (by simp; omega) (by simp; omega)
        (by simp; omega)]
      congr 3
      · funext a b
        simp only []
        split_ifs <;> first | rfl | (exfalso; omega)
      · funext a b
        simp only []
        split_ifs <;> first | rfl | (exfalso; omega))
  unfold splitWideColumnMajor
  rw [hf, hinv]

theorem splitTallRowMajor_eq [Zero α] [One α] (d : Nat) (X Y : DMatrix α)
    (h1 : d ≤ X.rows) (h2 : d ≤ X.columns) (h3 : d ≤ Y.rows) (h4 : d ≤ Y.columns) :
    splitTallRowMajor d (X, Y) = some
      (⟨X.rows, X.columns, fun a b =>
          if a < d ∧ a = b then 1 else if a < d ∧ a < b ∧ b < d then Y.elem a b
          else X.elem a b⟩,
       ⟨Y.rows, Y.columns, fun a b => if a < d ∧ a < b ∧ b < d then 0 else Y.elem a b⟩) := by
  obtain ⟨s2, hf, hinv⟩ := forRange_inv
    (fun i s => (unitDiag i s).bind fun s => forRange (i + 1) d (fun j s => moveElem i j s) s)
    (fun k s => s =
      (⟨X.rows, X.columns, fun a b =>
          if a < k ∧ a = b then 1 else if a < k ∧ a < b ∧ b < d then Y.elem a b
          else X.elem a b⟩,
       ⟨Y.rows, Y.columns, fun a b => if a < k ∧ a < b ∧ b < d then 0 else Y.elem a b⟩))
    0 d (X, Y) (Nat.zero_le _) (by simp)
    (by
      intro i s _ hi hs
      subst hs
      refine ⟨_, ?_, rfl⟩
      beta_reduce
      rw [unitDiag_eq i _ _ (by simp; omega) (by simp; omega)]
      simp only [Option.some_bind]
      rw [rowMove_eq i (i + 1) d _ _ (by simp; omega) (by simp; omega) (by simp; omega)
        (by simp; omega)]
      congr 3
      · funext a b
        simp only []
        split_ifs <;> first | rfl | (exfalso; omega)
      · funext a b
        simp only []
        split_ifs <;> first | rfl | (exfalso; omega))
  unfold splitTallRowMajor
  rw [hf, hinv]

end SplitOuterLemmas

section LuLemmas

variable {α : Type}

/-- What `lu( A, L, U, P )` computes when every pivot lies in `[1, size]`: the shapes of
the factors and their elements in terms of the factorized buffer `F` and of the
permutation recorded by the pivots. -/
theorem lu_eq [Zero α] [One α]
    (getrf : Bool → DMatrix α → (Nat → Nat → α) × (Nat → Int))
    (SO1 : Bool) (A L0 U0 P0 : DMatrix α)
    (hpiv : ∀ i, i < min A.rows A.columns →
      1 ≤ (getrf SO1 A).2 i ∧ (getrf SO1 A).2 i ≤ ((if SO1 then A.rows else A.columns : Nat) : Int)) :
    ∃ L U P, lu getrf SO1 A L0 U0 P0 = some (L, U, P) ∧
      L.rows = A.rows ∧ L.columns = min A.rows A.columns ∧
      U.rows = min A.rows A.columns ∧ U.columns = A.columns ∧
      P.rows = (if SO1 then A.rows else A.columns) ∧
      P.columns = (if SO1 then A.rows else A.columns) ∧
      (∀ r c, r < A.rows → c < min A.rows A.columns →
        L.elem r c =
          if SO1 then (if r = c then 1 else if c < r then (getrf SO1 A).1 r c else 0)
          else (if c ≤ r then (getrf SO1 A).1 r c else 0)) ∧
      (∀ r c, r < min A.rows A.columns → c < A.columns →
        U.elem r c =
          if SO1 then (if r ≤ c then (getrf SO1 A).1 r c else 0)
          else (if r = c then 1 else if r < c then (getrf SO1 A).1 r c else 0)) ∧
      (∀ r c, r < (if SO1 then A.rows else A.columns) →
        c < (if SO1 then A.rows else A.columns) →
        P.elem r c =
          if (if SO1 then pivotPerm (getrf SO1 A).2 (min A.rows A.columns) c = r
              else pivotPerm (getrf SO1 A).2 (min A.rows A.columns) r = c) then 1 else 0) := by
  obtain ⟨P, hP, hPr, hPc, hPe⟩ := luP_eq getrf SO1 A P0 hpiv
  by_cases hmn : A.rows < A.columns
  · have hmin : min A.rows A.columns = A.rows := by omega
    cases SO1
    · have hlu : lu getrf false A L0 U0 P0 = some
          (⟨A.rows, A.rows, fun a b =>
              if a < A.rows ∧ b ≤ a then (getrf false A).1 a b else 0⟩,
           ⟨A.rows, A.columns, fun a b =>
              if a < A.rows ∧ b < a then 0 else if a < A.rows ∧ b = a then 1
              else (getrf false A).1 a b⟩, P) := by
        unfold lu
        simp only [if_pos hmn, hP, Option.some_bind, rowMajor, if_true]
        rw [splitWideRowMajor_eq A.rows _ _ (by simp [reset, resize]) (by simp [reset, resize])
          (by simp) (by simp; omega)]
        rfl
      refine ⟨_, _, P, hlu, rfl, by simp [hmin], by simp [hmin], rfl, hPr, hPc, ?_, ?_, hPe⟩
      · intro r c hr hc
        simp only [Bool.false_eq_true, if_false]
        split_ifs <;> first | rfl | (exfalso; omega)
      · intro r c hr hc
        simp only [Bool.false_eq_true, if_false]
        split_ifs <;> first | rfl | (exfalso; omega)
    · have hlu : lu getrf true A L0 U0 P0 = some
          (⟨A.rows, A.rows, fun a b =>
              if b < A.rows ∧ a = b then 1
              else if b < A.rows ∧ b < a ∧ a < A.rows then (getrf true A).1 a b else 0⟩,
           ⟨A.rows, A.columns, fun a b =>
              if b < A.rows ∧ b < a ∧ a < A.rows then 0 else (getrf true A).1 a b⟩, P) := by
        unfold lu
        simp only [if_pos hmn, hP, Option.some_bind, rowMajor, Bool.true_eq_false, if_false]
        rw [splitWideColumnMajor_eq A.rows _ _ (by simp [reset, resize])
          (by simp [reset, resize]) (by simp) (by simp; omega)]
        rfl
      refine ⟨_, _, P, hlu, rfl, by simp [hmin], by simp [hmin], rfl, hPr, hPc, ?_, ?_, hPe⟩
      · intro r c hr hc
        simp only [if_true]
        split_ifs <;> first | rfl | (exfalso; omega)
      · intro r c hr hc
        simp only [if_true]
        split_ifs <;> first | rfl | (exfalso; omega)
  · have hmin : min A.rows A.columns = A.columns := by omega
    cases SO1
    · have hlu : lu getrf false A L0 U0 P0 = some
          (⟨A.rows, A.columns, fun a b =>
              if a < A.columns ∧ a < b ∧ b < A.columns then 0 else (getrf false A).1 a b⟩,
           ⟨A.columns, A.columns, fun a b =>
              if a < A.columns ∧ a = b then 1
              else if a < A.columns ∧ a < b ∧ b < A.columns then (getrf false A).1 a b
              else 0⟩, P) := by
        unfold lu
        simp only [if_neg hmn, hP, Option.some_bind, rowMajor, if_true]
        rw [splitTallRowMajor_eq A.columns _ _ (by simp [reset, resize])
          (by simp [reset, resize]) (by simp; omega) (by simp)]
        rfl
      refine ⟨_, _, P, hlu, rfl, by simp [hmin], by simp [hmin], rfl, hPr, hPc, ?_, ?_, hPe⟩
      · intro r c hr hc
        simp only [Bool.false_eq_true, if_false]
        split_ifs <;> first | rfl | (exfalso; omega)
      · intro r c hr hc
        simp only [Bool.false_eq_true, if_false]
        split_ifs <;> first | rfl | (exfalso; omega)
    · have hlu : lu getrf true A L0 U0 P0 = some
          (⟨A.rows, A.columns, fun a b =>
              if b < A.columns ∧ a < b then 0 else if b < A.columns ∧ a = b then 1
              else (getrf true A).1 a b⟩,
           ⟨A.columns, A.columns, fun a b =>
              if b < A.columns ∧ a ≤ b then (getrf true A).1 a b else 0⟩, P) := by
        unfold lu
        simp only [if_neg hmn, hP, Option.some_bind, rowMajor, Bool.true_eq_false, if_false]
        rw [splitTallColumnMajor_eq A.columns _ _ (by simp [reset, resize])
          (by simp [reset, resize]) (by simp; omega) (by simp)]
        rfl
      refine ⟨_, _, P, hlu, rfl, by simp [hmin], by simp [hmin], rfl, hPr, hPc, ?_, ?_, hPe⟩
      · intro r c hr hc
        simp only [if_true]
        split_ifs <;> first | rfl | (exfalso; omega)
      · intro r c hr hc
        simp only [if_true]
        split_ifs <;> first | rfl | (exfalso; omega)

end LuLemmas

section ProductLemmas

variable {α : Type}

theorem applyInterchanges_eq (M : Nat → Nat → α) (ipiv : Nat → Int) (k : Nat) :
    applyInterchanges M ipiv k = fun r c => M (pivotPerm ipiv k r) c := by
  induction k with
  | zero => rfl
  | succ k ih =>
    funext r c
    simp only [applyInterchanges, ih, interchangeRows, pivotPerm, Equiv.Perm.mul_apply,
      Equiv.swap_apply_def]
    split_ifs <;> rfl

theorem sum_indicator_mul [CommRing α] (σ : Equiv.Perm Nat) (n r : Nat) (f : Nat → α)
    (hr : σ.symm r < n) :
    ∑ i in Finset.range n, (if σ i = r then (1 : α) else 0) * f i = f (σ.symm r) := by
  rw [Finset.sum_eq_single (σ.symm r)]
  · simp
  · intro b _ hb
    have : ¬ σ b = r := by
      intro h
      apply hb
      rw [← h]; simp
    simp [this]
  · intro h
    exact absurd (Finset.mem_range.mpr hr) h

theorem sum_mul_indicator [CommRing α] (σ : Equiv.Perm Nat) (n c : Nat) (f : Nat → α)
    (hc : σ.symm c < n) :
    ∑ j in Finset.range n, f j * (if σ j = c then (1 : α) else 0) = f (σ.symm c) := by
  rw [← sum_indicator_mul σ n c f hc]
  exact Finset.sum_congr rfl (fun j _ => mul_comm _ _)

theorem getrfContract_pivots [CommRing α] (SO1 : Bool) (A : DMatrix α) (F : Nat → Nat → α)
    (ipiv : Nat → Int) (hc : GetrfContract SO1 A F ipiv) :
    ∀ i, i < min A.rows A.columns →
      1 ≤ ipiv i ∧ ipiv i ≤ ((if SO1 then A.rows else A.columns : Nat) : Int) := by
  intro i hi
  cases SO1
  · simp only [GetrfContract, Bool.false_eq_true, if_false] at hc
    have := hc.1 i (by simpa [DMatrix.transpose, min_comm] using hi)
    simpa [DMatrix.transpose] using this
  · simp only [GetrfContract, if_true] at hc
    simpa using hc.1 i hi

/-- The factors written by `lu` multiply back to `A`, in the order fixed by the storage
order, when `getrf` honours its contract. -/
theorem lu_product [CommRing α]
    (getrf : Bool → DMatrix α → (Nat → Nat → α) × (Nat → Int))
    (SO1 : Bool) (A L0 U0 P0 : DMatrix α)
    (hc : GetrfContract SO1 A (getrf SO1 A).1 (getrf SO1 A).2) :
    ∃ L U P, lu getrf SO1 A L0 U0 P0 = some (L, U, P) ∧
      (if SO1 then ((P.mul L).mul U).sameAs A else ((L.mul U).mul P).sameAs A) := by
  have hpiv := getrfContract_pivots SO1 A _ _ hc
  have hms : min A.rows A.columns ≤ (if SO1 then A.rows else A.columns) := by
    cases SO1 <;> simp
  have hfix := pivotPerm_fixes (getrf SO1 A).2 (if SO1 then A.rows else A.columns)
    (min A.rows A.columns) hms hpiv
  obtain ⟨L, U, P, hlu, hLr, hLc, hUr, hUc, hPr, hPc, hL, hU, hP⟩ :=
    lu_eq getrf SO1 A L0 U0 P0 hpiv
  refine ⟨L, U, P, hlu, ?_⟩
  cases SO1
  · simp only [Bool.false_eq_true, if_false] at hPr hPc hL hU hP hfix ⊢
    simp only [GetrfContract, Bool.false_eq_true, if_false] at hc
    refine ⟨hLr, by simp [DMatrix.mul, hPc], ?_⟩
    intro r c hr hcc
    simp only [DMatrix.mul] at hr hcc
    rw [hLr] at hr
    rw [hPc] at hcc
    have hs : (pivotPerm (getrf false A).2 (min A.rows A.columns)).symm c < A.columns :=
      perm_symm_lt_of_fixes _ _ hfix c hcc
    have h1 : ((L.mul U).mul P).elem r c =
        ∑ j in Finset.range A.columns, (L.mul U).elem r j *
          (if pivotPerm (getrf false A).2 (min A.rows A.columns) j = c then (1 : α) else 0) := by
      simp only [DMatrix.mul, hUc]
      apply Finset.sum_congr rfl
      intro j hj
      rw [hP j c (Finset.mem_range.mp hj) hcc]
    rw [h1, sum_mul_indicator _ _ _ _ hs]
    have h2 := hc.2 ((pivotPerm (getrf false A).2 (min A.rows A.columns)).symm c) r
      (by simpa [DMatrix.transpose] using hs) (by simpa [DMatrix.transpose] using hr)
    rw [applyInterchanges_eq] at h2
    simp only [DMatrix.transpose, min_comm A.columns A.rows, Equiv.apply_symm_apply] at h2
    rw [h2]
    simp only [DMatrix.mul, hLc]
    apply Finset.sum_congr rfl
    intro j hj
    rw [hL r j hr (Finset.mem_range.mp hj), hU j _ (Finset.mem_range.mp hj) hs, mul_comm]
    congr 1
    exact if_congr eq_comm rfl rfl
  · simp only [if_true] at hPr hPc hL hU hP hfix ⊢
    simp only [GetrfContract, if_true] at hc
    refine ⟨by simp [DMatrix.mul, hPr], by simp [DMatrix.mul, hUc], ?_⟩
    intro r c hr hcc
    simp only [DMatrix.mul] at hr hcc
    rw [hPr] at hr
    rw [hUc] at hcc
    have hs : (pivotPerm (getrf true A).2 (min A.rows A.columns)).symm r < A.rows :=
      perm_symm_lt_of_fixes _ _ hfix r hr
    have h1 : ∀ j, (P.mul L).elem r j =
        L.elem ((pivotPerm (getrf true A).2 (min A.rows A.columns)).symm r) j := by
      intro j
      rw [← sum_indicator_mul _ A.rows r (fun i => L.elem i j) hs]
      simp only [DMatrix.mul, hPc]
      apply Finset.sum_congr rfl
      intro i hi
      rw [hP r i hr (Finset.mem_range.mp hi)]
    have h2 := hc.2 ((pivotPerm (getrf true A).2 (min A.rows A.columns)).symm r) c hs hcc
    rw [applyInterchanges_eq] at h2
    simp only [Equiv.apply_symm_apply] at h2
    rw [h2]
    simp only [DMatrix.mul, hLc]
    apply Finset.sum_congr rfl
    intro j hj
    have := h1 j
    simp only [DMatrix.mul] at this
    rw [this, hL _ j hs (Finset.mem_range.mp hj), hU j c (Finset.mem_range.mp hj) hcc]

end ProductLemmas

section LapackModelLemmas

variable {α : Type} [LinearOrderedField α]

theorem pivotSearch_foldl_bounds (M : Nat → Nat → α) (j m : Nat) :
    ∀ (l : List Nat) (p : Nat), (∀ i ∈ l, j ≤ i ∧ i < m) → j ≤ p → (p < m ∨ p = j) →
      j ≤ l.foldl (fun p i => if |M p j| < |M i j| then i else p) p ∧
      (l.foldl (fun p i => if |M p j| < |M i j| then i else p) p < m ∨
        l.foldl (fun p i => if |M p j| < |M i j| then i else p) p = j) := by
  intro l
  induction l with
  | nil => intro p _ h1 h2; exact ⟨h1, h2⟩
  | cons a l ih =>
    intro p hl h1 h2
    simp only [List.foldl_cons]
    have ha := hl a (List.mem_cons_self _ _)
    have hl2 : ∀ i ∈ l, j ≤ i ∧ i < m := fun i hi => hl i (List.mem_cons_of_mem _ hi)
    by_cases hlt : |M p j| < |M a j|
    · rw [if_pos hlt]
      exact ih a hl2 ha.1 (Or.inl ha.2)
    · rw [if_neg hlt]
      exact ih p hl2 h1 h2

theorem pivotSearch_bounds (M : Nat → Nat → α) (j m : Nat) :
    j ≤ pivotSearch M j m ∧ (pivotSearch M j m < m ∨ pivotSearch M j m = j) := by
  unfold pivotSearch
  apply pivotSearch_foldl_bounds
  · intro i hi
    rw [List.mem_range'_1] at hi
    omega
  · exact le_rfl
  · exact Or.inr rfl

theorem lapackStep_snd (m n j : Nat) (st : (Nat → Nat → α) × (Nat → Int)) :
    (lapackStep m n j st).2 = Function.update st.2 j ((pivotSearch st.1 j m : Int) + 1) := rfl

theorem lapackGetrf_range_succ (m n k : Nat) (st : (Nat → Nat → α) × (Nat → Int)) :
    (List.range (k + 1)).foldl (fun st j => lapackStep m n j st) st =
      lapackStep m n k ((List.range k).foldl (fun st j => lapackStep m n j st) st) := by
  rw [List.range_succ, List.foldl_append]
  rfl

theorem lapackGetrf_pivots_aux (m n : Nat) (st : (Nat → Nat → α) × (Nat → Int)) :
    ∀ k, k ≤ m → ∀ i, i < k →
      (i : Int) + 1 ≤ ((List.range k).foldl (fun st j => lapackStep m n j st) st).2 i ∧
      ((List.range k).foldl (fun st j => lapackStep m n j st) st).2 i ≤ (m : Int) := by
  intro k
  induction k with
  | zero => intro _ i hi; omega
  | succ k ih =>
    intro hk i hi
    rw [lapackGetrf_range_succ]
    by_cases hik : i = k
    · subst hik
      have hb := pivotSearch_bounds
        ((List.range i).foldl (fun st j => lapackStep m n j st) st).1 i m
      rw [lapackStep_snd, Function.update_same]
      omega
    · have := ih (by omega) i (by omega)
      rw [lapackStep_snd, Function.update_noteq hik]
      exact this

/-- The pivots of the modelled factorization are 1-based row indices of the matrix
handed to it, pivot `i` not above row `i`. -/
theorem lapackGetrf_pivots (B : DMatrix α) :
    ∀ i, i < min B.rows B.columns →
      (i : Int) + 1 ≤ (lapackGetrf B).2 i ∧ (lapackGetrf B).2 i ≤ (B.rows : Int) := by
  intro i hi
  exact lapackGetrf_pivots_aux B.rows B.columns _ (min B.rows B.columns) (Nat.min_le_left _ _) i hi

theorem getrfModel_pivots (SO1 : Bool) (A : DMatrix α) :
    ∀ i, i < min A.rows A.columns →
      1 ≤ (getrfModel SO1 A).2 i ∧
      (getrfModel SO1 A).2 i ≤ ((if SO1 then A.rows else A.columns : Nat) : Int) := by
  intro i hi
  cases SO1
  · have := lapackGetrf_pivots A.transpose i (by simpa [DMatrix.transpose, min_comm] using hi)
    simp only [getrfModel, Bool.false_eq_true, if_false]
    simp only [DMatrix.transpose] at this ⊢
    omega
  · have := lapackGetrf_pivots A i hi
    simp only [getrfModel, if_true]
    omega

end LapackModelLemmas

section InterchangeLemmas

variable {α : Type}

theorem pivotPerm_congr (ipiv1 ipiv2 : Nat → Int) :
    ∀ k, (∀ i, i < k → ipiv1 i = ipiv2 i) → pivotPerm ipiv1 k = pivotPerm ipiv2 k := by
  intro k
  induction k with
  | zero => intro _; rfl
  | succ k ih =>
    intro h
    simp only [pivotPerm]
    rw [ih (fun i hi => h i (by omega)), h k (by omega)]

theorem interchangeRows_self (M : Nat → Nat → α) (k : Nat) : interchangeRows M k k = M := by
  funext r c
  unfold interchangeRows
  split_ifs with h <;> simp_all

theorem interchangeRows_apply (M : Nat → Nat → α) (i p r c : Nat) :
    interchangeRows M i p r c = M (Equiv.swap i p r) c := by
  simp only [interchangeRows, Equiv.swap_apply_def]
  split_ifs <;> rfl

end InterchangeLemmas

section LapackCorrectness

variable {α : Type} [LinearOrderedField α]

theorem pivotSearch_foldl_max (M : Nat → Nat → α) (j : Nat) :
    ∀ (l : List Nat) (p : Nat),
      |M p j| ≤ |M (l.foldl (fun p i => if |M p j| < |M i j| then i else p) p) j| ∧
      (∀ i ∈ l, |M i j| ≤ |M (l.foldl (fun p i => if |M p j| < |M i j| then i else p) p) j|) ∧
      (l.foldl (fun p i => if |M p j| < |M i j| then i else p) p = p ∨
        0 < |M (l.foldl (fun p i => if |M p j| < |M i j| then i else p) p) j|) := by
  intro l
  induction l with
  | nil => intro p; simp
  | cons a l ih =>
    intro p
    simp only [List.foldl_cons]
    by_cases hlt : |M p j| < |M a j|
    · rw [if_pos hlt]
      obtain ⟨h1, h2, h3⟩ := ih a
      refine ⟨le_trans (le_of_lt hlt) h1, ?_, ?_⟩
      · intro i hi
        rcases List.mem_cons.mp hi with rfl | hi
        · exact h1
        · exact h2 i hi
      · right
        exact lt_of_lt_of_le (lt_of_le_of_lt (abs_nonneg _) hlt) h1
    · rw [if_neg hlt]
      obtain ⟨h1, h2, h3⟩ := ih p
      refine ⟨h1, ?_, h3⟩
      intro i hi
      rcases List.mem_cons.mp hi with rfl | hi
      · exact le_trans (not_lt.mp hlt) h1
      · exact h2 i hi

/-- The pivot found has the largest absolute value of its column among the rows
`[j, m)`, and the search stays on the diagonal when that value is zero. -/
theorem pivotSearch_max (M : Nat → Nat → α) (j m : Nat) :
    (∀ r, j ≤ r → r < m → |M r j| ≤ |M (pivotSearch M j m) j|) ∧
    (M (pivotSearch M j m) j = 0 → pivotSearch M j m = j) := by
  obtain ⟨h1, h2, h3⟩ := pivotSearch_foldl_max M j (List.range' (j + 1) (m - (j + 1))) j
  refine ⟨?_, ?_⟩
  · intro r hjr hrm
    by_cases hr : r = j
    · subst hr; exact h1
    · apply h2
      rw [List.mem_range'_1]
      omega
  · intro h0
    rcases h3 with h3 | h3
    · exact h3
    · unfold pivotSearch at h0
      rw [h0] at h3
      simp at h3

/-- The elements after step `k`, row by row. -/
theorem lapackStep_fst (m n k : Nat) (st : (Nat → Nat → α) × (Nat → Int)) (r c : Nat) :
    (lapackStep m n k st).1 r c =
      if k < r ∧ r < m then
        (if c = k then
          (if st.1 (pivotSearch st.1 k m) k ≠ 0 then
            interchangeRows st.1 k (pivotSearch st.1 k m) r k /
              interchangeRows st.1 k (pivotSearch st.1 k m) k k
          else interchangeRows st.1 k (pivotSearch st.1 k m) r k)
        else if k < c ∧ c < n then
          interchangeRows st.1 k (pivotSearch st.1 k m) r c -
            (if st.1 (pivotSearch st.1 k m) k ≠ 0 then
              interchangeRows st.1 k (pivotSearch st.1 k m) r k /
                interchangeRows st.1 k (pivotSearch st.1 k m) k k
            else interchangeRows st.1 k (pivotSearch st.1 k m) r k) *
              interchangeRows st.1 k (pivotSearch st.1 k m) k c
        else interchangeRows st.1 k (pivotSearch st.1 k m) r c)
      else interchangeRows st.1 k (pivotSearch st.1 k m) r c := by
  have hz := (pivotSearch_max st.1 k m).2
  by_cases h0 : st.1 (pivotSearch st.1 k m) k = 0
  · have hp := hz h0
    rw [hp] at h0
    simp only [lapackStep, hp, h0, ne_eq, not_true_eq_false, if_false, false_and,
      interchangeRows_self]
    by_cases h1 : k < r ∧ r < m
    · by_cases h2 : c = k
      · subst h2
        have : ¬ (c < r ∧ r < m ∧ c < c ∧ c < n) := by omega
        simp [h1, this]
      · by_cases h3 : k < c ∧ c < n
        · have : k < r ∧ r < m ∧ k < c ∧ c < n := ⟨h1.1, h1.2, h3.1, h3.2⟩
          simp [h1, h2, h3, this]
        · have : ¬ (k < r ∧ r < m ∧ k < c ∧ c < n) := by
            rintro ⟨-, -, h4, h5⟩; exact h3 ⟨h4, h5⟩
          simp [h1, h2, h3, this]
    · have : ¬ (k < r ∧ r < m ∧ k < c ∧ c < n) := by
        rintro ⟨h4, h5, -, -⟩; exact h1 ⟨h4, h5⟩
      simp [h1, this]
  · simp only [lapackStep, h0, ne_eq, not_false_eq_true, if_true, true_and]
    by_cases h1 : k < r ∧ r < m
    · by_cases h2 : c = k
      · subst h2
        have : ¬ (c < r ∧ r < m ∧ c < c ∧ c < n) := by omega
        simp [h1, this]
      · by_cases h3 : k < c ∧ c < n
        · have h4 : k < r ∧ r < m ∧ k < c ∧ c < n := ⟨h1.1, h1.2, h3.1, h3.2⟩
          have h5 : ¬ (k < k ∧ k < m ∧ c = k) := by omega
          have h6 : ¬ (k < r ∧ r < m ∧ c = k) := by tauto
          simp [h1, h2, h3, h4, h5, h6]
        · have h4 : ¬ (k < r ∧ r < m ∧ k < c ∧ c < n) := by
            rintro ⟨-, -, h4, h5⟩; exact h3 ⟨h4, h5⟩
          have h6 : ¬ (k < r ∧ r < m ∧ c = k) := by tauto
          simp [h1, h2, h3, h4, h6]
    · have h4 : ¬ (k < r ∧ r < m ∧ k < c ∧ c < n) := by
        rintro ⟨h4, h5, -, -⟩; exact h1 ⟨h4, h5⟩
      have h6 : ¬ (k < r ∧ r < m ∧ c = k) := by
        rintro ⟨h4, h5, -⟩; exact h1 ⟨h4, h5⟩
      simp [h1, h4, h6]

/-- One step of the factorization keeps the partial factorization of the
row-interchanged matrix. -/
theorem lapackStep_inv (m n k : Nat) (hkm : k < m) (M0 : Nat → Nat → α)
    (st : (Nat → Nat → α) × (Nat → Int))
    (hinv : ∀ r c, r < m → c < n →
      M0 (pivotPerm st.2 k r) c =
        (∑ t in Finset.range k,
          (if r = t then 1 else if t < r then st.1 r t else 0) *
            (if t ≤ c then st.1 t c else 0)) +
        (if k ≤ r ∧ k ≤ c then st.1 r c else 0)) :
    ∀ r c, r < m → c < n →
      M0 (pivotPerm (lapackStep m n k st).2 (k + 1) r) c =
        (∑ t in Finset.range (k + 1),
          (if r = t then 1 else if t < r then (lapackStep m n k st).1 r t else 0) *
            (if t ≤ c then (lapackStep m n k st).1 t c else 0)) +
        (if k + 1 ≤ r ∧ k + 1 ≤ c then (lapackStep m n k st).1 r c else 0) := by
  intro r c hr hc
  have hb := pivotSearch_bounds st.1 k m
  have hmax := (pivotSearch_max st.1 k m).1
  have hpm : pivotSearch st.1 k m < m := by omega
  have hkp : k ≤ pivotSearch st.1 k m := hb.1
  have hperm : pivotPerm (lapackStep m n k st).2 (k + 1) =
      pivotPerm st.2 k * Equiv.swap k (pivotSearch st.1 k m) := by
    simp only [pivotPerm]
    rw [lapackStep_snd,
      pivotPerm_congr _ st.2 k (fun i hi => Function.update_noteq (ne_of_lt hi) _ _)]
    simp
  rw [hperm, Equiv.Perm.mul_apply]
  have hsw : ∀ x, x < k → Equiv.swap k (pivotSearch st.1 k m) x = x := by
    intro x hx
    exact Equiv.swap_apply_of_ne_of_ne (by omega) (by omega)
  have hswr : Equiv.swap k (pivotSearch st.1 k m) r < m := by
    rw [Equiv.swap_apply_def]; split_ifs <;> omega
  have hswk : k ≤ r → k ≤ Equiv.swap k (pivotSearch st.1 k m) r := by
    intro h; rw [Equiv.swap_apply_def]; split_ifs <;> omega
  have hswlt : r < k → Equiv.swap k (pivotSearch st.1 k m) r = r := hsw r
  rw [hinv _ c hswr hc, Finset.sum_range_succ, add_assoc]
  congr 1
  · apply Finset.sum_congr rfl
    intro t ht
    have htk : t < k := Finset.mem_range.mp ht
    have e1 : (lapackStep m n k st).1 t c = st.1 t c := by
      rw [lapackStep_fst, if_neg (by omega), interchangeRows_apply, hsw t htk]
    have e2 : (lapackStep m n k st).1 r t =
        st.1 (Equiv.swap k (pivotSearch st.1 k m) r) t := by
      rw [lapackStep_fst]
      simp only [interchangeRows_apply]
      split_ifs <;> first | rfl | (exfalso; omega)
    rw [e1, e2]
    congr 1
    by_cases hrk : r < k
    · rw [hswlt hrk]
    · have h1 := hswk (by omega)
      have h2 : ¬ r = t := by omega
      have h3 : ¬ Equiv.swap k (pivotSearch st.1 k m) r = t := by omega
      have h4 : t < r := by omega
      have h5 : t < Equiv.swap k (pivotSearch st.1 k m) r := by omega
      simp [h2, h3, h4, h5]
  · have ekc : (lapackStep m n k st).1 k c = interchangeRows st.1 k (pivotSearch st.1 k m) k c := by
      rw [lapackStep_fst, if_neg (by omega)]
    rw [ekc]
    rw [← interchangeRows_apply st.1 k (pivotSearch st.1 k m) r c]
    by_cases hrk : r < k
    · have h1 : ¬ (k ≤ Equiv.swap k (pivotSearch st.1 k m) r ∧ k ≤ c) := by
        rw [hswlt hrk]; omega
      have h2 : ¬ r = k := by omega
      have h3 : ¬ k < r := by omega
      have h4 : ¬ (k + 1 ≤ r ∧ k + 1 ≤ c) := by omega
      simp [h1, h2, h3, h4]
    · have hkr : k ≤ r := by omega
      have h1 := hswk hkr
      by_cases hck : c < k
      · have h2 : ¬ (k ≤ Equiv.swap k (pivotSearch st.1 k m) r ∧ k ≤ c) := by omega
        have h3 : ¬ k ≤ c := by omega
        have h4 : ¬ (k + 1 ≤ r ∧ k + 1 ≤ c) := by omega
        simp [h2, h3, h4]
      · have hkc : k ≤ c := by omega
        rw [if_pos ⟨h1, hkc⟩, if_pos hkc]
        by_cases hrk2 : r = k
        · subst hrk2
          have h4 : ¬ (r + 1 ≤ r ∧ r + 1 ≤ c) := by omega
          simp [h4]
        · have hkr2 : k < r := by omega
          rw [if_neg hrk2, if_pos hkr2]
          rw [lapackStep_fst m n k st r k, if_pos ⟨hkr2, hr⟩, if_pos rfl]
          by_cases hck2 : c = k
          · subst hck2
            have h4 : ¬ (c + 1 ≤ r ∧ c + 1 ≤ c) := by omega
            rw [if_neg h4, add_zero]
            by_cases h0 : st.1 (pivotSearch st.1 c m) c = 0
            · have hz : interchangeRows st.1 c (pivotSearch st.1 c m) r c = 0 := by
                rw [interchangeRows_apply]
                have := hmax _ h1 hswr
                rw [h0, abs_zero] at this
                exact abs_eq_zero.mp (le_antisymm this (abs_nonneg _))
              simp [h0, hz]
            · have hne : interchangeRows st.1 c (pivotSearch st.1 c m) c c ≠ 0 := by
                rw [interchangeRows_apply, Equiv.swap_apply_left]
                exact h0
              rw [if_pos h0]
              field_simp
          · have hkc2 : k < c := by omega
            have h5 : k + 1 ≤ r ∧ k + 1 ≤ c := by omega
            have h6 : k < c ∧ c < n := ⟨hkc2, hc⟩
            have h7 : k < r ∧ r < m := ⟨hkr2, hr⟩
            rw [if_pos h5, lapackStep_fst m n k st r c, if_pos h7, if_neg hck2, if_pos h6]
            ring

theorem lapackGetrf_inv (m n : Nat) (M0 : Nat → Nat → α) (ipiv0 : Nat → Int) :
    ∀ k, k ≤ min m n → ∀ r c, r < m → c < n →
      M0 (pivotPerm
          ((List.range k).foldl (fun st j => lapackStep m n j st) (M0, ipiv0)).2 k r) c =
        (∑ t in Finset.range k,
          (if r = t then 1 else if t < r then
              ((List.range k).foldl (fun st j => lapackStep m n j st) (M0, ipiv0)).1 r t
            else 0) *
            (if t ≤ c then
              ((List.range k).foldl (fun st j => lapackStep m n j st) (M0, ipiv0)).1 t c
            else 0)) +
        (if k ≤ r ∧ k ≤ c then
          ((List.range k).foldl (fun st j => lapackStep m n j st) (M0, ipiv0)).1 r c
        else 0) := by
  intro k
  induction k with
  | zero =>
    intro _ r c _ _
    simp [pivotPerm]
  | succ k ih =>
    intro hk r c hr hc
    rw [lapackGetrf_range_succ]
    exact lapackStep_inv m n k (by omega) M0 _ (ih (by omega)) r c hr hc

/-- The modelled factorization honours the LAPACK contract on every matrix. -/
theorem lapackGetrf_contract (B : DMatrix α) :
    LapackContract B (lapackGetrf B).1 (lapackGetrf B).2 := by
  refine ⟨?_, ?_⟩
  · intro i hi
    have := lapackGetrf_pivots B i hi
    omega
  · intro r c hr hc
    rw [applyInterchanges_eq]
    have h := lapackGetrf_inv B.rows B.columns B.elem (fun _ => 0) (min B.rows B.columns)
      le_rfl r c hr hc
    have hno : ¬ (min B.rows B.columns ≤ r ∧ min B.rows B.columns ≤ c) := by omega
    rw [if_neg hno, add_zero] at h
    exact h

/-- The modelled wrapper honours its contract on every matrix, in both storage
orders. -/
theorem getrfModel_contract (SO1 : Bool) (A : DMatrix α) :
    GetrfContract SO1 A (getrfModel SO1 A).1 (getrfModel SO1 A).2 := by
  cases SO1
  · simp only [GetrfContract, getrfModel, Bool.false_eq_true, if_false]
    exact lapackGetrf_contract A.transpose
  · simp only [GetrfContract, getrfModel, if_true]
    exact lapackGetrf_contract A

end LapackCorrectness

section Examples

theorem getrfModel_rowMajor_exampleA :
    (getrfModel false exampleA).1 0 0 = 2 ∧ (getrfModel false exampleA).1 0 1 = 1 / 2 ∧
    (getrfModel false exampleA).1 1 0 = 3 ∧ (getrfModel false exampleA).1 1 1 = -3 / 2 ∧
    (getrfModel false exampleA).2 0 = 2 ∧ (getrfModel false exampleA).2 1 = 2 := by
  norm_num [getrfModel, lapackGetrf, lapackStep, pivotSearch, List.range, List.range.loop,
    List.range', exampleA, DMatrix.transpose, interchangeRows, Function.update]

theorem getrfModel_columnMajor_exampleA :
    (getrfModel true exampleA).1 0 0 = 1 ∧ (getrfModel true exampleA).1 0 1 = 2 ∧
    (getrfModel true exampleA).1 1 0 = 0 ∧ (getrfModel true exampleA).1 1 1 = 3 ∧
    (getrfModel true exampleA).2 0 = 1 ∧ (getrfModel true exampleA).2 1 = 2 := by
  norm_num [getrfModel, lapackGetrf, lapackStep, pivotSearch, List.range, List.range.loop,
    List.range', exampleA, DMatrix.transpose, interchangeRows, Function.update]

theorem pivots_exampleA (SO1 : Bool) :
    ∀ i, i < min exampleA.rows exampleA.columns →
      1 ≤ (getrfModel SO1 exampleA).2 i ∧
      (getrfModel SO1 exampleA).2 i ≤ ((if SO1 then exampleA.rows else exampleA.columns : Nat) : Int) := by
  intro i hi
  have hi2 : i < 2 := hi
  obtain ⟨-, -, -, -, r0, r1⟩ := getrfModel_rowMajor_exampleA
  obtain ⟨-, -, -, -, c0, c1⟩ := getrfModel_columnMajor_exampleA
  have e1 : exampleA.rows = 2 := rfl
  have e2 : exampleA.columns = 2 := rfl
  cases SO1 <;> interval_cases i <;>
    simp only [r0, r1, c0, c1, e1, e2, Bool.false_eq_true, if_true, if_false] <;> norm_num

theorem pivotPerm_exampleA_rowMajor (j : Nat) :
    pivotPerm (getrfModel false exampleA).2 2 j = if j = 0 then 1 else if j = 1 then 0 else j := by
  obtain ⟨-, -, -, -, r0, r1⟩ := getrfModel_rowMajor_exampleA
  simp only [pivotPerm, r0, r1, Equiv.Perm.mul_apply, Equiv.swap_apply_def]
  simp
  split_ifs <;> simp_all

theorem pivotPerm_exampleA_columnMajor (j : Nat) :
    pivotPerm (getrfModel true exampleA).2 2 j = j := by
  obtain ⟨-, -, -, -, c0, c1⟩ := getrfModel_columnMajor_exampleA
  simp only [pivotPerm, c0, c1, Equiv.Perm.mul_apply, Equiv.swap_apply_def]
  simp
  split_ifs <;> simp_all

/-- The result of `lu` on the row-major `[[1,2],[0,3]]`. -/
theorem lu_exampleA_rowMajor (L0 U0 P0 : DMatrix ℚ) :
    ∃ L U P, lu getrfModel false exampleA L0 U0 P0 = some (L, U, P) ∧
      L.rows = 2 ∧ L.columns = 2 ∧ U.rows = 2 ∧ U.columns = 2 ∧ P.rows = 2 ∧ P.columns = 2 ∧
      (L.elem 0 0 = 2 ∧ L.elem 0 1 = 0 ∧ L.elem 1 0 = 3 ∧ L.elem 1 1 = -3 / 2) ∧
      (U.elem 0 0 = 1 ∧ U.elem 0 1 = 1 / 2 ∧ U.elem 1 0 = 0 ∧ U.elem 1 1 = 1) ∧
      (P.elem 0 0 = 0 ∧ P.elem 0 1 = 1 ∧ P.elem 1 0 = 1 ∧ P.elem 1 1 = 0) := by
  obtain ⟨L, U, P, hlu, hLr, hLc, hUr, hUc, hPr, hPc, hL, hU, hP⟩ :=
    lu_eq getrfModel false exampleA L0 U0 P0 (pivots_exampleA false)
  obtain ⟨f00, f01, f10, f11, -, -⟩ := getrfModel_rowMajor_exampleA
  have e1 : exampleA.rows = 2 := rfl
  have e2 : exampleA.columns = 2 := rfl
  simp only [e1, e2, min_self, Bool.false_eq_true, if_false] at hLr hLc hUr hUc hPr hPc hL hU hP
  refine ⟨L, U, P, hlu, hLr, hLc, hUr, hUc, hPr, hPc, ⟨?_, ?_, ?_, ?_⟩, ⟨?_, ?_, ?_, ?_⟩,
    ⟨?_, ?_, ?_, ?_⟩⟩
  · rw [hL 0 0 (by omega) (by omega)]; simp [f00]
  · rw [hL 0 1 (by omega) (by omega)]; simp
  · rw [hL 1 0 (by omega) (by omega)]; simp [f10]
  · rw [hL 1 1 (by omega) (by omega)]; simp [f11]
  · rw [hU 0 0 (by omega) (by omega)]; simp
  · rw [hU 0 1 (by omega) (by omega)]; simp [f01]
  · rw [hU 1 0 (by omega) (by omega)]; simp
  · rw [hU 1 1 (by omega) (by omega)]; simp
  · rw [hP 0 0 (by omega) (by omega), pivotPerm_exampleA_rowMajor]; simp
  · rw [hP 0 1 (by omega) (by omega), pivotPerm_exampleA_rowMajor]; simp
  · rw [hP 1 0 (by omega) (by omega), pivotPerm_exampleA_rowMajor]; simp
  · rw [hP 1 1 (by omega) (by omega), pivotPerm_exampleA_rowMajor]; simp

/-- The result of `lu` on the column-major `[[1,2],[0,3]]`. -/
theorem lu_exampleA_columnMajor (L0 U0 P0 : DMatrix ℚ) :
    ∃ L U P, lu getrfModel true exampleA L0 U0 P0 = some (L, U, P) ∧
      L.rows = 2 ∧ L.columns = 2 ∧ U.rows = 2 ∧ U.columns = 2 ∧ P.rows = 2 ∧ P.columns = 2 ∧
      (L.elem 0 0 = 1 ∧ L.elem 0 1 = 0 ∧ L.elem 1 0 = 0 ∧ L.elem 1 1 = 1) ∧
      (U.elem 0 0 = 1 ∧ U.elem 0 1 = 2 ∧ U.elem 1 0 = 0 ∧ U.elem 1 1 = 3) ∧
      (P.elem 0 0 = 1 ∧ P.elem 0 1 = 0 ∧ P.elem 1 0 = 0 ∧ P.elem 1 1 = 1) := by
  obtain ⟨L, U, P, hlu, hLr, hLc, hUr, hUc, hPr, hPc, hL, hU, hP⟩ :=
    lu_eq getrfModel true exampleA L0 U0 P0 (pivots_exampleA true)
  obtain ⟨f00, f01, f10, f11, -, -⟩ := getrfModel_columnMajor_exampleA
  have e1 : exampleA.rows = 2 := rfl
  have e2 : exampleA.columns = 2 := rfl
  simp only [e1, e2, min_self, if_true] at hLr hLc hUr hUc hPr hPc hL hU hP
  refine ⟨L, U, P, hlu, hLr, hLc, hUr, hUc, hPr, hPc, ⟨?_, ?_, ?_, ?_⟩, ⟨?_, ?_, ?_, ?_⟩,
    ⟨?_, ?_, ?_, ?_⟩⟩
  · rw [hL 0 0 (by omega) (by omega)]; simp
  · rw [hL 0 1 (by omega) (by omega)]; simp
  · rw [hL 1 0 (by omega) (by omega)]; simp [f10]
  · rw [hL 1 1 (by omega) (by omega)]; simp
  · rw [hU 0 0 (by omega) (by omega)]; simp [f00]
  · rw [hU 0 1 (by omega) (by omega)]; simp [f01]
  · rw [hU 1 0 (by omega) (by omega)]; simp
  · rw [hU 1 1 (by omega) (by omega)]; simp [f11]
  · rw [hP 0 0 (by omega) (by omega), pivotPerm_exampleA_columnMajor]; simp
  · rw [hP 0 1 (by omega) (by omega), pivotPerm_exampleA_columnMajor]; simp
  · rw [hP 1 0 (by omega) (by omega), pivotPerm_exampleA_columnMajor]; simp
  · rw [hP 1 1 (by omega) (by omega), pivotPerm_exampleA_columnMajor]; simp

end Examples

/-! ## Theorems: LU decomposition -/

/-- C5: for every shape, both storage orders and every pivot array with 1-based entries
in `[1, size]`, `lu( A, P )` succeeds and writes a `size`-by-`size` matrix `P`, with
`size = m` for a column-major and `size = n` for a row-major `A`; every element of `P` is
0 or 1, each row and each column of `P` holds exactly one 1, and `P` does not depend on
what the argument `P` held before. -/
theorem luP_permutation_matrix {α : Type} [Zero α] [One α] [NeZero (1 : α)]
    (getrf : Bool → DMatrix α → (Nat → Nat → α) × (Nat → Int))
    (SO1 : Bool) (A P0 : DMatrix α)
    (hpiv : ∀ i, i < min A.rows A.columns →
      1 ≤ (getrf SO1 A).2 i ∧
      (getrf SO1 A).2 i ≤ ((if SO1 = columnMajor then A.rows else A.columns : Nat) : Int)) :
    ∃ F P, luP getrf SO1 A P0 = some (F, P) ∧
      P.rows = (if SO1 = columnMajor then A.rows else A.columns) ∧
      P.columns = (if SO1 = columnMajor then A.rows else A.columns) ∧
      (∀ r c, r < P.rows → c < P.columns → P.elem r c = 0 ∨ P.elem r c = 1) ∧
      (∀ r, r < P.rows → ∃! c, c < P.columns ∧ P.elem r c = 1) ∧
      (∀ c, c < P.columns → ∃! r, r < P.rows ∧ P.elem r c = 1) ∧
      ∀ P1, luP getrf SO1 A P1 = luP getrf SO1 A P0 := by
  have hms : min A.rows A.columns ≤ (if SO1 then A.rows else A.columns) := by
    cases SO1 <;> simp
  have hfix := pivotPerm_fixes (getrf SO1 A).2 (if SO1 then A.rows else A.columns)
    (min A.rows A.columns) hms hpiv
  obtain ⟨P, hP, hr, hc, hel⟩ := luP_eq getrf SO1 A P0 hpiv
  have h10 : (1 : α) ≠ 0 := one_ne_zero
  refine ⟨_, P, hP, hr, hc, ?_, ?_, ?_, ?_⟩
  · intro r c hrr hcc
    rw [hr] at hrr
    rw [hc] at hcc
    rw [hel r c hrr hcc]
    split_ifs <;> simp
  · intro r hrr
    rw [hr] at hrr
    rw [hc]
    cases SO1
    · simp only [Bool.false_eq_true, if_false] at hel hrr hfix ⊢
      refine ⟨pivotPerm (getrf false A).2 (min A.rows A.columns) r,
        ⟨perm_lt_of_fixes _ _ hfix r hrr, ?_⟩, ?_⟩
      · rw [hel r _ hrr (perm_lt_of_fixes _ _ hfix r hrr)]
        simp
      · rintro c ⟨hcc, h1⟩
        rw [hel r c hrr hcc] at h1
        by_contra hne
        rw [if_neg (fun h => hne h.symm)] at h1
        exact h10 h1.symm
    · simp only [if_true] at hel hrr hfix ⊢
      refine ⟨(pivotPerm (getrf true A).2 (min A.rows A.columns)).symm r,
        ⟨perm_symm_lt_of_fixes _ _ hfix r hrr, ?_⟩, ?_⟩
      · rw [hel r _ hrr (perm_symm_lt_of_fixes _ _ hfix r hrr)]
        simp
      · rintro c ⟨hcc, h1⟩
        rw [hel r c hrr hcc] at h1
        by_contra hne
        have : ¬ pivotPerm (getrf true A).2 (min A.rows A.columns) c = r := by
          intro h
          apply hne
          rw [← h]; simp
        rw [if_neg this] at h1
        exact h10 h1.symm
  · intro c hcc
    rw [hc] at hcc
    rw [hr]
    cases SO1
    · simp only [Bool.false_eq_true, if_false] at hel hcc hfix ⊢
      refine ⟨(pivotPerm (getrf false A).2 (min A.rows A.columns)).symm c,
        ⟨perm_symm_lt_of_fixes _ _ hfix c hcc, ?_⟩, ?_⟩
      · rw [hel _ c (perm_symm_lt_of_fixes _ _ hfix c hcc) hcc]
        simp
      · rintro r ⟨hrr, h1⟩
        rw [hel r c hrr hcc] at h1
        by_contra hne
        have : ¬ pivotPerm (getrf false A).2 (min A.rows A.columns) r = c := by
          intro h
          apply hne
          rw [← h]; simp
        rw [if_neg this] at h1
        exact h10 h1.symm
    · simp only [if_true] at hel hcc hfix ⊢
      refine ⟨pivotPerm (getrf true A).2 (min A.rows A.columns) c,
        ⟨perm_lt_of_fixes _ _ hfix c hcc, ?_⟩, ?_⟩
      · rw [hel _ c (perm_lt_of_fixes _ _ hfix c hcc) hcc]
        simp
      · rintro r ⟨hrr, h1⟩
        rw [hel r c hrr hcc] at h1
        by_contra hne
        rw [if_neg (fun h => hne h.symm)] at h1
        exact h10 h1.symm
  · intro P1
    rfl

/-- Witness of C5: the row-major matrix `[[1,2],[0,3]]` with the pivots of the modelled
factorization. -/
theorem luP_permutation_matrix_witness :
    ∃ F P, luP getrfModel rowMajor exampleA emptyMatrix = some (F, P) ∧
      P.rows = (if rowMajor = columnMajor then exampleA.rows else exampleA.columns) ∧
      P.columns = (if rowMajor = columnMajor then exampleA.rows else exampleA.columns) ∧
      (∀ r c, r < P.rows → c < P.columns → P.elem r c = 0 ∨ P.elem r c = 1) ∧
      (∀ r, r < P.rows → ∃! c, c < P.columns ∧ P.elem r c = 1) ∧
      (∀ c, c < P.columns → ∃! r, r < P.rows ∧ P.elem r c = 1) ∧
      ∀ P1, luP getrfModel rowMajor exampleA P1 = luP getrfModel rowMajor exampleA emptyMatrix :=
  luP_permutation_matrix getrfModel rowMajor exampleA emptyMatrix (pivots_exampleA false)

/-- C6: in exact (commutative) arithmetic and with `getrf` honouring the LAPACK contract,
`lu( A, L, U, P )` succeeds for every shape and yields `A = P * L * U` for a column-major
`A` and `A = L * U * P` for a row-major `A`. -/
theorem lu_reconstructs_A {α : Type} [CommRing α]
    (getrf : Bool → DMatrix α → (Nat → Nat → α) × (Nat → Int))
    (SO1 : Bool) (A L0 U0 P0 : DMatrix α)
    (hc : GetrfContract SO1 A (getrf SO1 A).1 (getrf SO1 A).2) :
    ∃ L U P, lu getrf SO1 A L0 U0 P0 = some (L, U, P) ∧
      (if SO1 = columnMajor then ((P.mul L).mul U).sameAs A
        else ((L.mul U).mul P).sameAs A) :=
  lu_product getrf SO1 A L0 U0 P0 hc

/-- Witness of C6: the row-major matrix `[[1,2],[0,3]]` and the modelled factorization,
which honours the contract there. -/
theorem lu_reconstructs_A_witness :
    GetrfContract rowMajor exampleA (getrfModel rowMajor exampleA).1
      (getrfModel rowMajor exampleA).2 ∧
    ∃ L U P, lu getrfModel rowMajor exampleA emptyMatrix emptyMatrix emptyMatrix =
        some (L, U, P) ∧
      (if rowMajor = columnMajor then ((P.mul L).mul U).sameAs exampleA
        else ((L.mul U).mul P).sameAs exampleA) :=
  ⟨getrfModel_contract false exampleA,
    lu_reconstructs_A getrfModel rowMajor exampleA emptyMatrix emptyMatrix emptyMatrix
      (getrfModel_contract false exampleA)⟩

/-- C7, counterexample: the row-major matrix `A = [[1,2],[0,3]]` is square and
non-singular and the factorization honours its contract on it, yet the element `(0,0)` of
`P * L * U` is 3 where that of `A` is 1; the product that gives `A` back is `L * U * P`. -/
theorem lu_PLU_rowMajor_counterexample :
    exampleA.rows = exampleA.columns ∧
    exampleA.elem 0 0 * exampleA.elem 1 1 - exampleA.elem 0 1 * exampleA.elem 1 0 ≠ 0 ∧
    GetrfContract rowMajor exampleA (getrfModel rowMajor exampleA).1
      (getrfModel rowMajor exampleA).2 ∧
    ∃ L U P, lu getrfModel rowMajor exampleA emptyMatrix emptyMatrix emptyMatrix =
        some (L, U, P) ∧
      ((P.mul L).mul U).elem 0 0 = 3 ∧ exampleA.elem 0 0 = 1 ∧
      ¬ ((P.mul L).mul U).sameAs exampleA := by
  refine ⟨rfl, by norm_num [exampleA], getrfModel_contract false exampleA, ?_⟩
  obtain ⟨L, U, P, hlu, hLr, hLc, hUr, hUc, hPr, hPc, ⟨l00, l01, l10, l11⟩,
    ⟨u00, u01, u10, u11⟩, ⟨p00, p01, p10, p11⟩⟩ :=
    lu_exampleA_rowMajor emptyMatrix emptyMatrix emptyMatrix
  have h3 : ((P.mul L).mul U).elem 0 0 = 3 := by
    simp only [DMatrix.mul, hPc, hLc, Finset.sum_range_succ, Finset.sum_range_zero,
      l00, l01, l10, l11, u00, u01, u10, u11, p00, p01, p10, p11]
    norm_num
  have h1 : exampleA.elem 0 0 = 1 := by simp [exampleA]
  refine ⟨L, U, P, hlu, h3, h1, ?_⟩
  rintro ⟨-, -, hs⟩
  have := hs 0 0 (by simp [DMatrix.mul, hPr]) (by simp [DMatrix.mul, hUc])
  rw [h3, h1] at this
  norm_num at this

/-- C7, amended: for every square matrix `A` (the factorization honouring its contract),
`lu( A, L, U, P )` succeeds with square factors of the size of `A`, and recomputing
`L * U * P` for a row-major `A`, `P * L * U` for a column-major `A`, reproduces `A`
elementwise. -/
theorem lu_roundtrip_square {α : Type} [CommRing α]
    (getrf : Bool → DMatrix α → (Nat → Nat → α) × (Nat → Int))
    (SO1 : Bool) (A L0 U0 P0 : DMatrix α) (hsq : A.rows = A.columns)
    (hc : GetrfContract SO1 A (getrf SO1 A).1 (getrf SO1 A).2) :
    ∃ L U P, lu getrf SO1 A L0 U0 P0 = some (L, U, P) ∧
      (L.rows = A.rows ∧ L.columns = A.rows ∧ U.rows = A.rows ∧ U.columns = A.rows ∧
        P.rows = A.rows ∧ P.columns = A.rows) ∧
      (if SO1 = rowMajor then ((L.mul U).mul P).sameAs A
        else ((P.mul L).mul U).sameAs A) := by
  obtain ⟨L, U, P, hlu, hprod⟩ := lu_product getrf SO1 A L0 U0 P0 hc
  obtain ⟨L2, U2, P2, hlu2, hLr, hLc, hUr, hUc, hPr, hPc, -, -, -⟩ :=
    lu_eq getrf SO1 A L0 U0 P0 (getrfContract_pivots SO1 A _ _ hc)
  rw [hlu] at hlu2
  injection hlu2 with hlu2
  injection hlu2 with e1 hlu2
  injection hlu2 with e2 e3
  subst e1 e2 e3
  refine ⟨L, U, P, hlu, ⟨hLr, by simp [hLc, hsq], by simp [hUr, hsq], by simp [hUc, hsq],
    by cases SO1 <;> simp [hPr, hsq], by cases SO1 <;> simp [hPc, hsq]⟩, ?_⟩
  cases SO1
  · simpa [rowMajor] using hprod
  · simpa [rowMajor] using hprod

/-- Witness of the amended C7: the row-major matrix `[[1,2],[0,3]]`. -/
theorem lu_roundtrip_square_witness :
    ∃ L U P, lu getrfModel rowMajor exampleA emptyMatrix emptyMatrix emptyMatrix =
        some (L, U, P) ∧
      (L.rows = exampleA.rows ∧ L.columns = exampleA.rows ∧ U.rows = exampleA.rows ∧
        U.columns = exampleA.rows ∧ P.rows = exampleA.rows ∧ P.columns = exampleA.rows) ∧
      (if rowMajor = rowMajor then ((L.mul U).mul P).sameAs exampleA
        else ((P.mul L).mul U).sameAs exampleA) :=
  lu_roundtrip_square getrfModel rowMajor exampleA emptyMatrix emptyMatrix emptyMatrix rfl
    (getrfModel_contract false exampleA)

/-- C8, counterexample: in the default (row-major) storage order the factorization of
`A = [[1,2],[0,3]]` pivots over the columns of the first row `(1, 2)`: the first pivot is
the 1-based index 2, the two columns are interchanged, and neither `L` nor `U` nor `P`
is the matrix the scenario expects. -/
theorem lu_scenario_default_order_counterexample :
    (getrfModel defaultStorageOrder exampleA).2 0 = 2 ∧
    ∃ L U P, lu getrfModel defaultStorageOrder exampleA emptyMatrix emptyMatrix emptyMatrix =
        some (L, U, P) ∧
      L.elem 0 0 ≠ 1 ∧ U.elem 0 1 ≠ 2 ∧ P.elem 0 0 ≠ 1 := by
  obtain ⟨-, -, -, -, r0, -⟩ := getrfModel_rowMajor_exampleA
  obtain ⟨L, U, P, hlu, -, -, -, -, -, -, ⟨l00, -, -, -⟩, ⟨-, u01, -, -⟩, ⟨p00, -, -, -⟩⟩ :=
    lu_exampleA_rowMajor emptyMatrix emptyMatrix emptyMatrix
  refine ⟨r0, L, U, P, hlu, ?_, ?_, ?_⟩
  · rw [l00]; norm_num
  · rw [u01]; norm_num
  · rw [p00]; norm_num

/-- C8, amended: for `A = [[1,2],[0,3]]` stored column-major, `lu( A, L, U, P )` performs
no interchange (the pivots are 1, 2) and yields `L = [[1,0],[0,1]]`, `U = [[1,2],[0,3]]`
and `P` the 2-by-2 identity; in the default (row-major) storage order the pivots are
2, 2, the two columns are interchanged, and the result is `L = [[2,0],[3,-3/2]]`,
`U = [[1,1/2],[0,1]]` and `P = [[0,1],[1,0]]`. -/
theorem lu_scenario :
    ((getrfModel columnMajor exampleA).2 0 = 1 ∧ (getrfModel columnMajor exampleA).2 1 = 2 ∧
      ∃ L U P, lu getrfModel columnMajor exampleA emptyMatrix emptyMatrix emptyMatrix =
          some (L, U, P) ∧
        L.rows = 2 ∧ L.columns = 2 ∧ U.rows = 2 ∧ U.columns = 2 ∧ P.rows = 2 ∧ P.columns = 2 ∧
        (L.elem 0 0 = 1 ∧ L.elem 0 1 = 0 ∧ L.elem 1 0 = 0 ∧ L.elem 1 1 = 1) ∧
        (U.elem 0 0 = 1 ∧ U.elem 0 1 = 2 ∧ U.elem 1 0 = 0 ∧ U.elem 1 1 = 3) ∧
        (P.elem 0 0 = 1 ∧ P.elem 0 1 = 0 ∧ P.elem 1 0 = 0 ∧ P.elem 1 1 = 1)) ∧
    ((getrfModel defaultStorageOrder exampleA).2 0 = 2 ∧
      (getrfModel defaultStorageOrder exampleA).2 1 = 2 ∧
      ∃ L U P, lu getrfModel defaultStorageOrder exampleA emptyMatrix emptyMatrix emptyMatrix =
          some (L, U, P) ∧
        L.rows = 2 ∧ L.columns = 2 ∧ U.rows = 2 ∧ U.columns = 2 ∧ P.rows = 2 ∧ P.columns = 2 ∧
        (L.elem 0 0 = 2 ∧ L.elem 0 1 = 0 ∧ L.elem 1 0 = 3 ∧ L.elem 1 1 = -3 / 2) ∧
        (U.elem 0 0 = 1 ∧ U.elem 0 1 = 1 / 2 ∧ U.elem 1 0 = 0 ∧ U.elem 1 1 = 1) ∧
        (P.elem 0 0 = 0 ∧ P.elem 0 1 = 1 ∧ P.elem 1 0 = 1 ∧ P.elem 1 1 = 0)) := by
  obtain ⟨-, -, -, -, r0, r1⟩ := getrfModel_rowMajor_exampleA
  obtain ⟨-, -, -, -, c0, c1⟩ := getrfModel_columnMajor_exampleA
  exact ⟨⟨c0, c1, lu_exampleA_columnMajor emptyMatrix emptyMatrix emptyMatrix⟩,
    ⟨r0, r1, lu_exampleA_rowMajor emptyMatrix emptyMatrix emptyMatrix⟩⟩

/-- C9, counterexample: the row-major matrix `[[1,2],[0,3]]` is square, yet the factor
with the unit diagonal is `U`, and the diagonal of `L` is `2, -3/2`. -/
theorem lu_unit_diagonal_counterexample :
    exampleA.columns ≤ exampleA.rows ∧
    ∃ L U P, lu getrfModel rowMajor exampleA emptyMatrix emptyMatrix emptyMatrix =
        some (L, U, P) ∧
      L.elem 0 0 = 2 ∧ L.elem 1 1 = -3 / 2 ∧ L.elem 0 0 ≠ 1 ∧
      U.elem 0 0 = 1 ∧ U.elem 1 1 = 1 := by
  obtain ⟨L, U, P, hlu, -, -, -, -, -, -, ⟨l00, -, -, l11⟩, ⟨u00, -, -, u11⟩, -⟩ :=
    lu_exampleA_rowMajor emptyMatrix emptyMatrix emptyMatrix
  exact ⟨le_refl 2, L, U, P, hlu, l00, l11, by rw [l00]; norm_num, u00, u11⟩

/-- C9, amended: when `lu` splits the factorized buffer `F`, the factor that receives the
unit diagonal is `L` whenever `A` is column-major and `U` whenever `A` is row-major, in
the wide and in the square/tall branch alike, the other factor receiving the diagonal of
`F`; the positions below the diagonal are zero in `U` and those above it are zero in
`L`. -/
theorem lu_unit_diagonal_by_storage_order {α : Type} [Zero α] [One α]
    (getrf : Bool → DMatrix α → (Nat → Nat → α) × (Nat → Int))
    (SO1 : Bool) (A L0 U0 P0 : DMatrix α)
    (hpiv : ∀ i, i < min A.rows A.columns →
      1 ≤ (getrf SO1 A).2 i ∧
      (getrf SO1 A).2 i ≤ ((if SO1 = columnMajor then A.rows else A.columns : Nat) : Int)) :
    ∃ L U P, lu getrf SO1 A L0 U0 P0 = some (L, U, P) ∧
      (∀ i, i < min A.rows A.columns →
        if SO1 = columnMajor then L.elem i i = 1 ∧ U.elem i i = (getrf SO1 A).1 i i
        else U.elem i i = 1 ∧ L.elem i i = (getrf SO1 A).1 i i) ∧
      (∀ r c, r < min A.rows A.columns → c < A.columns → c < r → U.elem r c = 0) ∧
      (∀ r c, r < A.rows → c < min A.rows A.columns → r < c → L.elem r c = 0) := by
  obtain ⟨L, U, P, hlu, -, -, -, -, -, -, hL, hU, -⟩ := lu_eq getrf SO1 A L0 U0 P0 hpiv
  refine ⟨L, U, P, hlu, ?_, ?_, ?_⟩
  · intro i hi
    have hi1 : i < A.rows := lt_of_lt_of_le hi (Nat.min_le_left _ _)
    have hi2 : i < A.columns := lt_of_lt_of_le hi (Nat.min_le_right _ _)
    cases SO1
    · simp only [columnMajor, Bool.false_eq_true, if_false]
      rw [hU i i hi hi2, hL i i hi1 hi]
      simp
    · simp only [columnMajor, if_true]
      rw [hU i i hi hi2, hL i i hi1 hi]
      simp
  · intro r c hr hc hcr
    rw [hU r c hr hc]
    have h1 : ¬ r ≤ c := by omega
    have h2 : ¬ r = c := by omega
    have h3 : ¬ r < c := by omega
    cases SO1 <;> simp [h1, h2, h3]
  · intro r c hr hc hrc
    rw [hL r c hr hc]
    have h1 : ¬ c ≤ r := by omega
    have h2 : ¬ r = c := by omega
    have h3 : ¬ c < r := by omega
    cases SO1 <;> simp [h1, h2, h3]

/-- Witness of the amended C9: the column-major matrix `[[1,2],[0,3]]`. -/
theorem lu_unit_diagonal_by_storage_order_witness :
    ∃ L U P, lu getrfModel columnMajor exampleA emptyMatrix emptyMatrix emptyMatrix =
        some (L, U, P) ∧
      (∀ i, i < min exampleA.rows exampleA.columns →
        if columnMajor = columnMajor then
          L.elem i i = 1 ∧ U.elem i i = (getrfModel columnMajor exampleA).1 i i
        else U.elem i i = 1 ∧ L.elem i i = (getrfModel columnMajor exampleA).1 i i) ∧
      (∀ r c, r < min exampleA.rows exampleA.columns → c < exampleA.columns → c < r →
        U.elem r c = 0) ∧
      (∀ r c, r < exampleA.rows → c < min exampleA.rows exampleA.columns → r < c →
        L.elem r c = 0) :=
  lu_unit_diagonal_by_storage_order getrfModel columnMajor exampleA emptyMatrix emptyMatrix
    emptyMatrix (pivots_exampleA true)

/-- C10, counterexample: for the 2-by-3 row-major matrix `[[1,2,3],[4,5,6]]` the matrix
`P` is 3-by-3, the number of columns of `A`, not 2-by-2. -/
theorem luP_size_counterexample :
    exampleWide.rows = 2 ∧ exampleWide.columns = 3 ∧
    ∃ F P, luP getrfModel rowMajor exampleWide emptyMatrix = some (F, P) ∧
      P.rows = 3 ∧ P.columns = 3 ∧ P.rows ≠ exampleWide.rows := by
  obtain ⟨P, hP, hr, hc, -⟩ :=
    luP_eq getrfModel false exampleWide emptyMatrix (getrfModel_pivots false exampleWide)
  exact ⟨rfl, rfl, _, P, hP, hr, hc, by rw [hr]; decide⟩

/-- C10, amended: the permutation matrix `P` is resized to `size`-by-`size`, where `size`
is the number of columns of `A` when `A` is row-major (column interchanges) and the
number of rows of `A` when `A` is column-major (row interchanges). -/
theorem luP_size {α : Type} [Zero α] [One α]
    (getrf : Bool → DMatrix α → (Nat → Nat → α) × (Nat → Int))
    (SO1 : Bool) (A P0 : DMatrix α)
    (hpiv : ∀ i, i < min A.rows A.columns →
      1 ≤ (getrf SO1 A).2 i ∧
      (getrf SO1 A).2 i ≤ ((if SO1 = rowMajor then A.columns else A.rows : Nat) : Int)) :
    ∃ F P, luP getrf SO1 A P0 = some (F, P) ∧
      P.rows = (if SO1 = rowMajor then A.columns else A.rows) ∧
      P.columns = (if SO1 = rowMajor then A.columns else A.rows) := by
  have hpiv2 : ∀ i, i < min A.rows A.columns →
      1 ≤ (getrf SO1 A).2 i ∧
      (getrf SO1 A).2 i ≤ ((if SO1 then A.rows else A.columns : Nat) : Int) := by
    intro i hi
    have := hpiv i hi
    cases SO1
    · simpa [rowMajor] using this
    · simpa [rowMajor] using this
  obtain ⟨P, hP, hr, hc, -⟩ := luP_eq getrf SO1 A P0 hpiv2
  refine ⟨_, P, hP, ?_, ?_⟩
  · rw [hr]; cases SO1 <;> simp [rowMajor]
  · rw [hc]; cases SO1 <;> simp [rowMajor]

/-- Witness of the amended C10: the 2-by-3 column-major matrix `[[1,2,3],[4,5,6]]`, whose
`P` is 2-by-2. -/
theorem luP_size_witness :
    ∃ F P, luP getrfModel columnMajor exampleWide emptyMatrix = some (F, P) ∧
      P.rows = (if columnMajor = rowMajor then exampleWide.columns else exampleWide.rows) ∧
      P.columns = (if columnMajor = rowMajor then exampleWide.columns else exampleWide.rows) :=
  luP_size getrfModel columnMajor exampleWide emptyMatrix
    (fun i hi => by simpa [rowMajor, columnMajor] using getrfModel_pivots true exampleWide i hi)

/-- C11: for every `m`-by-`n` input and both storage orders (the pivots lying in
`[1, size]`), `lu( A, L, U, P )` succeeds, `L` is `m`-by-`min(m,n)` with every element
above the main diagonal equal to zero, and `U` is `min(m,n)`-by-`n` with every element
below the main diagonal equal to zero. -/
theorem lu_trapezoidal_factors {α : Type} [Zero α] [One α]
    (getrf : Bool → DMatrix α → (Nat → Nat → α) × (Nat → Int))
    (SO1 : Bool) (A L0 U0 P0 : DMatrix α)
    (hpiv : ∀ i, i < min A.rows A.columns →
      1 ≤ (getrf SO1 A).2 i ∧
      (getrf SO1 A).2 i ≤ ((if SO1 = columnMajor then A.rows else A.columns : Nat) : Int)) :
    ∃ L U P, lu getrf SO1 A L0 U0 P0 = some (L, U, P) ∧
      L.rows = A.rows ∧ L.columns = min A.rows A.columns ∧
      U.rows = min A.rows A.columns ∧ U.columns = A.columns ∧
      (∀ r c, r < L.rows → c < L.columns → r < c → L.elem r c = 0) ∧
      (∀ r c, r < U.rows → c < U.columns → c < r → U.elem r c = 0) := by
  obtain ⟨L, U, P, hlu, hLr, hLc, hUr, hUc, -, -, hL, hU, -⟩ :=
    lu_eq getrf SO1 A L0 U0 P0 hpiv
  refine ⟨L, U, P, hlu, hLr, hLc, hUr, hUc, ?_, ?_⟩
  · intro r c hr hc hrc
    rw [hLr] at hr
    rw [hLc] at hc
    rw [hL r c hr hc]
    have h1 : ¬ c ≤ r := by omega
    have h2 : ¬ r = c := by omega
    have h3 : ¬ c < r := by omega
    cases SO1 <;> simp [h1, h2, h3]
  · intro r c hr hc hcr
    rw [hUr] at hr
    rw [hUc] at hc
    rw [hU r c hr hc]
    have h1 : ¬ r ≤ c := by omega
    have h2 : ¬ r = c := by omega
    have h3 : ¬ r < c := by omega
    cases SO1 <;> simp [h1, h2, h3]

/-- Witness of C11: the wide 2-by-3 row-major matrix `[[1,2,3],[4,5,6]]` with the
modelled factorization. -/
theorem lu_trapezoidal_factors_witness :
    ∃ L U P, lu getrfModel rowMajor exampleWide emptyMatrix emptyMatrix emptyMatrix =
        some (L, U, P) ∧
      L.rows = exampleWide.rows ∧ L.columns = min exampleWide.rows exampleWide.columns ∧
      U.rows = min exampleWide.rows exampleWide.columns ∧ U.columns = exampleWide.columns ∧
      (∀ r c, r < L.rows → c < L.columns → r < c → L.elem r c = 0) ∧
      (∀ r c, r < U.rows → c < U.columns → c < r → U.elem r c = 0) :=
  lu_trapezoidal_factors getrfModel rowMajor exampleWide emptyMatrix emptyMatrix emptyMatrix
    (getrfModel_pivots false exampleWide)

/-! ## Theorems: `Nor` and the type traits -/

section TraitLemmas

theorem bools_shift_eq_iff (l : List Bool) :
    (false :: l) = (l ++ [false]) ↔ ∀ x ∈ l, x = false := by
  induction l with
  | nil => simp
  | cons a l ih =>
    cases a
    · simp only [List.cons_append, List.cons.injEq, true_and, List.mem_cons, forall_eq_or_imp]
      exact ih
    · simp

variable {β : Type}

theorem hasQualifier_Decay (T : CppType β) : hasQualifier (Decay_ T) = false := by
  simp [hasQualifier, IsConst, IsVolatile, IsReference, Decay_]

theorem SchurTrait_unqualified (spec : CppType β → CppType β → Option (ResultType β))
    (fuel : Nat) (T1 T2 : CppType β)
    (h1 : hasQualifier T1 = false) (h2 : hasQualifier T2 = false) :
    SchurTrait spec fuel T1 T2 = some ((spec T1 T2).getD .INVALID_TYPE) := by
  simp only [hasQualifier, Bool.or_eq_false_iff] at h1 h2
  cases fuel <;> cases hs : spec T1 T2 <;> simp [SchurTrait, hs, h1, h2]

theorem SchurTrait_qualified (spec : CppType β → CppType β → Option (ResultType β))
    (T1 T2 : CppType β) (hq : hasQualifier T1 = true ∨ hasQualifier T2 = true)
    (hs : spec T1 T2 = none) :
    SchurTrait spec 0 T1 T2 = none ∧
    ∀ fuel, SchurTrait spec (fuel + 1) T1 T2 = SchurTrait spec fuel (Decay_ T1) (Decay_ T2) := by
  have hc : (IsConst T1 || IsVolatile T1 || IsReference T1 ||
      IsConst T2 || IsVolatile T2 || IsReference T2) = true := by
    simp only [hasQualifier] at hq
    rcases hq with hq | hq
    · simp only [Bool.or_eq_true] at hq ⊢; tauto
    · simp only [Bool.or_eq_true] at hq ⊢; tauto
  constructor
  · simp [SchurTrait, hs, hc]
  · intro fuel
    rw [SchurTrait]
    simp [hs, hc]

theorem TDMatScalarMultExprTrait_unqualified (tr : TypeTraits β) (fuel : Nat)
    (MT ST : CppType β) (h1 : hasQualifier MT = false) (h2 : hasQualifier ST = false) :
    TDMatScalarMultExprTrait tr fuel MT ST =
      some (TDMatScalarMultExprTraitHelper tr MT ST
        (tr.IsDenseMatrix MT && tr.IsColumnMajorMatrix MT && tr.IsNumeric ST)) := by
  simp only [hasQualifier, Bool.or_eq_false_iff] at h1 h2
  cases fuel <;> simp [TDMatScalarMultExprTrait, h1, h2]

theorem TDMatScalarMultExprTrait_qualified (tr : TypeTraits β)
    (MT ST : CppType β) (hq : hasQualifier MT = true ∨ hasQualifier ST = true) :
    TDMatScalarMultExprTrait tr 0 MT ST = none ∧
    ∀ fuel, TDMatScalarMultExprTrait tr (fuel + 1) MT ST =
      TDMatScalarMultExprTrait tr fuel (Decay_ MT) (Decay_ ST) := by
  have hc : (IsConst MT || IsVolatile MT || IsReference MT ||
      IsConst ST || IsVolatile ST || IsReference ST) = true := by
    simp only [hasQualifier] at hq
    rcases hq with hq | hq
    · simp only [Bool.or_eq_true] at hq ⊢; tauto
    · simp only [Bool.or_eq_true] at hq ⊢; tauto
  constructor
  · simp [TDMatScalarMultExprTrait, hc]
  · intro fuel
    rw [TDMatScalarMultExprTrait]
    simp [hc]

theorem TSVecRealExprTrait_unqualified (tr : TypeTraits β) (fuel : Nat)
    (VT : CppType β) (h1 : hasQualifier VT = false) :
    TSVecRealExprTrait tr fuel VT =
      some (if tr.IsSparseVector VT && tr.IsRowVector VT then
          (if tr.IsBuiltin (tr.UnderlyingNumeric_ VT) then
            .type ⟨VT.base, true, VT.isVolatile, true⟩
          else .SVecRealExpr VT true)
        else .INVALID_TYPE) := by
  simp only [hasQualifier] at h1
  cases fuel <;> simp [TSVecRealExprTrait, h1]

theorem TSVecRealExprTrait_qualified (tr : TypeTraits β)
    (VT : CppType β) (hq : hasQualifier VT = true) :
    TSVecRealExprTrait tr 0 VT = none ∧
    ∀ fuel, TSVecRealExprTrait tr (fuel + 1) VT = TSVecRealExprTrait tr fuel (Decay_ VT) := by
  simp only [hasQualifier] at hq
  constructor
  · simp [TSVecRealExprTrait, hq]
  · intro fuel
    rw [TSVecRealExprTrait]
    simp [hq]

end TraitLemmas

/-- C18: for every list of two or more compile-time conditions, `Nor` is true if and
only if every condition is false; `Nor(false,false)` is true, `Nor(true,true)` and
`Nor(true,false)` are false. -/
theorem Nor_true_iff (T1 T2 : Bool) (Ts : List Bool) :
    (Nor T1 T2 Ts = true ↔ (T1 = false ∧ T2 = false ∧ ∀ t ∈ Ts, t = false)) ∧
    Nor false false [] = true ∧ Nor true true [] = false ∧ Nor true false [] = false := by
  refine ⟨?_, by decide, by decide, by decide⟩
  unfold Nor
  rw [decide_eq_true_iff, bools_shift_eq_iff]
  simp

/-- C19: for every pair of operand types that carry no const/volatile/reference
qualifier and are matched by no specialization, `SchurTrait` yields `INVALID_TYPE`,
without any nested instantiation; in particular, the specializations being those of
pairs of matrix types only, it does so for every unqualified pair in which an operand is
not a matrix type (a vector type). -/
theorem SchurTrait_invalid {β : Type}
    (spec : CppType β → CppType β → Option (ResultType β)) (T1 T2 : CppType β)
    (h1 : hasQualifier T1 = false) (h2 : hasQualifier T2 = false) :
    (spec T1 T2 = none → ∀ fuel, SchurTrait spec fuel T1 T2 = some .INVALID_TYPE) ∧
    (∀ IsMatrix : CppType β → Bool, SpecializedForMatricesOnly IsMatrix spec →
      (IsMatrix T1 = false ∨ IsMatrix T2 = false) →
      ∀ fuel, SchurTrait spec fuel T1 T2 = some .INVALID_TYPE) := by
  constructor
  · intro hs fuel
    rw [SchurTrait_unqualified spec fuel T1 T2 h1 h2, hs]
    rfl
  · intro IsMatrix hdoc hv fuel
    have hs : spec T1 T2 = none := by
      cases hsp : spec T1 T2 with
      | none => rfl
      | some r =>
        have := hdoc T1 T2 (by simp [hsp])
        rcases hv with hv | hv
        · rw [hv] at this; exact absurd this.1 (by simp)
        · rw [hv] at this; exact absurd this.2 (by simp)
    rw [SchurTrait_unqualified spec fuel T1 T2 h1 h2, hs]
    rfl

/-- Witness of C19: a dense vector and a column-major dense matrix, unqualified, for
which the table of specializations has no entry. -/
theorem SchurTrait_invalid_witness :
    SchurTrait exampleSpec 0 ⟨.denseVector, false, false, false⟩
      ⟨.columnMajorDenseMatrix, false, false, false⟩ = some .INVALID_TYPE ∧
    SchurTrait exampleSpec 3 ⟨.denseVector, false, false, false⟩
      ⟨.columnMajorDenseMatrix, false, false, false⟩ = some .INVALID_TYPE :=
  ⟨(SchurTrait_invalid exampleSpec ⟨.denseVector, false, false, false⟩
      ⟨.columnMajorDenseMatrix, false, false, false⟩ rfl rfl).1 (by decide) 0,
    (SchurTrait_invalid exampleSpec ⟨.denseVector, false, false, false⟩
      ⟨.columnMajorDenseMatrix, false, false, false⟩ rfl rfl).1 (by decide) 3⟩

/-- C20: qualifier normalization. For `SchurTrait` (the qualified pair matching no
specialization), `TDMatScalarMultExprTrait` and `TSVecRealExprTrait`, when an operand
type carries a const, volatile or reference qualifier the trait has a result `r`, which
is the result for the decayed operand types; it is reached by exactly one nested
instantiation: none is not enough for the qualified types, and the decayed types, which
carry no qualifier, need none. -/
theorem trait_qualifier_normalization {β : Type}
    (spec : CppType β → CppType β → Option (ResultType β)) (tr : TypeTraits β)
    (T1 T2 VT : CppType β)
    (hq : hasQualifier T1 = true ∨ hasQualifier T2 = true) (hv : hasQualifier VT = true)
    (hs : spec T1 T2 = none) :
    (∃ r, SchurTrait spec 0 (Decay_ T1) (Decay_ T2) = some r ∧
      (∀ fuel, SchurTrait spec (fuel + 1) T1 T2 = some r) ∧
      SchurTrait spec 0 T1 T2 = none) ∧
    (∃ r, TDMatScalarMultExprTrait tr 0 (Decay_ T1) (Decay_ T2) = some r ∧
      (∀ fuel, TDMatScalarMultExprTrait tr (fuel + 1) T1 T2 = some r) ∧
      TDMatScalarMultExprTrait tr 0 T1 T2 = none) ∧
    (∃ r, TSVecRealExprTrait tr 0 (Decay_ VT) = some r ∧
      (∀ fuel, TSVecRealExprTrait tr (fuel + 1) VT = some r) ∧
      TSVecRealExprTrait tr 0 VT = none) ∧
    hasQualifier (Decay_ T1) = false ∧ hasQualifier (Decay_ T2) = false ∧
    hasQualifier (Decay_ VT) = false := by
  have d1 := hasQualifier_Decay T1
  have d2 := hasQualifier_Decay T2
  have dv := hasQualifier_Decay VT
  obtain ⟨s0, s1⟩ := SchurTrait_qualified spec T1 T2 hq hs
  obtain ⟨m0, m1⟩ := TDMatScalarMultExprTrait_qualified tr T1 T2 hq
  obtain ⟨v0, v1⟩ := TSVecRealExprTrait_qualified tr VT hv
  refine ⟨⟨_, SchurTrait_unqualified spec 0 _ _ d1 d2, ?_, s0⟩,
    ⟨_, TDMatScalarMultExprTrait_unqualified tr 0 _ _ d1 d2, ?_, m0⟩,
    ⟨_, TSVecRealExprTrait_unqualified tr 0 _ dv, ?_, v0⟩, d1, d2, dv⟩
  · intro fuel
    rw [s1, SchurTrait_unqualified spec fuel _ _ d1 d2]
  · intro fuel
    rw [m1, TDMatScalarMultExprTrait_unqualified tr fuel _ _ d1 d2]
  · intro fuel
    rw [v1, TSVecRealExprTrait_unqualified tr fuel _ dv]

/-- Witness of C20: a `const` column-major dense matrix with an unqualified one (their
decayed pair has a specialization of `SchurTrait`), and a reference to a sparse row
vector. -/
theorem trait_qualifier_normalization_witness :
    (∃ r, SchurTrait exampleSpec 0 (Decay_ ⟨.columnMajorDenseMatrix, true, false, false⟩)
        (Decay_ ⟨.columnMajorDenseMatrix, false, false, false⟩) = some r ∧
      (∀ fuel, SchurTrait exampleSpec (fuel + 1) ⟨.columnMajorDenseMatrix, true, false, false⟩
        ⟨.columnMajorDenseMatrix, false, false, false⟩ = some r) ∧
      SchurTrait exampleSpec 0 ⟨.columnMajorDenseMatrix, true, false, false⟩
        ⟨.columnMajorDenseMatrix, false, false, false⟩ = none) ∧
    (∃ r, TDMatScalarMultExprTrait exampleTraits 0
        (Decay_ ⟨.columnMajorDenseMatrix, true, false, false⟩)
        (Decay_ ⟨.columnMajorDenseMatrix, false, false, false⟩) = some r ∧
      (∀ fuel, TDMatScalarMultExprTrait exampleTraits (fuel + 1)
        ⟨.columnMajorDenseMatrix, true, false, false⟩
        ⟨.columnMajorDenseMatrix, false, false, false⟩ = some r) ∧
      TDMatScalarMultExprTrait exampleTraits 0 ⟨.columnMajorDenseMatrix, true, false, false⟩
        ⟨.columnMajorDenseMatrix, false, false, false⟩ = none) ∧
    (∃ r, TSVecRealExprTrait exampleTraits 0 (Decay_ ⟨.sparseRowVector, false, false, true⟩) =
        some r ∧
      (∀ fuel, TSVecRealExprTrait exampleTraits (fuel + 1)
        ⟨.sparseRowVector, false, false, true⟩ = some r) ∧
      TSVecRealExprTrait exampleTraits 0 ⟨.sparseRowVector, false, false, true⟩ = none) ∧
    hasQualifier (Decay_ (⟨.columnMajorDenseMatrix, true, false, false⟩ : CppType ExampleType)) =
      false ∧
    hasQualifier (Decay_ (⟨.columnMajorDenseMatrix, false, false, false⟩ :
      CppType ExampleType)) = false ∧
    hasQualifier (Decay_ (⟨.sparseRowVector, false, false, true⟩ : CppType ExampleType)) =
      false :=
  trait_qualifier_normalization exampleSpec exampleTraits
    ⟨.columnMajorDenseMatrix, true, false, false⟩ ⟨.columnMajorDenseMatrix, false, false, false⟩
    ⟨.sparseRowVector, false, false, true⟩ (Or.inl rfl) rfl (by decide)

/-- C21: for unqualified types `MT` and `ST`, `TDMatScalarMultExprTrait` has a result
without any nested instantiation; the result is `INVALID_TYPE` if and only if `MT` is
not a column-major dense matrix type or `ST` is not a numeric type, and otherwise it is
a `DMatScalarMultExpr` over `MT` whose storage-order flag is column-major (`true`). -/
theorem TDMatScalarMultExprTrait_invalid_iff {β : Type} (tr : TypeTraits β)
    (MT ST : CppType β) (h1 : hasQualifier MT = false) (h2 : hasQualifier ST = false)
    (fuel : Nat) :
    (TDMatScalarMultExprTrait tr fuel MT ST = some .INVALID_TYPE ↔
      (¬ (tr.IsDenseMatrix MT = true ∧ tr.IsColumnMajorMatrix MT = true) ∨
        ¬ tr.IsNumeric ST = true)) ∧
    ((tr.IsDenseMatrix MT = true ∧ tr.IsColumnMajorMatrix MT = true) ∧ tr.IsNumeric ST = true →
      ∃ ScalarType, TDMatScalarMultExprTrait tr fuel MT ST =
        some (.DMatScalarMultExpr MT ScalarType columnMajor)) ∧
    columnMajor = true := by
  rw [TDMatScalarMultExprTrait_unqualified tr fuel MT ST h1 h2]
  by_cases hc : (tr.IsDenseMatrix MT = true ∧ tr.IsColumnMajorMatrix MT = true) ∧
      tr.IsNumeric ST = true
  · have hb : (tr.IsDenseMatrix MT && tr.IsColumnMajorMatrix MT && tr.IsNumeric ST) = true := by
      simp [hc.1.1, hc.1.2, hc.2]
    refine ⟨?_, fun _ => ⟨_, by rw [hb]; rfl⟩, rfl⟩
    rw [hb]
    simp only [TDMatScalarMultExprTraitHelper, if_true]
    constructor
    · intro h; cases h
    · intro h
      rcases h with h | h
      · exact absurd hc.1 h
      · exact absurd hc.2 h
  · have hb : (tr.IsDenseMatrix MT && tr.IsColumnMajorMatrix MT && tr.IsNumeric ST) = false := by
      cases h3 : tr.IsDenseMatrix MT <;> cases h4 : tr.IsColumnMajorMatrix MT <;>
        cases h5 : tr.IsNumeric ST <;> simp_all
    refine ⟨?_, fun h => absurd h hc, rfl⟩
    rw [hb]
    simp only [TDMatScalarMultExprTraitHelper, Bool.false_eq_true, if_false, true_iff]
    by_contra hn
    push_neg at hn
    exact hc hn

/-- Witness of C21: an unqualified column-major dense matrix and `double`, at the
bound 0. -/
theorem TDMatScalarMultExprTrait_invalid_iff_witness :
    (TDMatScalarMultExprTrait exampleTraits 0 ⟨.columnMajorDenseMatrix, false, false, false⟩
        ⟨.double, false, false, false⟩ = some .INVALID_TYPE ↔
      (¬ (exampleTraits.IsDenseMatrix ⟨.columnMajorDenseMatrix, false, false, false⟩ = true ∧
          exampleTraits.IsColumnMajorMatrix ⟨.columnMajorDenseMatrix, false, false, false⟩ =
            true) ∨
        ¬ exampleTraits.IsNumeric ⟨.double, false, false, false⟩ = true)) ∧
    ((exampleTraits.IsDenseMatrix ⟨.columnMajorDenseMatrix, false, false, false⟩ = true ∧
        exampleTraits.IsColumnMajorMatrix ⟨.columnMajorDenseMatrix, false, false, false⟩ =
          true) ∧
      exampleTraits.IsNumeric ⟨.double, false, false, false⟩ = true →
      ∃ ScalarType, TDMatScalarMultExprTrait exampleTraits 0
          ⟨.columnMajorDenseMatrix, false, false, false⟩ ⟨.double, false, false, false⟩ =
        some (.DMatScalarMultExpr ⟨.columnMajorDenseMatrix, false, false, false⟩ ScalarType
          columnMajor)) ∧
    columnMajor = true :=
  TDMatScalarMultExprTrait_invalid_iff exampleTraits
    ⟨.columnMajorDenseMatrix, false, false, false⟩ ⟨.double, false, false, false⟩ rfl rfl 0

/-- C22: for an unqualified type `VT`, `TSVecRealExprTrait` has a result without any
nested instantiation; the result is `INVALID_TYPE` if and only if `VT` is not a row
(transpose) sparse vector type; for a row sparse vector whose underlying numeric type is
built-in it is `const VT&`, and for every other row sparse vector it is
`SVecRealExpr<VT,true>`. -/
theorem TSVecRealExprTrait_result {β : Type} (tr : TypeTraits β)
    (VT : CppType β) (h1 : hasQualifier VT = false) (fuel : Nat) :
    (TSVecRealExprTrait tr fuel VT = some .INVALID_TYPE ↔
      ¬ (tr.IsSparseVector VT = true ∧ tr.IsRowVector VT = true)) ∧
    (tr.IsSparseVector VT = true ∧ tr.IsRowVector VT = true →
      tr.IsBuiltin (tr.UnderlyingNumeric_ VT) = true →
      TSVecRealExprTrait tr fuel VT = some (.type ⟨VT.base, true, false, true⟩)) ∧
    (tr.IsSparseVector VT = true ∧ tr.IsRowVector VT = true →
      tr.IsBuiltin (tr.UnderlyingNumeric_ VT) = false →
      TSVecRealExprTrait tr fuel VT = some (.SVecRealExpr VT true)) := by
  rw [TSVecRealExprTrait_unqualified tr fuel VT h1]
  have hv : VT.isVolatile = false := by
    simp only [hasQualifier, IsConst, IsVolatile, IsReference, Bool.or_eq_false_iff] at h1
    obtain ⟨⟨-, h3⟩, h4⟩ := h1
    rw [h4] at h3
    simpa using h3
  refine ⟨?_, ?_, ?_⟩
  · by_cases hc : tr.IsSparseVector VT = true ∧ tr.IsRowVector VT = true
    · have hb : (tr.IsSparseVector VT && tr.IsRowVector VT) = true := by simp [hc.1, hc.2]
      rw [hb]
      simp only [if_true]
      constructor
      · intro h
        split_ifs at h <;> cases h
      · intro h; exact absurd hc h
    · have hb : (tr.IsSparseVector VT && tr.IsRowVector VT) = false := by
        cases h3 : tr.IsSparseVector VT <;> cases h4 : tr.IsRowVector VT <;> simp_all
      rw [hb]
      simp [hc]
  · intro hc hbi
    simp [hc.1, hc.2, hbi, hv]
  · intro hc hbi
    simp [hc.1, hc.2, hbi]

/-- Witness of C22: an unqualified sparse row vector of `double`, whose underlying
numeric type is built-in, at the bound 0. -/
theorem TSVecRealExprTrait_result_witness :
    TSVecRealExprTrait exampleTraits 0 ⟨.sparseRowVector, false, false, false⟩ =
      some (.type ⟨.sparseRowVector, true, false, true⟩) :=
  (TSVecRealExprTrait_result exampleTraits ⟨.sparseRowVector, false, false, false⟩ rfl 0).2.1
    (by decide) (by decide)

/-! ## Theorems: the running permutation and the safety of `lu` -/

section RunningPermutLemmas

theorem forLoop_add {σ : Type} (body : Nat → σ → Option σ) (a b : Nat) :
    ∀ (lo : Nat) (s : σ),
      forLoop body (a + b) lo s = (forLoop body a lo s).bind (forLoop body b (lo + a)) := by
  induction a with
  | zero => intro lo s; simp [forLoop]
  | succ a ih =>
    intro lo s
    have h1 : a + 1 + b = (a + b) + 1 := by omega
    rw [h1]
    simp only [forLoop]
    cases hb : body lo s with
    | none => simp
    | some s1 =>
      simp only [Option.some_bind]
      rw [ih (lo + 1) s1]
      have h2 : lo + 1 + a = lo + (a + 1) := by omega
      rw [h2]

theorem forLoop_congr {σ : Type} (body1 body2 : Nat → σ → Option σ) (hi : Nat) :
    ∀ (count lo : Nat) (s : σ), lo + count ≤ hi →
      (∀ i s, lo ≤ i → i < hi → body1 i s = body2 i s) →
      forLoop body1 count lo s = forLoop body2 count lo s := by
  intro count
  induction count with
  | zero => intro lo s _ _; rfl
  | succ k ih =>
    intro lo s hle h
    simp only [forLoop]
    rw [h lo s le_rfl (by omega)]
    cases hb : body2 lo s with
    | none => rfl
    | some s1 =>
      simp only [Option.some_bind]
      exact ih (lo + 1) s1 (by omega) (fun i s hi1 hi2 => h i s (by omega) hi2)

theorem forRange_split {σ : Type} (body : Nat → σ → Option σ) (k hi : Nat) (s : σ)
    (hk : k ≤ hi) :
    forRange 0 hi body s = (forRange 0 k body s).bind (forRange k hi body) := by
  unfold forRange
  have h1 : hi - 0 = (k - 0) + (hi - k) := by omega
  rw [h1, forLoop_add]
  simp

theorem reconstructPermut_congr (mindim size : Nat) (ipiv1 ipiv2 : Nat → Int)
    (h : ∀ i, i < mindim → ipiv1 i = ipiv2 i) :
    reconstructPermut mindim size ipiv1 = reconstructPermut mindim size ipiv2 := by
  unfold reconstructPermut forRange
  apply forLoop_congr _ _ mindim
  · omega
  · intro i s _ hi
    simp only [h i hi]

theorem materializeP_congr {α : Type} [Zero α] [One α] (SO1 : Bool) (size : Nat)
    (permut1 permut2 : Nat → Int) (P0 : DMatrix α)
    (h : ∀ i, i < size → permut1 i = permut2 i) :
    materializeP SO1 size permut1 P0 = materializeP SO1 size permut2 P0 := by
  unfold materializeP forRange
  apply forLoop_congr _ _ size
  · omega
  · intro i s _ hi
    simp only [h i hi]

theorem pivotPerm_bijection (ipiv : Nat → Int) (size k : Nat) (hk : k ≤ size)
    (hpiv : ∀ i, i < k → 1 ≤ ipiv i ∧ ipiv i ≤ size) :
    IsBijectionBelow size (fun j => ((pivotPerm ipiv k j : Nat) : Int)) := by
  have hfix := pivotPerm_fixes ipiv size k hk hpiv
  refine ⟨?_, ?_, ?_⟩
  · intro j hj
    have := perm_lt_of_fixes _ size hfix j hj
    exact ⟨Int.natCast_nonneg _, Int.ofNat_lt.mpr this⟩
  · intro i j _ _ hij
    have h1 : pivotPerm ipiv k i = pivotPerm ipiv k j := Int.ofNat_inj.mp hij
    exact (pivotPerm ipiv k).injective h1
  · intro v hv
    refine ⟨(pivotPerm ipiv k).symm v, perm_symm_lt_of_fixes _ size hfix v hv, ?_⟩
    simp

theorem composedSwaps_eq (ipiv : Nat → Int) :
    ∀ k j, composedSwaps ipiv k j = pivotPerm ipiv k j := by
  intro k
  induction k with
  | zero => intro j; rfl
  | succ k ih =>
    intro j
    simp only [composedSwaps, pivotPerm, Equiv.Perm.mul_apply, ih]
    congr 1

theorem transposition_lt (size i p j : Nat) (hi : i < size) (hp : p < size) (hj : j < size) :
    transposition i p j < size := by
  unfold transposition
  split_ifs <;> assumption

theorem transposition_involutive (i p j : Nat) :
    transposition i p (transposition i p j) = j := by
  unfold transposition
  split_ifs <;> omega

theorem swapProduct_elem {α : Type} [Semiring α] (size : Nat) (ipiv : Nat → Int) :
    ∀ k, k ≤ size → (∀ i, i < k → 1 ≤ ipiv i ∧ ipiv i ≤ size) →
      (swapProduct α size ipiv k).rows = size ∧ (swapProduct α size ipiv k).columns = size ∧
      ∀ r c, r < size → c < size →
        (swapProduct α size ipiv k).elem r c = if pivotPerm ipiv k c = r then 1 else 0 := by
  intro k
  induction k with
  | zero =>
    intro _ _
    refine ⟨rfl, rfl, ?_⟩
    intro r c _ _
    simp only [swapProduct, pivotPerm, Equiv.Perm.one_apply]
    exact if_congr eq_comm rfl rfl
  | succ k ih =>
    intro hk hpiv
    obtain ⟨hr, hc, hel⟩ := ih (by omega) (fun i hi => hpiv i (by omega))
    have h1 := hpiv k (by omega)
    have hp : (ipiv k - 1).toNat < size := by omega
    refine ⟨?_, rfl, ?_⟩
    · simp only [swapProduct, DMatrix.mul, hr]
    · intro r c hrs hcs
      simp only [swapProduct, DMatrix.mul, hc, swapMatrix]
      have ht := transposition_lt size k (ipiv k - 1).toNat c (by omega) hp hcs
      rw [Finset.sum_eq_single (transposition k (ipiv k - 1).toNat c)]
      · rw [transposition_involutive, if_pos rfl, mul_one, hel r _ hrs ht]
        simp only [pivotPerm, Equiv.Perm.mul_apply]
        have : Equiv.swap k (ipiv k - 1).toNat c = transposition k (ipiv k - 1).toNat c := rfl
        exact if_congr (by rw [this]) rfl rfl
      · intro b _ hb
        have : ¬ transposition k (ipiv k - 1).toNat b = c := by
          intro h
          apply hb
          rw [← h, transposition_involutive]
        rw [if_neg this, mul_zero]
      · intro h
        exact absurd (Finset.mem_range.mpr ht) h

theorem luP_congr {α : Type} [Zero α] [One α]
    (getrf : Bool → DMatrix α → (Nat → Nat → α) × (Nat → Int))
    (SO1 : Bool) (A P0 : DMatrix α) (ipiv2 : Nat → Int)
    (h : ∀ i, i < min A.rows A.columns → ipiv2 i = (getrf SO1 A).2 i) :
    luP (fun so B => ((getrf so B).1, ipiv2)) SO1 A P0 = luP getrf SO1 A P0 := by
  unfold luP
  simp only []
  rw [reconstructPermut_congr _ _ ipiv2 (getrf SO1 A).2 h]

theorem lu_congr {α : Type} [Zero α] [One α]
    (getrf : Bool → DMatrix α → (Nat → Nat → α) × (Nat → Int))
    (SO1 : Bool) (A L0 U0 P0 : DMatrix α) (ipiv2 : Nat → Int)
    (h : ∀ i, i < min A.rows A.columns → ipiv2 i = (getrf SO1 A).2 i) :
    lu (fun so B => ((getrf so B).1, ipiv2)) SO1 A L0 U0 P0 = lu getrf SO1 A L0 U0 P0 := by
  unfold lu
  simp only []
  rw [luP_congr getrf SO1 A P0 ipiv2 h]

/-- The pivots of the modelled factorization of the column-major `[[1,2,3],[4,5,6]]`:
the first step exchanges the rows 0 and 1, the second step exchanges nothing. -/
theorem pivots_exampleWide_columnMajor :
    (getrfModel columnMajor exampleWide).2 0 = 2 ∧
    (getrfModel columnMajor exampleWide).2 1 = 2 := by
  constructor
  · have hm : min exampleWide.rows exampleWide.columns = 2 := rfl
    simp only [getrfModel, columnMajor, if_true, lapackGetrf, hm]
    rw [lapackGetrf_range_succ, lapackStep_snd, lapackGetrf_range_succ, lapackStep_snd]
    norm_num [Function.update, pivotSearch, exampleWide, List.range']
  · have h1 := lapackGetrf_pivots exampleWide 1 (by decide)
    have hr : ((exampleWide.rows : Nat) : Int) = 2 := rfl
    rw [hr] at h1
    simp only [getrfModel, columnMajor, if_true]
    omega

theorem composedSwaps_exampleWide_columnMajor :
    composedSwaps (getrfModel columnMajor exampleWide).2 2 0 = 1 ∧
    composedSwaps (getrfModel columnMajor exampleWide).2 2 1 = 0 := by
  obtain ⟨h0, h1⟩ := pivots_exampleWide_columnMajor
  simp [composedSwaps, transposition, h0, h1]

end RunningPermutLemmas

/-- C26: the running permutation array of `lu( A, P )` is a bijection of `[0, size)` after
its initialization to the identity (`k = 0`) and after every pivot step (`k` steps done,
`k ≤ mindim`), for every pivot sequence whose 0-based entries lie in `[0, size)`: the
first `k` steps succeed, the array they leave is a bijection, and the whole loop is the
rest of the loop run from that array. -/
theorem running_permutation_bijection (mindim size : Nat) (ipiv : Nat → Int)
    (hms : mindim ≤ size)
    (hpiv : ∀ i, i < mindim → 0 ≤ ipiv i - 1 ∧ ipiv i - 1 < (size : Int))
    (k : Nat) (hk : k ≤ mindim) :
    ∃ permut, reconstructPermut k size ipiv = some permut ∧
      (k = 0 → permut = fun (i : Nat) => (i : Int)) ∧
      IsBijectionBelow size permut ∧
      reconstructPermut mindim size ipiv =
        forRange k mindim
          (fun i permut =>
            let p := ipiv i - 1
            if p ≠ (i : Int) then swapPermut size permut p i else some permut)
          permut := by
  have hpiv2 : ∀ i, i < k → 1 ≤ ipiv i ∧ ipiv i ≤ (size : Int) := by
    intro i hi
    have := hpiv i (by omega)
    omega
  have hrec := reconstructPermut_eq k size ipiv (by omega) hpiv2
  refine ⟨_, hrec, ?_, pivotPerm_bijection ipiv size k (by omega) hpiv2, ?_⟩
  · intro h0
    subst h0
    funext i
    simp [pivotPerm]
  · have hsplit := forRange_split
      (fun i permut =>
        let p := ipiv i - 1
        if p ≠ (i : Int) then swapPermut size permut p i else some permut)
      k mindim (fun i => (i : Int)) hk
    unfold reconstructPermut at hrec ⊢
    rw [hsplit, hrec]
    rfl

/-- Witness of C26: the pivot array `[2, 2]` (0-based `[1, 1]`) of a 2-by-2 matrix, after
the first of the two pivot steps. -/
theorem running_permutation_bijection_witness :
    ∃ permut, reconstructPermut 1 2 (fun _ => 2) = some permut ∧
      (1 = 0 → permut = fun (i : Nat) => (i : Int)) ∧
      IsBijectionBelow 2 permut ∧
      reconstructPermut 2 2 (fun _ => 2) =
        forRange 1 2
          (fun i permut =>
            let p := (fun _ => (2 : Int)) i - 1
            if p ≠ (i : Int) then swapPermut 2 permut p i else some permut)
          permut :=
  running_permutation_bijection 2 2 (fun _ => 2) (le_refl 2)
    (fun _ _ => ⟨by norm_num, by norm_num⟩) 1 (by decide)

/-- C27: with the pivots of `getrf` in `[1, size]`, the reconstructed array satisfies
`permut[j] = t_0(t_1(...t_{k-1}(j)))` for every `j` in `[0, size)`, where `k = min(m,n)`
and `t_i` exchanges `i` and the 0-based pivot `p_i`; and for a column-major `A` the matrix
`P` written by `lu( A, P )` equals the product `S_0*S_1*...*S_{k-1}` of the elementary
swap matrices. -/
theorem reconstructed_permutation_is_swap_composition {α : Type} [Semiring α]
    (getrf : Bool → DMatrix α → (Nat → Nat → α) × (Nat → Int))
    (SO1 : Bool) (A P0 : DMatrix α)
    (hpiv : ∀ i, i < min A.rows A.columns →
      1 ≤ (getrf SO1 A).2 i ∧
      (getrf SO1 A).2 i ≤ ((if SO1 = columnMajor then A.rows else A.columns : Nat) : Int)) :
    (∃ permut,
      reconstructPermut (min A.rows A.columns)
        (if SO1 = columnMajor then A.rows else A.columns) (getrf SO1 A).2 = some permut ∧
      ∀ j, j < (if SO1 = columnMajor then A.rows else A.columns) →
        permut j = ((composedSwaps (getrf SO1 A).2 (min A.rows A.columns) j : Nat) : Int)) ∧
    (SO1 = columnMajor →
      ∃ F P, luP getrf SO1 A P0 = some (F, P) ∧
        P.sameAs (swapProduct α A.rows (getrf SO1 A).2 (min A.rows A.columns))) := by
  have hsz : (if SO1 = columnMajor then A.rows else A.columns) =
      (if SO1 then A.rows else A.columns) := by
    cases SO1 <;> simp [columnMajor]
  rw [hsz] at hpiv ⊢
  have hms : min A.rows A.columns ≤ (if SO1 then A.rows else A.columns) := by
    cases SO1 <;> simp
  refine ⟨⟨_, reconstructPermut_eq _ _ _ hms hpiv, ?_⟩, ?_⟩
  · intro j _
    simp only [composedSwaps_eq]
  · intro hso
    have hso2 : SO1 = true := hso
    subst hso2
    obtain ⟨P, hP, hr, hc, hel⟩ := luP_eq getrf true A P0 hpiv
    simp only [if_true] at hr hc hel hpiv
    obtain ⟨sr, sc, sel⟩ := swapProduct_elem (α := α) A.rows (getrf true A).2
      (min A.rows A.columns) (by simp) hpiv
    refine ⟨_, P, hP, ?_, ?_, ?_⟩
    · rw [hr, sr]
    · rw [hc, sc]
    · intro i j hi hj
      rw [hr] at hi
      rw [hc] at hj
      rw [hel i j hi hj, sel i j hi hj]

/-- Witness of C27: the column-major matrix `[[1,2,3],[4,5,6]]` with the modelled
factorization, whose first pivot step exchanges the rows 0 and 1 (pivots 2, 2), so that
the composition of the transpositions maps 0 to 1 and 1 to 0. -/
theorem reconstructed_permutation_is_swap_composition_witness :
    ((getrfModel columnMajor exampleWide).2 0 = 2 ∧
      composedSwaps (getrfModel columnMajor exampleWide).2
        (min exampleWide.rows exampleWide.columns) 0 = 1 ∧
      composedSwaps (getrfModel columnMajor exampleWide).2
        (min exampleWide.rows exampleWide.columns) 1 = 0) ∧
    (∃ permut,
      reconstructPermut (min exampleWide.rows exampleWide.columns)
        (if columnMajor = columnMajor then exampleWide.rows else exampleWide.columns)
        (getrfModel columnMajor exampleWide).2 = some permut ∧
      ∀ j, j < (if columnMajor = columnMajor then exampleWide.rows else exampleWide.columns) →
        permut j = ((composedSwaps (getrfModel columnMajor exampleWide).2
          (min exampleWide.rows exampleWide.columns) j : Nat) : Int)) ∧
    (columnMajor = columnMajor →
      ∃ F P, luP getrfModel columnMajor exampleWide emptyMatrix = some (F, P) ∧
        P.sameAs (swapProduct ℚ exampleWide.rows (getrfModel columnMajor exampleWide).2
          (min exampleWide.rows exampleWide.columns))) :=
  ⟨⟨pivots_exampleWide_columnMajor.1, composedSwaps_exampleWide_columnMajor⟩,
    reconstructed_permutation_is_swap_composition getrfModel columnMajor exampleWide
      emptyMatrix
      (fun i hi => by simpa [columnMajor] using getrfModel_pivots true exampleWide i hi)⟩

/-- C28: for every input matrix and every pivot array whose entries lie in `[1, size]`,
both `lu( A, P )` and `lu( A, L, U, P )` complete: every checked index on the permutation
array, `L`, `U` and `P` is within bounds. The pivot array is read only below
`min(m,n)` (the entries from there on do not change the results), and the permutation
array is read only below `size` when `P` is written. -/
theorem lu_never_fails {α : Type} [Zero α] [One α]
    (getrf : Bool → DMatrix α → (Nat → Nat → α) × (Nat → Int))
    (SO1 : Bool) (A L0 U0 P0 : DMatrix α)
    (hpiv : ∀ i, i < min A.rows A.columns →
      1 ≤ (getrf SO1 A).2 i ∧
      (getrf SO1 A).2 i ≤ ((if SO1 = columnMajor then A.rows else A.columns : Nat) : Int)) :
    (∃ F P, luP getrf SO1 A P0 = some (F, P)) ∧
    (∃ L U P, lu getrf SO1 A L0 U0 P0 = some (L, U, P)) ∧
    (∀ ipiv2 : Nat → Int, (∀ i, i < min A.rows A.columns → ipiv2 i = (getrf SO1 A).2 i) →
      luP (fun so B => ((getrf so B).1, ipiv2)) SO1 A P0 = luP getrf SO1 A P0 ∧
      lu (fun so B => ((getrf so B).1, ipiv2)) SO1 A L0 U0 P0 = lu getrf SO1 A L0 U0 P0) ∧
    (∀ permut1 permut2 : Nat → Int,
      (∀ i, i < (if SO1 = columnMajor then A.rows else A.columns) → permut1 i = permut2 i) →
      materializeP SO1 (if SO1 = columnMajor then A.rows else A.columns) permut1 P0 =
        materializeP SO1 (if SO1 = columnMajor then A.rows else A.columns) permut2 P0) := by
  have hsz : (if SO1 = columnMajor then A.rows else A.columns) =
      (if SO1 then A.rows else A.columns) := by
    cases SO1 <;> simp [columnMajor]
  rw [hsz] at hpiv ⊢
  obtain ⟨P, hP, -⟩ := luP_eq getrf SO1 A P0 hpiv
  obtain ⟨L, U, P2, hlu, -⟩ := lu_eq getrf SO1 A L0 U0 P0 hpiv
  exact ⟨⟨_, P, hP⟩, ⟨L, U, P2, hlu⟩,
    fun ipiv2 h => ⟨luP_congr getrf SO1 A P0 ipiv2 h, lu_congr getrf SO1 A L0 U0 P0 ipiv2 h⟩,
    fun permut1 permut2 h => materializeP_congr SO1 _ permut1 permut2 P0 h⟩

/-- Witness of C28: the all-zero (singular) 2-by-2 matrix in column-major order and the
matrix without rows and columns in row-major order, with the modelled factorization. -/
theorem lu_never_fails_witness :
    ((∃ F P, luP getrfModel columnMajor exampleZero emptyMatrix = some (F, P)) ∧
      (∃ L U P, lu getrfModel columnMajor exampleZero emptyMatrix emptyMatrix emptyMatrix =
        some (L, U, P))) ∧
    ((∃ F P, luP getrfModel rowMajor emptyMatrix emptyMatrix = some (F, P)) ∧
      (∃ L U P, lu getrfModel rowMajor emptyMatrix emptyMatrix emptyMatrix emptyMatrix =
        some (L, U, P))) :=
  ⟨⟨(lu_never_fails getrfModel columnMajor exampleZero emptyMatrix emptyMatrix emptyMatrix
      (fun i hi => by simpa [columnMajor] using getrfModel_pivots true exampleZero i hi)).1,
    (lu_never_fails getrfModel columnMajor exampleZero emptyMatrix emptyMatrix emptyMatrix
      (fun i hi => by simpa [columnMajor] using getrfModel_pivots true exampleZero i hi)).2.1⟩,
   ⟨(lu_never_fails getrfModel rowMajor emptyMatrix emptyMatrix emptyMatrix emptyMatrix
      (fun i hi => by
        simpa [rowMajor, columnMajor] using getrfModel_pivots false emptyMatrix i hi)).1,
    (lu_never_fails getrfModel rowMajor emptyMatrix emptyMatrix emptyMatrix emptyMatrix
      (fun i hi => by
        simpa [rowMajor, columnMajor] using getrfModel_pivots false emptyMatrix i hi)).2.1⟩⟩

/-- C29: the split of `lu( A, L, U, P )` keeps every element of the factorized buffer `F`
and is decided by the storage order, for every shape (wide, square or tall): for a
column-major `A`, `U(i,j) = F(i,j)` for `i ≤ j`, `L(i,j) = F(i,j)` for `i > j` and `L`
has a unit diagonal; for a row-major `A`, `L(i,j) = F(i,j)` for `i ≥ j`,
`U(i,j) = F(i,j)` for `i < j` and `U` has a unit diagonal. -/
theorem lu_split_by_storage_order {α : Type} [Zero α] [One α]
    (getrf : Bool → DMatrix α → (Nat → Nat → α) × (Nat → Int))
    (SO1 : Bool) (A L0 U0 P0 : DMatrix α)
    (hpiv : ∀ i, i < min A.rows A.columns →
      1 ≤ (getrf SO1 A).2 i ∧
      (getrf SO1 A).2 i ≤ ((if SO1 = columnMajor then A.rows else A.columns : Nat) : Int)) :
    ∃ L U P, lu getrf SO1 A L0 U0 P0 = some (L, U, P) ∧
      (SO1 = columnMajor →
        (∀ i j, i < A.rows → j < A.columns → i ≤ j → U.elem i j = (getrf SO1 A).1 i j) ∧
        (∀ i j, i < A.rows → j < A.columns → j < i → L.elem i j = (getrf SO1 A).1 i j) ∧
        (∀ i, i < min A.rows A.columns → L.elem i i = 1)) ∧
      (SO1 = rowMajor →
        (∀ i j, i < A.rows → j < A.columns → j ≤ i → L.elem i j = (getrf SO1 A).1 i j) ∧
        (∀ i j, i < A.rows → j < A.columns → i < j → U.elem i j = (getrf SO1 A).1 i j) ∧
        (∀ i, i < min A.rows A.columns → U.elem i i = 1)) := by
  have hsz : (if SO1 = columnMajor then A.rows else A.columns) =
      (if SO1 then A.rows else A.columns) := by
    cases SO1 <;> simp [columnMajor]
  rw [hsz] at hpiv
  obtain ⟨L, U, P, hlu, -, -, -, -, -, -, hL, hU, -⟩ := lu_eq getrf SO1 A L0 U0 P0 hpiv
  refine ⟨L, U, P, hlu, ?_, ?_⟩
  · intro hso
    have hso2 : SO1 = true := hso
    subst hso2
    simp only [if_true] at hL hU
    refine ⟨?_, ?_, ?_⟩
    · intro i j hi hj hij
      rw [hU i j (by omega) hj, if_pos hij]
    · intro i j hi hj hji
      rw [hL i j hi (by omega), if_neg (by omega), if_pos hji]
    · intro i hi
      rw [hL i i (by omega) hi, if_pos rfl]
  · intro hso
    have hso2 : SO1 = false := hso
    subst hso2
    simp only [Bool.false_eq_true, if_false] at hL hU
    refine ⟨?_, ?_, ?_⟩
    · intro i j hi hj hji
      rw [hL i j hi (by omega), if_pos hji]
    · intro i j hi hj hij
      rw [hU i j (by omega) hj, if_neg (by omega), if_pos hij]
    · intro i hi
      rw [hU i i hi (by omega), if_pos rfl]

/-- Witness of C29: the wide 2-by-3 row-major matrix `[[1,2,3],[4,5,6]]` with the
modelled factorization. -/
theorem lu_split_by_storage_order_witness :
    ∃ L U P, lu getrfModel rowMajor exampleWide emptyMatrix emptyMatrix emptyMatrix =
        some (L, U, P) ∧
      (rowMajor = columnMajor →
        (∀ i j, i < exampleWide.rows → j < exampleWide.columns → i ≤ j →
          U.elem i j = (getrfModel rowMajor exampleWide).1 i j) ∧
        (∀ i j, i < exampleWide.rows → j < exampleWide.columns → j < i →
          L.elem i j = (getrfModel rowMajor exampleWide).1 i j) ∧
        (∀ i, i < min exampleWide.rows exampleWide.columns → L.elem i i = 1)) ∧
      (rowMajor = rowMajor →
        (∀ i j, i < exampleWide.rows → j < exampleWide.columns → j ≤ i →
          L.elem i j = (getrfModel rowMajor exampleWide).1 i j) ∧
        (∀ i j, i < exampleWide.rows → j < exampleWide.columns → i < j →
          U.elem i j = (getrfModel rowMajor exampleWide).1 i j) ∧
        (∀ i, i < min exampleWide.rows exampleWide.columns → U.elem i i = 1)) :=
  lu_split_by_storage_order getrfModel rowMajor exampleWide emptyMatrix emptyMatrix emptyMatrix
    (fun i hi => by
      simpa [rowMajor, columnMajor] using getrfModel_pivots false exampleWide i hi)

/-! ## Theorems: `SubTrait` -/

section SubTraitLemmas

variable {β : Type}

theorem SubTrait_of_specialization [DecidableEq β] (env : SubTraitEnv β) (fuel : Nat) (T1 T2 : CppType β)
    (r : ResultType β) (h : SubTraitSpecialization env T1 T2 = some r) :
    SubTrait env fuel T1 T2 = some r := by
  cases fuel <;> simp [SubTrait, h]

theorem SubTrait_base_direct [DecidableEq β] (env : SubTraitEnv β) (fuel : Nat) (T1 T2 : CppType β)
    (h : SubTraitSpecialization env T1 T2 = none) (hc : (T1.isConst && T2.isConst) = false) :
    SubTrait env fuel T1 T2 =
      some (SubTraitEval1 env (declvalLvalue T1) (declvalLvalue T2)) := by
  cases fuel <;> simp [SubTrait, h, hc]

theorem SubTrait_base_const [DecidableEq β] (env : SubTraitEnv β) (fuel : Nat) (T1 T2 : CppType β)
    (h : SubTraitSpecialization env T1 T2 = none) (hc : (T1.isConst && T2.isConst) = true) :
    SubTrait env (fuel + 1) T1 T2 = SubTrait env fuel (Decay_ T1) (Decay_ T2) := by
  simp only [Bool.and_eq_true] at hc
  rw [SubTrait]
  simp [h, hc.1, hc.2]

theorem SubTraitEval1_base (env : SubTraitEnv β) (T1 T2 : CppType β)
    (h1 : env.SubTraitEval1Spec T1 T2 = none) (h2 : env.SubTraitEval2Spec T1 T2 = none) :
    SubTraitEval1 env T1 T2 =
      if env.HasSub_v T1 T2 then .type (env.subtractionType T1 T2) else .INVALID_TYPE := by
  simp [SubTraitEval1, SubTraitEval2, h1, h2]

end SubTraitLemmas

/-- C23, counterexample: two dense vectors of the library are matched by no
specialization of `SubTrait` and can be subtracted, but `SubTrait` of them is not the
type of the subtraction expression (an expression class): it is the vector type that the
specialization of the helper template `SubTraitEval2` declares. -/
theorem SubTrait_helper_specialization_counterexample :
    SubTraitSpecialization vectorSubTraitEnv ⟨.dynamicVector, false, false, false⟩
      ⟨.dynamicVector, false, false, false⟩ = none ∧
    vectorSubTraitEnv.HasSub_v ⟨.dynamicVector, false, false, false⟩
      ⟨.dynamicVector, false, false, false⟩ = true ∧
    vectorSubTraitEnv.subtractionType ⟨.dynamicVector, false, false, false⟩
      ⟨.dynamicVector, false, false, false⟩ = ⟨.dVecDVecSubExpr, false, false, false⟩ ∧
    (∀ fuel, SubTrait vectorSubTraitEnv fuel ⟨.dynamicVector, false, false, false⟩
      ⟨.dynamicVector, false, false, false⟩ =
        some (.type ⟨.dynamicVector, false, false, false⟩)) ∧
    (∀ fuel, SubTrait vectorSubTraitEnv fuel ⟨.dynamicVector, false, false, false⟩
      ⟨.dynamicVector, false, false, false⟩ ≠
        some (.type (vectorSubTraitEnv.subtractionType ⟨.dynamicVector, false, false, false⟩
          ⟨.dynamicVector, false, false, false⟩))) := by
  have hs : SubTraitSpecialization vectorSubTraitEnv ⟨.dynamicVector, false, false, false⟩
      ⟨.dynamicVector, false, false, false⟩ = none := by decide
  have hr : ∀ fuel, SubTrait vectorSubTraitEnv fuel ⟨.dynamicVector, false, false, false⟩
      ⟨.dynamicVector, false, false, false⟩ =
        some (.type ⟨.dynamicVector, false, false, false⟩) := by
    intro fuel
    rw [SubTrait_base_direct vectorSubTraitEnv fuel _ _ hs rfl]
    rfl
  refine ⟨hs, by decide, rfl, hr, ?_⟩
  intro fuel
  rw [hr fuel]
  decide

/-- C23, amended: `SubTrait< T, T >` of a built-in type `T` (not specialized elsewhere) is
`T` without qualifiers. For operand types matched by no specialization of `SubTrait`
and of its helper templates `SubTraitEval1` and `SubTraitEval2`, the result is decided by
the capability check `HasSub_v`: the type of the subtraction expression if the operands
can be subtracted and `INVALID_TYPE` if not. The check is made on the operand types
without reference modifier if they are not both `const`, and on the operand types
without reference modifier and qualifiers (again matched by no specialization) if they
are both `const`. A specialization of a helper template takes precedence over the
capability check. -/
theorem SubTrait_capability_check {β : Type} [DecidableEq β] (env : SubTraitEnv β)
    (T1 T2 : CppType β) (fuel : Nat) :
    (env.SubTraitSpec T1 T1 = none → env.IsBuiltin_v T1 = true →
      SubTrait env fuel T1 T1 = some (.type (Decay_ T1))) ∧
    (SubTraitSpecialization env T1 T2 = none → (T1.isConst && T2.isConst) = false →
      env.SubTraitEval1Spec (declvalLvalue T1) (declvalLvalue T2) = none →
      env.SubTraitEval2Spec (declvalLvalue T1) (declvalLvalue T2) = none →
      SubTrait env fuel T1 T2 =
        some (if env.HasSub_v (declvalLvalue T1) (declvalLvalue T2) then
            .type (env.subtractionType (declvalLvalue T1) (declvalLvalue T2))
          else .INVALID_TYPE)) ∧
    (SubTraitSpecialization env T1 T2 = none → (T1.isConst && T2.isConst) = true →
      SubTraitSpecialization env (Decay_ T1) (Decay_ T2) = none →
      env.SubTraitEval1Spec (Decay_ T1) (Decay_ T2) = none →
      env.SubTraitEval2Spec (Decay_ T1) (Decay_ T2) = none →
      SubTrait env (fuel + 1) T1 T2 =
        some (if env.HasSub_v (Decay_ T1) (Decay_ T2) then
            .type (env.subtractionType (Decay_ T1) (Decay_ T2))
          else .INVALID_TYPE)) ∧
    (SubTraitSpecialization env T1 T2 = none → (T1.isConst && T2.isConst) = false →
      ∀ r, (env.SubTraitEval1Spec (declvalLvalue T1) (declvalLvalue T2) = some r ∨
          (env.SubTraitEval1Spec (declvalLvalue T1) (declvalLvalue T2) = none ∧
            env.SubTraitEval2Spec (declvalLvalue T1) (declvalLvalue T2) = some r)) →
        SubTrait env fuel T1 T2 = some r) := by
  refine ⟨?_, ?_, ?_, ?_⟩
  · intro hs hb
    apply SubTrait_of_specialization
    simp [SubTraitSpecialization, hs, hb]
  · intro hs hc h1 h2
    rw [SubTrait_base_direct env fuel T1 T2 hs hc, SubTraitEval1_base env _ _ h1 h2]
  · intro hs hc hs2 h1 h2
    rw [SubTrait_base_const env fuel T1 T2 hs hc,
      SubTrait_base_direct env fuel _ _ hs2 (by simp [Decay_])]
    have hd : ∀ T : CppType β, declvalLvalue (Decay_ T) = Decay_ T := fun _ => rfl
    rw [hd, hd, SubTraitEval1_base env _ _ h1 h2]
  · intro hs hc r hr
    rw [SubTrait_base_direct env fuel T1 T2 hs hc]
    rcases hr with h1 | ⟨h1, h2⟩
    · simp [SubTraitEval1, h1]
    · simp [SubTraitEval1, SubTraitEval2, h1, h2]

/-- Witness of C23: on the example types, `SubTrait< const double, const double >` is
`double`; two dense vectors can be subtracted and give a dense vector; a dense vector and
a `double` cannot be subtracted and give `INVALID_TYPE`; and for two `const` references
to dense vectors the check is made on the types without qualifiers. -/
theorem SubTrait_capability_check_witness :
    SubTrait exampleSubTraitEnv 0 ⟨.double, true, false, false⟩ ⟨.double, true, false, false⟩ =
      some (.type ⟨.double, false, false, false⟩) ∧
    SubTrait exampleSubTraitEnv 0 ⟨.denseVector, false, false, false⟩
        ⟨.denseVector, false, false, false⟩ =
      some (.type ⟨.denseVector, false, false, false⟩) ∧
    SubTrait exampleSubTraitEnv 0 ⟨.denseVector, false, false, false⟩
        ⟨.double, false, false, false⟩ = some .INVALID_TYPE ∧
    SubTrait exampleSubTraitEnv 1 ⟨.denseVector, true, false, true⟩
        ⟨.denseVector, true, false, true⟩ =
      some (.type ⟨.denseVector, false, false, false⟩) :=
  ⟨(SubTrait_capability_check exampleSubTraitEnv ⟨.double, true, false, false⟩
      ⟨.double, true, false, false⟩ 0).1 rfl (by decide),
   (SubTrait_capability_check exampleSubTraitEnv ⟨.denseVector, false, false, false⟩
      ⟨.denseVector, false, false, false⟩ 0).2.1 (by decide) (by decide) rfl rfl,
   (SubTrait_capability_check exampleSubTraitEnv ⟨.denseVector, false, false, false⟩
      ⟨.double, false, false, false⟩ 0).2.1 (by decide) (by decide) rfl rfl,
   (SubTrait_capability_check exampleSubTraitEnv ⟨.denseVector, true, false, true⟩
      ⟨.denseVector, true, false, true⟩ 0).2.2.1 (by decide) (by decide) (by decide) rfl rfl⟩

/-! ## Theorems: the identity matrix -/

section IdentityLemmas

variable {α : Type}

theorem allElements_iff (M : DMatrix α) (p : Nat → Nat → Bool) :
    M.allElements p = true ↔ ∀ i j, i < M.rows → j < M.columns → p i j = true := by
  simp only [DMatrix.allElements, List.all_eq_true, List.mem_range]
  constructor
  · intro h i j hi hj
    exact h i hi j hj
  · intro h i hi j hj
    exact h i j hi hj

theorem countP_range_eq (n i : Nat) (q : Nat → Bool) (hq : ∀ j, q j = true ↔ j = i) :
    (List.range n).countP q = if i < n then 1 else 0 := by
  induction n with
  | zero => simp
  | succ n ih =>
    rw [List.range_succ, List.countP_append, ih]
    by_cases h1 : i < n
    · have h2 : ¬ n = i := by omega
      have h3 : i < n + 1 := by omega
      have h4 : q n = false := by
        cases hqn : q n
        · rfl
        · exact absurd ((hq n).mp hqn) h2
      simp [h1, h3, h4]
    · by_cases h2 : n = i
      · have h3 : i < n + 1 := by omega
        have h4 : q n = true := (hq n).mpr h2
        simp [h1, h3, h4]
      · have h3 : ¬ i < n + 1 := by omega
        have h4 : q n = false := by
          cases hqn : q n
          · rfl
          · exact absurd ((hq n).mp hqn) h2
        simp [h1, h3, h4]

theorem sum_map_range_one (n : Nat) (f : Nat → Nat) (h : ∀ i, i < n → f i = 1) :
    ((List.range n).map f).sum = n := by
  induction n with
  | zero => simp
  | succ n ih =>
    rw [List.range_succ, List.map_append, List.sum_append, ih (fun i hi => h i (by omega))]
    simp [h n (by omega)]

theorem identity_nonZerosAt [Zero α] [One α] [DecidableEq α] (h10 : (1 : α) ≠ 0)
    (SO : Bool) (I : IdentityMatrix α SO) (i : Nat) (hi : i < I.n_) :
    I.nonZerosAt i = 1 := by
  unfold IdentityMatrix.nonZerosAt
  split_ifs
  · rw [countP_range_eq I.columns i _ (by
      intro j
      simp only [IdentityMatrix.get, decide_eq_true_eq]
      by_cases hij : i = j
      · simp [hij, h10]
      · simp [hij, Ne.symm hij])]
    simp [IdentityMatrix.columns, hi]
  · rw [countP_range_eq I.rows i _ (by
      intro j
      simp only [IdentityMatrix.get, decide_eq_true_eq]
      by_cases hij : j = i
      · simp [hij, h10]
      · simp [hij])]
    simp [IdentityMatrix.rows, hi]

end IdentityLemmas

/-- C24: for every size `n ≥ 0` (the default-constructed identity matrix has size 0) and
both storage orders, the `n`-by-`n` identity matrix has `n` rows, `n` columns and `n`
non-zero elements, one in each row and column, and satisfies `isIdentity`, `isDiagonal`,
`isSymmetric`, `isHermitian`, `isLower`, `isUniLower`, `isUpper` and `isUniUpper`. -/
theorem identity_matrix_structure {α : Type} [Semiring α] [StarRing α] [DecidableEq α]
    (h10 : (1 : α) ≠ 0) (SO : Bool) (n : Nat) :
    (IdentityMatrix.mk n : IdentityMatrix α SO).rows = n ∧
    (IdentityMatrix.mk n : IdentityMatrix α SO).columns = n ∧
    (IdentityMatrix.mk n : IdentityMatrix α SO).nonZeros = n ∧
    (∀ i, i < n → (IdentityMatrix.mk n : IdentityMatrix α SO).nonZerosAt i = 1) ∧
    isIdentity (IdentityMatrix.mk n : IdentityMatrix α SO).toMatrix = true ∧
    isDiagonal (IdentityMatrix.mk n : IdentityMatrix α SO).toMatrix = true ∧
    isSymmetric (IdentityMatrix.mk n : IdentityMatrix α SO).toMatrix = true ∧
    isHermitian (IdentityMatrix.mk n : IdentityMatrix α SO).toMatrix = true ∧
    isLower (IdentityMatrix.mk n : IdentityMatrix α SO).toMatrix = true ∧
    isUniLower (IdentityMatrix.mk n : IdentityMatrix α SO).toMatrix = true ∧
    isUpper (IdentityMatrix.mk n : IdentityMatrix α SO).toMatrix = true ∧
    isUniUpper (IdentityMatrix.mk n : IdentityMatrix α SO).toMatrix = true := by
  have hat : ∀ i, i < n → (IdentityMatrix.mk n : IdentityMatrix α SO).nonZerosAt i = 1 :=
    fun i hi => identity_nonZerosAt h10 SO _ i hi
  refine ⟨rfl, rfl, sum_map_range_one n _ hat, hat, ?_, ?_, ?_, ?_, ?_, ?_, ?_, ?_⟩
  · simp only [isIdentity, Bool.and_eq_true, decide_eq_true_eq, allElements_iff]
    exact ⟨rfl, fun i j _ _ => rfl⟩
  · simp only [isDiagonal, Bool.and_eq_true, decide_eq_true_eq, allElements_iff]
    refine ⟨rfl, fun i j _ _ hij => ?_⟩
    simp [IdentityMatrix.toMatrix, IdentityMatrix.get, hij]
  · simp only [isSymmetric, Bool.and_eq_true, decide_eq_true_eq, allElements_iff]
    refine ⟨rfl, fun i j _ _ => ?_⟩
    simp only [IdentityMatrix.toMatrix, IdentityMatrix.get]
    exact if_congr eq_comm rfl rfl
  · simp only [isHermitian, Bool.and_eq_true, decide_eq_true_eq, allElements_iff]
    refine ⟨rfl, fun i j _ _ => ?_⟩
    simp only [IdentityMatrix.toMatrix, IdentityMatrix.get]
    by_cases hij : i = j
    · simp [hij]
    · simp [hij, Ne.symm hij]
  · simp only [isLower, Bool.and_eq_true, decide_eq_true_eq, allElements_iff]
    refine ⟨rfl, fun i j _ _ hij => ?_⟩
    simp [IdentityMatrix.toMatrix, IdentityMatrix.get, Nat.ne_of_lt hij]
  · simp only [isUniLower, Bool.and_eq_true, decide_eq_true_eq, allElements_iff]
    refine ⟨rfl, fun i j _ _ => ⟨fun hij => ?_, fun hij => ?_⟩⟩
    · simp [IdentityMatrix.toMatrix, IdentityMatrix.get, Nat.ne_of_lt hij]
    · simp [IdentityMatrix.toMatrix, IdentityMatrix.get, hij]
  · simp only [isUpper, Bool.and_eq_true, decide_eq_true_eq, allElements_iff]
    refine ⟨rfl, fun i j _ _ hij => ?_⟩
    simp [IdentityMatrix.toMatrix, IdentityMatrix.get, Nat.ne_of_gt hij]
  · simp only [isUniUpper, Bool.and_eq_true, decide_eq_true_eq, allElements_iff]
    refine ⟨rfl, fun i j _ _ => ⟨fun hij => ?_, fun hij => ?_⟩⟩
    · simp [IdentityMatrix.toMatrix, IdentityMatrix.get, Nat.ne_of_gt hij]
    · simp [IdentityMatrix.toMatrix, IdentityMatrix.get, hij]

/-- Witness of C24: the row-major 3-by-3 identity matrix of integers, as in the tests. -/
theorem identity_matrix_structure_witness :
    (IdentityMatrix.mk 3 : IdentityMatrix ℤ rowMajor).rows = 3 ∧
    (IdentityMatrix.mk 3 : IdentityMatrix ℤ rowMajor).columns = 3 ∧
    (IdentityMatrix.mk 3 : IdentityMatrix ℤ rowMajor).nonZeros = 3 ∧
    (∀ i, i < 3 → (IdentityMatrix.mk 3 : IdentityMatrix ℤ rowMajor).nonZerosAt i = 1) ∧
    isIdentity (IdentityMatrix.mk 3 : IdentityMatrix ℤ rowMajor).toMatrix = true ∧
    isDiagonal (IdentityMatrix.mk 3 : IdentityMatrix ℤ rowMajor).toMatrix = true ∧
    isSymmetric (IdentityMatrix.mk 3 : IdentityMatrix ℤ rowMajor).toMatrix = true ∧
    isHermitian (IdentityMatrix.mk 3 : IdentityMatrix ℤ rowMajor).toMatrix = true ∧
    isLower (IdentityMatrix.mk 3 : IdentityMatrix ℤ rowMajor).toMatrix = true ∧
    isUniLower (IdentityMatrix.mk 3 : IdentityMatrix ℤ rowMajor).toMatrix = true ∧
    isUpper (IdentityMatrix.mk 3 : IdentityMatrix ℤ rowMajor).toMatrix = true ∧
    isUniUpper (IdentityMatrix.mk 3 : IdentityMatrix ℤ rowMajor).toMatrix = true :=
  identity_matrix_structure (by decide) rowMajor 3

/-- C25: for the `n`-by-`n` identity matrix, in both storage orders, `isZero` is true if
and only if `n = 0` and `isUniform` is true if and only if `n ≤ 1`; both are false for
every `n ≥ 2`. -/
theorem identity_matrix_isZero_isUniform {α : Type} [Zero α] [One α] [DecidableEq α]
    (h10 : (1 : α) ≠ 0) (SO : Bool) (n : Nat) :
    (isZero (IdentityMatrix.mk n : IdentityMatrix α SO).toMatrix = true ↔ n = 0) ∧
    (isUniform (IdentityMatrix.mk n : IdentityMatrix α SO).toMatrix = true ↔ n ≤ 1) ∧
    (2 ≤ n → isZero (IdentityMatrix.mk n : IdentityMatrix α SO).toMatrix = false ∧
      isUniform (IdentityMatrix.mk n : IdentityMatrix α SO).toMatrix = false) := by
  have hz : isZero (IdentityMatrix.mk n : IdentityMatrix α SO).toMatrix = true ↔ n = 0 := by
    simp only [isZero, allElements_iff, decide_eq_true_eq]
    constructor
    · intro h
      by_contra hn
      have := h 0 0 (Nat.pos_of_ne_zero hn) (Nat.pos_of_ne_zero hn)
      simp [IdentityMatrix.toMatrix, IdentityMatrix.get] at this
      exact h10 this
    · intro hn i j hi _
      subst hn
      exact absurd hi (Nat.not_lt_zero i)
  have hu : isUniform (IdentityMatrix.mk n : IdentityMatrix α SO).toMatrix = true ↔ n ≤ 1 := by
    simp only [isUniform, allElements_iff, decide_eq_true_eq]
    constructor
    · intro h
      by_contra hn
      have h2 : (1 : Nat) < n := by omega
      have := h 0 1 (by show 0 < n; omega) h2
      simp [IdentityMatrix.toMatrix, IdentityMatrix.get] at this
      exact h10 this.symm
    · intro hn i j hi hj
      have hi0 : i = 0 := by
        have : i < n := hi
        omega
      have hj0 : j = 0 := by
        have : j < n := hj
        omega
      rw [hi0, hj0]
  refine ⟨hz, hu, fun h2 => ⟨?_, ?_⟩⟩
  · cases hb : isZero (IdentityMatrix.mk n : IdentityMatrix α SO).toMatrix
    · rfl
    · have := hz.mp hb
      omega
  · cases hb : isUniform (IdentityMatrix.mk n : IdentityMatrix α SO).toMatrix
    · rfl
    · have := hu.mp hb
      omega

/-- Witness of C25: the column-major 3-by-3 identity matrix of integers, as in the
tests. -/
theorem identity_matrix_isZero_isUniform_witness :
    (isZero (IdentityMatrix.mk 3 : IdentityMatrix ℤ columnMajor).toMatrix = true ↔ 3 = 0) ∧
    (isUniform (IdentityMatrix.mk 3 : IdentityMatrix ℤ columnMajor).toMatrix = true ↔ 3 ≤ 1) ∧
    (2 ≤ 3 → isZero (IdentityMatrix.mk 3 : IdentityMatrix ℤ columnMajor).toMatrix = false ∧
      isUniform (IdentityMatrix.mk 3 : IdentityMatrix ℤ columnMajor).toMatrix = false) :=
  identity_matrix_isZero_isUniform (by decide) columnMajor 3

/-! ## Theorems: `uninitialized_default_construct` -/

section ConstructLemmas

variable {ε : Type}

theorem constructLoop_ok (construct : Nat → Option ε) :
    ∀ (count current : Nat) (s : Storage),
      (∀ i, current ≤ i → i < current + count → construct i = none) →
      constructLoop construct count current s =
        (⟨fun i => if current ≤ i ∧ i < current + count then .constructed else s.slots i,
          s.trace ++ (List.range' current count).map .construct⟩, current + count, none) := by
  intro count
  induction count with
  | zero =>
    intro current s _
    simp only [constructLoop, List.range'_zero, List.map_nil, List.append_nil, Nat.add_zero]
    refine Prod.ext ?_ rfl
    cases s with
    | mk slots trace =>
      simp only [Storage.mk.injEq, and_true]
      funext i
      rw [if_neg (by omega)]
  | succ count ih =>
    intro current s h
    simp only [constructLoop, h current le_rfl (by omega)]
    rw [ih (current + 1) _ (fun i h1 h2 => h i (by omega) (by omega))]
    refine Prod.ext ?_ (Prod.ext (by simp; omega) rfl)
    simp only [Storage.mk.injEq]
    constructor
    · funext i
      by_cases hi : i = current
      · subst hi
        simp
      · simp only [Function.update_noteq hi]
        by_cases h1 : current + 1 ≤ i ∧ i < current + 1 + count
        · rw [if_pos h1, if_pos ⟨by omega, by omega⟩]
        · rw [if_neg h1, if_neg (by omega)]
    · simp [List.range'_succ]

theorem constructLoop_throw (construct : Nat → Option ε) (e : ε) :
    ∀ (k count current : Nat) (s : Storage), k < count →
      (∀ i, current ≤ i → i < current + k → construct i = none) →
      construct (current + k) = some e →
      constructLoop construct count current s =
        (⟨fun i => if current ≤ i ∧ i < current + k then .constructed else s.slots i,
          s.trace ++ (List.range' current (k + 1)).map .construct⟩, current + k, some e) := by
  intro k
  induction k with
  | zero =>
    intro count current s hk _ he
    obtain ⟨c, rfl⟩ : ∃ c, count = c + 1 := ⟨count - 1, by omega⟩
    simp only [Nat.add_zero] at he
    simp only [constructLoop, he]
    refine Prod.ext ?_ rfl
    simp only [Storage.mk.injEq]
    constructor
    · funext i
      rw [if_neg (by omega)]
    · simp [List.range'_succ]
  | succ k ih =>
    intro count current s hk h he
    obtain ⟨c, rfl⟩ : ∃ c, count = c + 1 := ⟨count - 1, by omega⟩
    simp only [constructLoop, h current le_rfl (by omega)]
    rw [ih c (current + 1) _ (by omega) (fun i h1 h2 => h i (by omega) (by omega))
      (by rw [← he]; congr 1; omega)]
    refine Prod.ext ?_ (Prod.ext (by simp; omega) rfl)
    simp only [Storage.mk.injEq]
    constructor
    · funext i
      by_cases hi : i = current
      · subst hi
        simp
      · simp only [Function.update_noteq hi]
        by_cases h1 : current + 1 ≤ i ∧ i < current + 1 + k
        · rw [if_pos h1, if_pos ⟨by omega, by omega⟩]
        · rw [if_neg h1, if_neg (by omega)]
    · simp [List.range'_succ]

theorem destroyLoop_eq :
    ∀ (count first : Nat) (s : Storage),
      destroyLoop count first s =
        ⟨fun i => if first ≤ i ∧ i < first + count then .destroyed else s.slots i,
          s.trace ++ (List.range' first count).map .destroy⟩ := by
  intro count
  induction count with
  | zero =>
    intro first s
    simp only [destroyLoop, List.range'_zero, List.map_nil, List.append_nil, Nat.add_zero]
    cases s with
    | mk slots trace =>
      simp only [Storage.mk.injEq, and_true]
      funext i
      rw [if_neg (by omega)]
  | succ count ih =>
    intro first s
    simp only [destroyLoop]
    rw [ih]
    simp only [Storage.mk.injEq]
    constructor
    · funext i
      by_cases hi : i = first
      · subst hi
        simp
      · simp only [Function.update_noteq hi]
        by_cases h1 : first + 1 ≤ i ∧ i < first + 1 + count
        · rw [if_pos h1, if_pos ⟨by omega, by omega⟩]
        · rw [if_neg h1, if_neg (by omega)]
    · simp [List.range'_succ]

end ConstructLemmas

/-- C30: `uninitialized_default_construct` over the valid range `[first, last)` is
all-or-nothing. If no default construction throws, the function returns and every
element of the range is constructed. If the construction of the element at `first + k`
throws `e` (the earlier ones do not), the function leaves with the same exception `e`;
the operations were the constructions at `first, ..., first + k` followed by the
destructions at `first, ..., first + k - 1` in this order; exactly these `k` elements
are destroyed and every other slot, the failing and the later ones included, is as it
was; so no element of a range of raw memory is left constructed. -/
theorem uninitialized_default_construct_all_or_nothing {ε : Type}
    (construct : Nat → Option ε) (first last : Nat) (s : Storage) (hfl : first ≤ last) :
    ((∀ i, first ≤ i → i < last → construct i = none) →
      uninitialized_default_construct construct first last s =
        (.ok (),
          ⟨fun i => if first ≤ i ∧ i < last then .constructed else s.slots i,
            s.trace ++ (List.range' first (last - first)).map .construct⟩)) ∧
    (∀ (k : Nat) (e : ε), first + k < last →
      (∀ i, first ≤ i → i < first + k → construct i = none) →
      construct (first + k) = some e →
      uninitialized_default_construct construct first last s =
        (.error e,
          ⟨fun i => if first ≤ i ∧ i < first + k then .destroyed else s.slots i,
            s.trace ++ (List.range' first (k + 1)).map .construct ++
              (List.range' first k).map .destroy⟩) ∧
      ((∀ i, first ≤ i → i < last → s.slots i = .raw) →
        ∀ i, first ≤ i → i < last →
          (uninitialized_default_construct construct first last s).2.slots i ≠
            .constructed)) := by
  constructor
  · intro h
    unfold uninitialized_default_construct
    rw [constructLoop_ok construct (last - first) first s
      (fun i h1 h2 => h i h1 (by omega))]
    simp only [Prod.mk.injEq, true_and, Storage.mk.injEq, and_true]
    funext i
    by_cases h1 : first ≤ i ∧ i < last
    · rw [if_pos h1, if_pos ⟨h1.1, by omega⟩]
    · rw [if_neg h1, if_neg (by omega)]
  · intro k e hk h he
    have heq : uninitialized_default_construct construct first last s =
        (.error e,
          ⟨fun i => if first ≤ i ∧ i < first + k then .destroyed else s.slots i,
            s.trace ++ (List.range' first (k + 1)).map .construct ++
              (List.range' first k).map .destroy⟩) := by
      unfold uninitialized_default_construct
      rw [constructLoop_throw construct e k (last - first) first s (by omega) h he]
      simp only [destroyLoop_eq, Nat.add_sub_cancel_left, Prod.mk.injEq, true_and,
        Storage.mk.injEq, and_true]
      funext i
      by_cases h1 : first ≤ i ∧ i < first + k
      · rw [if_pos h1, if_pos h1]
      · rw [if_neg h1, if_neg h1, if_neg h1]
    refine ⟨heq, ?_⟩
    intro hraw i hi1 hi2
    rw [heq]
    simp only []
    by_cases h1 : first ≤ i ∧ i < first + k
    · rw [if_pos h1]
      exact fun hc => Slot.noConfusion hc
    · rw [if_neg h1, hraw i hi1 hi2]
      exact fun hc => Slot.noConfusion hc

/-- Witness of C30: a range of four raw slots, the construction of the third element
throws `out_of_range`. -/
theorem uninitialized_default_construct_all_or_nothing_witness :
    uninitialized_default_construct
        (fun i => if i = 2 then some Exception.out_of_range else none) 0 4 exampleStorage =
      (.error Exception.out_of_range,
        ⟨fun i => if 0 ≤ i ∧ i < 0 + 2 then .destroyed else exampleStorage.slots i,
          exampleStorage.trace ++ (List.range' 0 (2 + 1)).map .construct ++
            (List.range' 0 2).map .destroy⟩) ∧
    ((∀ i, 0 ≤ i → i < 4 → exampleStorage.slots i = .raw) →
      ∀ i, 0 ≤ i → i < 4 →
        (uninitialized_default_construct
          (fun i => if i = 2 then some Exception.out_of_range else none) 0 4
          exampleStorage).2.slots i ≠ .constructed) :=
  (uninitialized_default_construct_all_or_nothing
    (fun i => if i = 2 then some Exception.out_of_range else none) 0 4 exampleStorage
    (by decide)).2 2 Exception.out_of_range (by decide)
    (fun i _ hi => if_neg (by omega)) rfl

end blaze
